import Mathlib

/-!
# Quanergy M-series packet parser: a shallow embedding

The definitions below follow `src/parsers/data_packet_parser_m_series.cpp`
and, for the legacy generator, `include/quanergy/client/pointcloud_generator_m8.h`,
statement by statement.

Conventions of the embedding.

* Machine integers are `Nat`/`Int`; where C++ arithmetic is done in a fixed
  width the reduction modulo `2^w` is written out.
* `double`/`float` values are exact rationals (`ℚ`): rounding error of the
  floating point unit is not modelled.  A range that is `NaN` in the source is
  `none`.
* Angles in radians are kept as rational multiples of π: the stored value `q`
  stands for `q·π`.
* An array or table read is an `Option` when the table is built by the code
  (`none`: the index is outside the table), and a total function of the index
  for the packet's own arrays.
-/

namespace Quanergy

/-! ## Declarations that live in headers outside the sources -/

/-- Modelled from the spec: `M_SERIES_NUM_ROT_ANGLES` is declared in a header
that is not among the sources; the spec gives `N_ROT` = 10400 (the legacy M8
header declares the same value). -/
def M_SERIES_NUM_ROT_ANGLES : Nat := 10400

/-- Modelled from the spec: `M_SERIES_NUM_LASERS` is declared in a header that
is not among the sources; the spec gives `NUM_LASERS` = 8. -/
def M_SERIES_NUM_LASERS : Nat := 8

/-- Modelled from the spec: `M_SERIES_FIRING_PER_PKT` is declared in a header
that is not among the sources; the spec gives `FIRINGS_PER_PKT` = 50. -/
def M_SERIES_FIRING_PER_PKT : Nat := 50

/-- Modelled from the spec: `StatusType::GOOD` is declared in a header that is
not among the sources; the spec gives `GOOD` (0). -/
def StatusType.GOOD : Nat := 0

/-- The remaining constants and member initialisers the parser takes from
headers that are not among the sources.  They are parameters of the model. -/
structure MSeriesDecls where
  /-- The value of `quanergy::client::ALL_RETURNS`. -/
  ALL_RETURNS : Int
  /-- The value of `StatusType::SENSOR_SW_FW_MISMATCH` (16 bit). -/
  SENSOR_SW_FW_MISMATCH : Nat
  /-- The value of `StatusType::WATCHDOG_VIOLATION` (16 bit). -/
  WATCHDOG_VIOLATION : Nat
  /-- The value of `MAX_CLOUD_SIZE`. -/
  MAX_CLOUD_SIZE : Int
  /-- Initial value of the member `frame_id_`. -/
  frame_id_ : String
  /-- Initial value of the member `return_selection_`. -/
  return_selection_ : Int
  /-- Initial value of the member `minimum_cloud_size_`. -/
  minimum_cloud_size_ : Int
  /-- Initial value of the member `maximum_cloud_size_`. -/
  maximum_cloud_size_ : Int
  /-- Initial value of the member `direction_`. -/
  direction_ : Int
  /-- Initial value of the member `previous_status_`. -/
  previous_status_ : Nat
  /-- Initial value of the member `previous_packet_stamp_`. -/
  previous_packet_stamp_ : Nat

/-- One choice of the header values, used to run the model on concrete
packets: `ALL_RETURNS` is −1, the two status flags are bits 0 and 1, the size
ceiling is one million points, and the members start as an idle forward
spinning parser. -/
def referenceDecls : MSeriesDecls where
  ALL_RETURNS := -1
  SENSOR_SW_FW_MISMATCH := 1
  WATCHDOG_VIOLATION := 2
  MAX_CLOUD_SIZE := 1000000
  frame_id_ := ""
  return_selection_ := 0
  minimum_cloud_size_ := 1
  maximum_cloud_size_ := 1000000
  direction_ := 1
  previous_status_ := 0
  previous_packet_stamp_ := 0

/-! ## Points and clouds -/

/-- A polar point `PointHVDIR`.  `h` and `v` are in units of π and are `none`
when the lookup that produced them was outside its table; `d` is the range in
metres, `none` for `NaN`. -/
structure PointHVDIR where
  h : Option ℚ
  v : Option ℚ
  d : Option ℚ
  intensity : Nat
  ring : Nat
  deriving DecidableEq

/-- The range of the point is `NaN`. -/
def PointHVDIR.isNaN (pt : PointHVDIR) : Bool := pt.d.isNone

/-- The header of a cloud: `stamp` (64 bit, microseconds), `seq` (32 bit) and
`frame_id`. -/
structure PCLHeader where
  stamp : Nat
  seq : Nat
  frame_id : String
  deriving DecidableEq

/-- The cloud type `PointCloudHVDIR`, a `pcl::PointCloud` of `PointHVDIR`. -/
structure PointCloudHVDIR where
  header : PCLHeader
  points : List PointHVDIR
  width : Nat
  height : Nat
  is_dense : Bool
  deriving DecidableEq

namespace PointCloudHVDIR

/-- The cloud `new PointCloudHVDIR()`: the library's default constructor
leaves the cloud empty and dense. -/
def new : PointCloudHVDIR :=
  { header := { stamp := 0, seq := 0, frame_id := "" }, points := [], width := 0,
    height := 0, is_dense := true }

/-- Number of points, `size()`. -/
def size (c : PointCloudHVDIR) : Nat := c.points.length

/-- Library `push_back`: appends the point and makes the cloud one row. -/
def push_back (c : PointCloudHVDIR) (pt : PointHVDIR) : PointCloudHVDIR :=
  { c with points := c.points ++ [pt], width := c.points.length + 1, height := 1 }

/-- Library `clear`: removes the points and zeroes the shape; header and
`is_dense` are left as they are. -/
def clear (c : PointCloudHVDIR) : PointCloudHVDIR :=
  { c with points := [], width := 0, height := 0 }

/-- No point of the cloud has a `NaN` range. -/
def noNaN (c : PointCloudHVDIR) : Bool := c.points.all fun pt => !pt.isNaN

end PointCloudHVDIR

/-! ## Packets -/

/-- One firing, `MSeriesFiringData`: the 16 bit encoder `position` and the
words read by `returns_distances[i][j]` (32 bit) and
`returns_intensities[i][j]` (8 bit).  A firing holds three returns for each of
the `M_SERIES_NUM_LASERS` beams. -/
structure MSeriesFiringData where
  position : Nat
  returns_distances : Nat → Nat → Nat
  returns_intensities : Nat → Nat → Nat

/-- A data packet, `MSeriesDataPacket`: `data i` is `data[i]` for
`i < M_SERIES_FIRING_PER_PKT`; `seconds` and `nanoseconds` are 32 bit,
`version` and `status` 16 bit. -/
structure MSeriesDataPacket where
  data : Nat → MSeriesFiringData
  seconds : Nat
  nanoseconds : Nat
  version : Nat
  status : Nat

/-- The fields of the packet fit their machine types. -/
def MSeriesDataPacket.WellFormed (pkt : MSeriesDataPacket) : Prop :=
  pkt.seconds < 2 ^ 32 ∧ pkt.nanoseconds < 2 ^ 32 ∧ pkt.version < 2 ^ 16 ∧
    pkt.status < 2 ^ 16 ∧ ∀ i, i < M_SERIES_FIRING_PER_PKT → (pkt.data i).position < 2 ^ 16

/-! ## The parser object -/

/-- The members of `DataPacketParserMSeries`. -/
structure DataPacketParserMSeries where
  frame_id_ : String
  packet_counter_ : Nat
  cloud_counter_ : Nat
  last_azimuth_ : ℚ
  previous_packet_stamp_ : Nat
  current_cloud_ : PointCloudHVDIR
  worker_cloud_ : PointCloudHVDIR
  horizontal_angle_lookup_table_ : List ℚ
  vertical_angle_lookup_table_ : List ℚ
  return_selection_ : Int
  minimum_cloud_size_ : Int
  maximum_cloud_size_ : Int
  start_azimuth_ : ℚ
  degrees_per_cloud_ : ℚ
  direction_ : Int
  previous_status_ : Nat

/-- Entry `i` of the horizontal angle table as the constructor computes it,
in units of π: `n * M_PI * 2.0 - M_PI` with `n = j / N_ROT` and
`j = (i + N_ROT/2) % N_ROT`. -/
def horizontalAngleEntry (i : Nat) : ℚ :=
  let j : Nat := (i + M_SERIES_NUM_ROT_ANGLES / 2) % M_SERIES_NUM_ROT_ANGLES
  let n : ℚ := (j : ℚ) / (M_SERIES_NUM_ROT_ANGLES : ℚ)
  n * 2 - 1

/-- The constructor `DataPacketParserMSeries()`: the table loop runs over
`i = 0 .. N_ROT` inclusive. -/
def DataPacketParserMSeries.ctor (K : MSeriesDecls) : DataPacketParserMSeries where
  frame_id_ := K.frame_id_
  packet_counter_ := 0
  cloud_counter_ := 0
  last_azimuth_ := 65000
  previous_packet_stamp_ := K.previous_packet_stamp_
  current_cloud_ := PointCloudHVDIR.new
  worker_cloud_ := PointCloudHVDIR.new
  horizontal_angle_lookup_table_ :=
    (List.range (M_SERIES_NUM_ROT_ANGLES + 1)).map horizontalAngleEntry
  vertical_angle_lookup_table_ := []
  return_selection_ := K.return_selection_
  minimum_cloud_size_ := K.minimum_cloud_size_
  maximum_cloud_size_ := K.maximum_cloud_size_
  start_azimuth_ := 0
  degrees_per_cloud_ := 360
  direction_ := K.direction_
  previous_status_ := K.previous_status_

/-- The table `M8_VERTICAL_ANGLES` of the legacy header (radians). -/
def M8_VERTICAL_ANGLES : List ℚ :=
  [-318505 / 1000000, -2692 / 10000, -218009 / 1000000, -165195 / 1000000,
    -111003 / 1000000, -557982 / 10000000, 0, 557982 / 10000000]

/-- Errors the setters raise. -/
inductive ConfigError where
  | InvalidReturnSelection
  | InvalidCloudSizeLimits
  | InvalidDegreesPerCloud
  | InvalidVerticalAngles
  deriving DecidableEq

/-- The setter `setVerticalAngles(const std::vector<double>&)`. -/
def DataPacketParserMSeries.setVerticalAngles (self : DataPacketParserMSeries)
    (vertical_angles : List ℚ) : Except ConfigError DataPacketParserMSeries :=
  if vertical_angles.length ≠ M_SERIES_NUM_LASERS then
    .error .InvalidVerticalAngles
  else
    .ok { self with
      vertical_angle_lookup_table_ :=
        (List.range M_SERIES_NUM_LASERS).map fun i => vertical_angles.getD i 0 }

/-- The setter `setReturnSelection`. -/
def DataPacketParserMSeries.setReturnSelection (K : MSeriesDecls)
    (self : DataPacketParserMSeries) (return_selection : Int) :
    Except ConfigError DataPacketParserMSeries :=
  if return_selection ≠ K.ALL_RETURNS ∧
      (return_selection < 0 ∨ return_selection ≥ (M_SERIES_NUM_LASERS : Int)) then
    .error .InvalidReturnSelection
  else
    .ok { self with return_selection_ := return_selection }

/-- The setter `setCloudSizeLimits`. -/
def DataPacketParserMSeries.setCloudSizeLimits (K : MSeriesDecls)
    (self : DataPacketParserMSeries) (szmin szmax : Int) :
    Except ConfigError DataPacketParserMSeries :=
  if szmin > K.MAX_CLOUD_SIZE ∨ szmax > K.MAX_CLOUD_SIZE then
    .error .InvalidCloudSizeLimits
  else
    let s1 := if szmin > 0 then { self with minimum_cloud_size_ := max 1 szmin } else self
    let s2 :=
      if szmax > 0 then { s1 with maximum_cloud_size_ := max s1.minimum_cloud_size_ szmax }
      else s1
    .ok s2

/-- The setter `setDegreesOfSweepPerCloud`. -/
def DataPacketParserMSeries.setDegreesOfSweepPerCloud (self : DataPacketParserMSeries)
    (degrees_per_cloud : ℚ) : Except ConfigError DataPacketParserMSeries :=
  if degrees_per_cloud < 0 ∨ degrees_per_cloud > 360 then
    .error .InvalidDegreesPerCloud
  else
    .ok { self with degrees_per_cloud_ := degrees_per_cloud }

/-! ## `organizeCloud` -/

/-- The two loops of `organizeCloud`: rings from the top (`i = NUM_LASERS-1`)
down to 0, and for each ring the columns `j = 0 .. width-1`; the point at
`temp_index = j * NUM_LASERS + i` of `current_pc` is pushed onto `temp_pc`. -/
def organizeLoop (current_pc : PointCloudHVDIR) (width : Nat) (temp_pc : PointCloudHVDIR) :
    PointCloudHVDIR :=
  (List.range M_SERIES_NUM_LASERS).reverse.foldl
    (fun t i =>
      (List.range width).foldl
        (fun t j =>
          match current_pc.points[j * M_SERIES_NUM_LASERS + i]? with
          | some pt => t.push_back pt
          | none => t)
        t)
    temp_pc

/-- The member `organizeCloud(current_pc, temp_pc)`, returning the new values
of the two (swapped) pointers, `current_pc` first. -/
def organizeCloud (current_pc temp_pc : PointCloudHVDIR) :
    PointCloudHVDIR × PointCloudHVDIR :=
  let temp0 := temp_pc.clear
  let temp1 : PointCloudHVDIR :=
    { temp0 with
      header :=
        { stamp := current_pc.header.stamp, seq := current_pc.header.seq,
          frame_id := current_pc.header.frame_id } }
  let width := current_pc.size / M_SERIES_NUM_LASERS
  let temp2 := organizeLoop current_pc width temp1
  -- current_pc.swap(temp_pc)
  ({ temp2 with height := M_SERIES_NUM_LASERS, width := width }, current_pc)

/-! ## `parse` -/

/-- Errors `parse` raises. -/
inductive ParseError where
  | InvalidVerticalAngles
  | FirmwareVersionMismatchError
  | FirmwareWatchdogViolationError
  deriving DecidableEq

/-- An `int32` operand as the comparison with `size()` sees it: converted to
the unsigned 64 bit type of `size()`. -/
def asSizeT (x : Int) : Nat := (x % (2 ^ 64 : Int)).toNat

/-- The azimuth of a firing in degrees:
`double((position + N_ROT/2) % N_ROT) / N_ROT * 360.0 - 180.`. -/
def azimuthAngle (position : Nat) : ℚ :=
  (((position + M_SERIES_NUM_ROT_ANGLES / 2) % M_SERIES_NUM_ROT_ANGLES : Nat) : ℚ)
    / (M_SERIES_NUM_ROT_ANGLES : ℚ) * 360 - 180

/-- At most `fuel` passes of the loop
`while (delta_angle < 0.0) delta_angle += 360.0;`. -/
def wrapDeltaFuel : Nat → ℚ → ℚ
  | 0, delta_angle => delta_angle
  | fuel + 1, delta_angle =>
    if delta_angle < 0 then wrapDeltaFuel fuel (delta_angle + 360) else delta_angle

/-- The loop `while (delta_angle < 0.0) delta_angle += 360.0;`, run with the
number of passes it needs to end (see `wrapDelta_exits`). -/
def wrapDelta (delta_angle : ℚ) : ℚ :=
  wrapDeltaFuel (⌈-delta_angle / 360⌉).toNat delta_angle

/-- The branch `cloud_counter_ == 0 && start_azimuth_ == 0` that latches the
start azimuth. -/
def latchesStart (self : DataPacketParserMSeries) : Prop :=
  self.cloud_counter_ = 0 ∧ self.start_azimuth_ = 0

instance (self : DataPacketParserMSeries) : Decidable (latchesStart self) := by
  unfold latchesStart; exact inferInstance

/-- The value of `delta_angle` when the boundary test is reached. -/
def deltaAngle (self : DataPacketParserMSeries) (azimuth_angle : ℚ) : ℚ :=
  if latchesStart self then 0
  else wrapDelta ((self.direction_ : ℚ) * (azimuth_angle - self.start_azimuth_))

/-- First disjunct of the boundary test: `delta_angle >= degrees_per_cloud_`. -/
def boundaryByDelta (self : DataPacketParserMSeries) (azimuth_angle : ℚ) : Prop :=
  deltaAngle self azimuth_angle ≥ self.degrees_per_cloud_

/-- Second disjunct of the boundary test: `degrees_per_cloud_ == 360.0 &&
direction_*azimuth_angle < direction_*last_azimuth_`. -/
def boundaryByLastAzimuth (self : DataPacketParserMSeries) (azimuth_angle : ℚ) : Prop :=
  self.degrees_per_cloud_ = 360 ∧
    (self.direction_ : ℚ) * azimuth_angle < (self.direction_ : ℚ) * self.last_azimuth_

/-- The boundary test of `parse`. -/
def rotationBoundary (self : DataPacketParserMSeries) (azimuth_angle : ℚ) : Prop :=
  boundaryByDelta self azimuth_angle ∨ boundaryByLastAzimuth self azimuth_angle

instance (self : DataPacketParserMSeries) (a : ℚ) : Decidable (boundaryByDelta self a) := by
  unfold boundaryByDelta; exact inferInstance

instance (self : DataPacketParserMSeries) (a : ℚ) : Decidable (boundaryByLastAzimuth self a) := by
  unfold boundaryByLastAzimuth; exact inferInstance

instance (self : DataPacketParserMSeries) (a : ℚ) : Decidable (rotationBoundary self a) := by
  unfold rotationBoundary; exact inferInstance

/-- The function `std::round` on a `double`: halves go away from zero. -/
def cround (q : ℚ) : Int := if 0 ≤ q then ⌊q + 1 / 2⌋ else ⌈q - 1 / 2⌉

/-- The stamp of a cloud completed at firing `i`:
`(current_packet_stamp - previous_packet_stamp_) * i` is computed in unsigned
64 bit arithmetic, divided by `double(FIRING_PER_PKT)`, added to
`previous_packet_stamp_`, rounded and converted to `uint64_t`. -/
def firingStamp (previous_packet_stamp current_packet_stamp : Nat) (i : Nat) : Nat :=
  let diff : Nat := (current_packet_stamp + 2 ^ 64 - previous_packet_stamp) % 2 ^ 64
  let time_since_previous_packet : ℚ :=
    ((diff * i % 2 ^ 64 : Nat) : ℚ) / (M_SERIES_FIRING_PER_PKT : ℚ)
  (cround ((previous_packet_stamp : ℚ) + time_since_previous_packet)).toNat

/-- The state the firing loop of `parse` carries: the parser object, the local
`cloudfull`, and every value assigned to `result` so far in this call, oldest
first (each assignment overwrites the previous one, and `ret` is true exactly
when there was one). -/
structure LoopState where
  self : DataPacketParserMSeries
  cloudfull : Bool
  emitted : List PointCloudHVDIR

/-- The body of `if (current_cloud_->size() > minimum_cloud_size_)`: stamp and
number the cloud, organize it unless all returns are kept, count it and assign
it to `result`. -/
def emitCloud (K : MSeriesDecls) (current_packet_stamp i : Nat) (st : LoopState) : LoopState :=
  let self := st.self
  let stamped : PointCloudHVDIR :=
    { self.current_cloud_ with
      header :=
        { stamp := firingStamp self.previous_packet_stamp_ current_packet_stamp i,
          seq := self.cloud_counter_,
          frame_id := self.frame_id_ } }
  let clouds : PointCloudHVDIR × PointCloudHVDIR :=
    if self.return_selection_ ≠ K.ALL_RETURNS then organizeCloud stamped self.worker_cloud_
    else (stamped, self.worker_cloud_)
  { st with
    self :=
      { self with
        current_cloud_ := clouds.1,
        worker_cloud_ := clouds.2,
        cloud_counter_ := (self.cloud_counter_ + 1) % 2 ^ 32 },
    emitted := st.emitted ++ [clouds.1] }

/-- The body of the boundary test when it succeeds: latch the start azimuth,
emit the accumulating cloud when it is larger than `minimum_cloud_size_`, and
start a new cloud. -/
def atBoundary (K : MSeriesDecls) (current_packet_stamp i : Nat) (azimuth_angle : ℚ)
    (st : LoopState) : LoopState :=
  let st1 : LoopState := { st with self := { st.self with start_azimuth_ := azimuth_angle } }
  let st2 : LoopState :=
    if st1.self.current_cloud_.size > asSizeT st1.self.minimum_cloud_size_ then
      emitCloud K current_packet_stamp i st1
    else st1
  { st2 with
    self := { st2.self with current_cloud_ := { PointCloudHVDIR.new with is_dense := true } },
    cloudfull := false }

/-- The point `hvdir` as it is when pushed: `h`, `v` and `ring` are set at the
top of the beam loop, `intensity` and `d` right before the push. -/
def mkPoint (horizontal_angle vertical_angle : Option ℚ) (j intensity : Nat) (d : Option ℚ) :
    PointHVDIR :=
  { h := horizontal_angle, v := vertical_angle, d := d, intensity := intensity, ring := j }

/-- The branch `return_selection_ == ALL_RETURNS` of the beam loop for beam
`j`: up to three pushes, none with a `NaN` range. -/
def pushAllReturns (distance_scaling : ℚ) (data : MSeriesFiringData)
    (horizontal_angle vertical_angle : Option ℚ) (j : Nat) (cloud : PointCloudHVDIR) :
    PointCloudHVDIR :=
  let intensity := data.returns_intensities 0 j
  let d := data.returns_distances 0 j
  let c1 :=
    if d ≠ 0 then
      cloud.push_back
        (mkPoint horizontal_angle vertical_angle j intensity (some ((d : ℚ) * distance_scaling)))
    else cloud
  let c2 :=
    if data.returns_distances 1 j ≠ 0 ∧ data.returns_distances 1 j ≠ d then
      c1.push_back
        (mkPoint horizontal_angle vertical_angle j (data.returns_intensities 0 j)
          (some ((data.returns_distances 1 j : ℚ) * distance_scaling)))
    else c1
  if data.returns_distances 2 j ≠ 0 ∧ data.returns_distances 2 j ≠ d then
    c2.push_back
      (mkPoint horizontal_angle vertical_angle j (data.returns_intensities 0 j)
        (some ((data.returns_distances 2 j : ℚ) * distance_scaling)))
  else c2

/-- The `else` branch of the beam loop for beam `j`: the inner loop over
`i = 0 .. NUM_LASERS-1` pushes one point when `return_selection_ == i`, with a
`NaN` range (and `is_dense` cleared) when the distance is 0. -/
def pushSelectedReturn (return_selection : Int) (distance_scaling : ℚ)
    (data : MSeriesFiringData) (horizontal_angle vertical_angle : Option ℚ) (j : Nat)
    (cloud : PointCloudHVDIR) : PointCloudHVDIR :=
  (List.range M_SERIES_NUM_LASERS).foldl
    (fun (c : PointCloudHVDIR) (i : Nat) =>
      if return_selection = (i : Int) then
        if data.returns_distances i j = 0 then
          ({ c with is_dense := false } : PointCloudHVDIR).push_back
            (mkPoint horizontal_angle vertical_angle j (data.returns_intensities i j) none)
        else
          c.push_back
            (mkPoint horizontal_angle vertical_angle j (data.returns_intensities i j)
              (some ((data.returns_distances i j : ℚ) * distance_scaling)))
      else c)
    cloud

/-- One pass of the beam loop body, for beam `j`. -/
def pushBeam (K : MSeriesDecls) (self : DataPacketParserMSeries) (distance_scaling : ℚ)
    (data : MSeriesFiringData) (horizontal_angle : Option ℚ) (cloud : PointCloudHVDIR)
    (j : Nat) : PointCloudHVDIR :=
  let vertical_angle := self.vertical_angle_lookup_table_[j]?
  if self.return_selection_ = K.ALL_RETURNS then
    pushAllReturns distance_scaling data horizontal_angle vertical_angle j cloud
  else
    pushSelectedReturn self.return_selection_ distance_scaling data horizontal_angle
      vertical_angle j cloud

/-- The beam loop `for (int j = 0; j < M_SERIES_NUM_LASERS; j++)` of a firing
that is not skipped. -/
def pushFiring (K : MSeriesDecls) (self : DataPacketParserMSeries) (distance_scaling : ℚ)
    (data : MSeriesFiringData) : PointCloudHVDIR :=
  let horizontal_angle := self.horizontal_angle_lookup_table_[data.position]?
  (List.range M_SERIES_NUM_LASERS).foldl
    (pushBeam K self distance_scaling data horizontal_angle) self.current_cloud_

/-- The latch of `start_azimuth_` in the first branch of the firing body. -/
def latchStart (self : DataPacketParserMSeries) (azimuth_angle : ℚ) : DataPacketParserMSeries :=
  if latchesStart self then { self with start_azimuth_ := azimuth_angle } else self

/-- First half of the firing loop body: the azimuth, the latch of the start
azimuth, and the boundary test with its body.  The test reads `delta_angle`
(computed from the start azimuth before the latch), `degrees_per_cloud_`,
`direction_` and `last_azimuth_`. -/
def firingBoundary (K : MSeriesDecls) (current_packet_stamp : Nat) (st : LoopState) (i : Nat)
    (data : MSeriesFiringData) : LoopState :=
  let azimuth_angle := azimuthAngle data.position
  let st1 : LoopState := { st with self := latchStart st.self azimuth_angle }
  if rotationBoundary st.self azimuth_angle then
    atBoundary K current_packet_stamp i azimuth_angle st1
  else st1

/-- Second half of the firing loop body: `if(cloudfull) continue;`, then the
beam loop and the update of `last_azimuth_`. -/
def firingPoints (K : MSeriesDecls) (distance_scaling : ℚ) (st : LoopState)
    (data : MSeriesFiringData) : LoopState :=
  if st.cloudfull then st
  else
    { st with
      self :=
        { st.self with
          current_cloud_ := pushFiring K st.self distance_scaling data,
          last_azimuth_ := azimuthAngle data.position } }

/-- One pass of the firing loop body of `parse`, for firing `i` with
`data = data_packet.data[i]`. -/
def firingStep (K : MSeriesDecls) (current_packet_stamp : Nat) (distance_scaling : ℚ)
    (st : LoopState) (i : Nat) (data : MSeriesFiringData) : LoopState :=
  firingPoints K distance_scaling (firingBoundary K current_packet_stamp st i data) data

/-- The packet stamp in microseconds, an unsigned 64 bit value. -/
def packetStamp (pkt : MSeriesDataPacket) : Nat :=
  if pkt.version ≤ 3 ∧ pkt.version ≠ 0 then
    (pkt.seconds * 1000000 + pkt.nanoseconds / 100) % 2 ^ 64
  else
    (pkt.seconds * 1000000 + pkt.nanoseconds / 1000) % 2 ^ 64

/-- The spin direction after the three point test on the positions of firings
`0`, `FIRING_PER_PKT/2` and `FIRING_PER_PKT-1`. -/
def detectDirection (direction : Int) (pkt : MSeriesDataPacket) : Int :=
  let p0 : Int := (pkt.data 0).position
  let pm : Int := (pkt.data (M_SERIES_FIRING_PER_PKT / 2)).position
  let pl : Int := (pkt.data (M_SERIES_FIRING_PER_PKT - 1)).position
  if p0 - pm < 0 ∧ pm - pl < 0 then 1
  else if p0 - pm > 0 ∧ pm - pl > 0 then -1
  else direction

/-- The local `distance_scaling`. -/
def distanceScaling (pkt : MSeriesDataPacket) : ℚ :=
  if pkt.version ≥ 5 then 1 / 100000 else 1 / 100

/-- The status test at the top of `parse`: the error it raises, if any. -/
def statusError (K : MSeriesDecls) (status : Nat) : Option ParseError :=
  if status ≠ StatusType.GOOD then
    if (status % 2 ^ 16) &&& (K.SENSOR_SW_FW_MISMATCH % 2 ^ 16) ≠ 0 then
      some .FirmwareVersionMismatchError
    else if (status % 2 ^ 16) &&& (K.WATCHDOG_VIOLATION % 2 ^ 16) ≠ 0 then
      some .FirmwareWatchdogViolationError
    else none
  else none

/-- The parser object and the loop state when the firing loop is entered. -/
def beforeFirings (self : DataPacketParserMSeries) (pkt : MSeriesDataPacket) : LoopState :=
  let current_packet_stamp := packetStamp pkt
  let s1 : DataPacketParserMSeries :=
    if pkt.status ≠ self.previous_status_ then { self with previous_status_ := pkt.status }
    else self
  let s2 : DataPacketParserMSeries :=
    if s1.previous_packet_stamp_ = 0 then { s1 with previous_packet_stamp_ := current_packet_stamp }
    else s1
  let s3 : DataPacketParserMSeries :=
    { s2 with
      packet_counter_ := (s2.packet_counter_ + 1) % 2 ^ 32,
      direction_ := detectDirection s2.direction_ pkt }
  { self := s3,
    cloudfull := decide (s3.current_cloud_.size ≥ asSizeT s3.maximum_cloud_size_),
    emitted := [] }

/-- The first `n` passes of the firing loop. -/
def firingsUpTo (K : MSeriesDecls) (pkt : MSeriesDataPacket) (n : Nat) (st : LoopState) :
    LoopState :=
  (List.range n).foldl
    (fun st i => firingStep K (packetStamp pkt) (distanceScaling pkt) st i (pkt.data i)) st

/-- The firing loop `for (int i = 0; i < M_SERIES_FIRING_PER_PKT; ++i)`. -/
def firingLoop (K : MSeriesDecls) (pkt : MSeriesDataPacket) (st : LoopState) : LoopState :=
  firingsUpTo K pkt M_SERIES_FIRING_PER_PKT st

/-- What a call of `parse` that returns normally leaves behind: the parser
object, and the clouds it assigned to `result`, oldest first. -/
structure ParseOutcome where
  self : DataPacketParserMSeries
  emitted : List PointCloudHVDIR

/-- The return value `ret` of the call. -/
def ParseOutcome.ret (o : ParseOutcome) : Bool := !o.emitted.isEmpty

/-- The cloud the call leaves in `result`, when it wrote one: the last
assignment. -/
def ParseOutcome.result (o : ParseOutcome) : Option PointCloudHVDIR := o.emitted.getLast?

/-- The member `parse(data_packet, result)`. -/
def parse (K : MSeriesDecls) (self : DataPacketParserMSeries) (pkt : MSeriesDataPacket) :
    Except ParseError ParseOutcome :=
  if self.vertical_angle_lookup_table_.isEmpty then .error .InvalidVerticalAngles
  else
    match statusError K pkt.status with
    | some e => .error e
    | none =>
      let st := firingLoop K pkt (beforeFirings self pkt)
      .ok
        { self := { st.self with previous_packet_stamp_ := packetStamp pkt },
          emitted := st.emitted }

/-! ## Streams of packets -/

/-- One call of `parse` as the caller sees it: a call that raises leaves the
parser object as it was (every `throw` precedes the first assignment to a
member) and writes no cloud. -/
def parseCall (K : MSeriesDecls) (self : DataPacketParserMSeries) (pkt : MSeriesDataPacket) :
    DataPacketParserMSeries × List PointCloudHVDIR :=
  match parse K self pkt with
  | .ok o => (o.self, o.emitted)
  | .error _ => (self, [])

/-- Successive calls of `parse` on the packets of a stream: the final parser
object and, call by call, the clouds assigned to `result`. -/
def parseStream (K : MSeriesDecls) :
    DataPacketParserMSeries → List MSeriesDataPacket →
      DataPacketParserMSeries × List (List PointCloudHVDIR)
  | self, [] => (self, [])
  | self, pkt :: rest =>
    let r := parseCall K self pkt
    let t := parseStream K r.1 rest
    (t.1, r.2 :: t.2)

/-- The clouds the calls of a stream returned, in order: for each call that
returned `true`, the cloud left in `result`. -/
def returnedClouds (K : MSeriesDecls) (self : DataPacketParserMSeries)
    (pkts : List MSeriesDataPacket) : List PointCloudHVDIR :=
  (parseStream K self pkts).2.filterMap List.getLast?

/-- Every cloud the calls of a stream completed, in order, whether or not a
later assignment in the same call overwrote it. -/
def completedClouds (K : MSeriesDecls) (self : DataPacketParserMSeries)
    (pkts : List MSeriesDataPacket) : List PointCloudHVDIR :=
  (parseStream K self pkts).2.flatten

/-! ## Calls as the caller sees them -/

/-- The parser object after a setter call with result `r`: every setter raises
before its first assignment, so a call that raises leaves the object as it
was. -/
def objectAfter (self : DataPacketParserMSeries)
    (r : Except ConfigError DataPacketParserMSeries) : DataPacketParserMSeries :=
  match r with
  | .ok s => s
  | .error _ => self

/-- What a call of `parse` leaves behind, whether it returns or raises. -/
structure ParseEffect where
  /-- The parser object after the call. -/
  self : DataPacketParserMSeries
  /-- The clouds assigned to `result` during the call, oldest first. -/
  written : List PointCloudHVDIR
  /-- The error raised, if any. -/
  raised : Option ParseError

/-- The member `parse(data_packet, result)` with the state at a `throw` made
explicit: the statements before the two `throw`s (the test of the vertical
angle table, `bool ret = false`, the local `current_status` and the status
test) assign no member and do not touch `result`. -/
def parseEffect (K : MSeriesDecls) (self : DataPacketParserMSeries) (pkt : MSeriesDataPacket) :
    ParseEffect :=
  if self.vertical_angle_lookup_table_.isEmpty then
    { self := self, written := [], raised := some .InvalidVerticalAngles }
  else
    match statusError K pkt.status with
    | some e => { self := self, written := [], raised := some e }
    | none =>
      let st := firingLoop K pkt (beforeFirings self pkt)
      { self := { st.self with previous_packet_stamp_ := packetStamp pkt },
        written := st.emitted, raised := none }

/-! ## The return index of a single selection -/

/-- Modelled from the spec: the number of returns a firing holds for each beam
(the first dimension of `returns_distances` and `returns_intensities`) is
declared in a header that is not among the sources; the spec gives three
return indices (0 = max, 1 = first, 2 = last). -/
def M_SERIES_NUM_RETURNS : Nat := 3

/-- The values of `i` at which the inner loop
`for (int i = 0; i < M_SERIES_NUM_LASERS; ++i)` of `parse` finds
`return_selection_ == i` and reads `returns_intensities[i][j]` and
`returns_distances[i][j]`. -/
def selectedReturnIndices (return_selection : Int) : List Nat :=
  (List.range M_SERIES_NUM_LASERS).filter
    fun (i : Nat) => decide (return_selection = (i : Int))

/-! ## The legacy M8 generator (`pointcloud_generator_m8.h`) -/

/-- The constant `M8_NUM_ROT_ANGLES` of the legacy header. -/
def M8_NUM_ROT_ANGLES : Nat := 10400

/-- Modelled from the spec: `M8_NUM_LASERS` is declared in a header that is not
among the sources; the spec gives `NUM_LASERS` = 8 for the legacy layout. -/
def M8_NUM_LASERS : Nat := 8

/-- Modelled from the spec: `M8_FIRING_PER_PKT` is declared in a header that is
not among the sources; the spec gives `FIRINGS_PER_PKT` = 50 for the legacy
layout. -/
def M8_FIRING_PER_PKT : Nat := 50

/-- One firing of a legacy packet, `M8FiringData`, read like
`MSeriesFiringData`. -/
structure M8FiringData where
  position : Nat
  returns_distances : Nat → Nat → Nat
  returns_intensities : Nat → Nat → Nat

/-- A legacy packet, `M8DataPacket`: `data i` is `data[i]`; `seconds` and
`nanoseconds` are 32 bit, `version` and `status` 16 bit. -/
structure M8DataPacket where
  data : Nat → M8FiringData
  seconds : Nat
  nanoseconds : Nat
  version : Nat
  status : Nat

/-- The members of `PointCloudGeneratorM8`, with the two it inherits from
`PacketParserBase`: `frame_id_`, and `signal_`, which is `none` for a null
pointer and `some n` for a signal with `n` connected slots. -/
structure PointCloudGeneratorM8 where
  frame_id_ : String
  signal_ : Option Nat
  packet_counter_ : Nat
  cloud_counter_ : Nat
  last_azimuth_ : ℚ
  current_cloud_ : PointCloudHVDIR
  horizontal_angle_lookup_table_ : List ℚ
  vertical_angle_lookup_table_ : List ℚ

/-- Entry `i` of the legacy horizontal angle table as the constructor computes
it, in units of π. -/
def horizontalAngleEntryM8 (i : Nat) : ℚ :=
  let j : Nat := (i + M8_NUM_ROT_ANGLES / 2) % M8_NUM_ROT_ANGLES
  let n : ℚ := (j : ℚ) / (M8_NUM_ROT_ANGLES : ℚ)
  n * 2 - 1

/-- The constructor `PointCloudGeneratorM8(frame_id)`; the base class, which is
not among the sources, sets up `signal_`, taken here as a parameter. -/
def PointCloudGeneratorM8.ctor (frame_id : String) (signal : Option Nat) :
    PointCloudGeneratorM8 where
  frame_id_ := frame_id
  signal_ := signal
  packet_counter_ := 0
  cloud_counter_ := 0
  last_azimuth_ := 65000
  current_cloud_ := PointCloudHVDIR.new
  horizontal_angle_lookup_table_ :=
    (List.range (M8_NUM_ROT_ANGLES + 1)).map horizontalAngleEntryM8
  vertical_angle_lookup_table_ :=
    (List.range M8_NUM_LASERS).map fun i => M8_VERTICAL_ANGLES.getD i 0

/-- The static member `organizeCloud(current_pc)` of the legacy generator: the
same two loops as the M-series one, onto a fresh cloud. -/
def PointCloudGeneratorM8.organizeCloud (current_pc : PointCloudHVDIR) : PointCloudHVDIR :=
  let temp1 : PointCloudHVDIR :=
    { PointCloudHVDIR.new with
      header :=
        { stamp := current_pc.header.stamp, seq := current_pc.header.seq,
          frame_id := current_pc.header.frame_id } }
  let width := current_pc.size / M8_NUM_LASERS
  let temp2 := organizeLoop current_pc width temp1
  { temp2 with height := M8_NUM_LASERS, width := width }

/-- The local `time` of the legacy `parse`: `seconds * 1e9 + nanoseconds * 10`
for `version <= 3` (the product `nanoseconds * 10` is a 32 bit unsigned
product) and `seconds * 1e9 + nanoseconds` otherwise. -/
def m8PacketTime (pkt : M8DataPacket) : Nat :=
  if pkt.version ≤ 3 then pkt.seconds * 1000000000 + pkt.nanoseconds * 10 % 2 ^ 32
  else pkt.seconds * 1000000000 + pkt.nanoseconds

/-- The local `direction` of the legacy `parse`, from the positions of the
first and the last firing. -/
def m8Direction (pkt : M8DataPacket) : Int :=
  let first : Int := (pkt.data 0).position
  let last : Int := (pkt.data (M8_FIRING_PER_PKT - 1)).position
  if first - last > 0 then (if first - last > 4000 then 1 else -1)
  else (if last - first > 4000 then -1 else 1)

/-- The azimuth of a legacy firing in degrees. -/
def m8AzimuthAngle (position : Nat) : ℚ :=
  (((position + M8_NUM_ROT_ANGLES / 2) % M8_NUM_ROT_ANGLES : Nat) : ℚ)
    / (M8_NUM_ROT_ANGLES : ℚ) * 360 - 180

/-- The state the firing loop of the legacy `parse` carries: the generator and
the clouds passed to the signal so far, oldest first. -/
structure M8LoopState where
  self : PointCloudGeneratorM8
  emitted : List PointCloudHVDIR

/-- The body of `if (direction * azimuth_angle < direction * last_azimuth_)`
in the legacy `parse`: emit a non-empty cloud, then start a new one.  (With a
null `signal_` the call `(*signal_)(current_cloud_)` is undefined in C++; the
model records the cloud all the same.) -/
def m8AtBoundary (time : Nat) (st : M8LoopState) : M8LoopState :=
  let st1 : M8LoopState :=
    if st.self.current_cloud_.size > 0 then
      let organized := PointCloudGeneratorM8.organizeCloud st.self.current_cloud_
      let stamped : PointCloudHVDIR :=
        { organized with
          header :=
            { stamp := time, seq := st.self.cloud_counter_, frame_id := st.self.frame_id_ } }
      { self :=
          { st.self with
            current_cloud_ := stamped,
            cloud_counter_ := (st.self.cloud_counter_ + 1) % 2 ^ 32 },
        emitted := st.emitted ++ [stamped] }
    else st
  { st1 with
    self := { st1.self with current_cloud_ := { PointCloudHVDIR.new with is_dense := true } } }

/-- One pass of the beam loop of the legacy `parse`: the range is
`returns_distances[0][j] * .01`, replaced by `NaN` when below `1E-4`. -/
def m8PushBeam (self : PointCloudGeneratorM8) (data : M8FiringData)
    (horizontal_angle : Option ℚ) (cloud : PointCloudHVDIR) (j : Nat) : PointCloudHVDIR :=
  let range : ℚ := (data.returns_distances 0 j : ℚ) * (1 / 100)
  let intensity := data.returns_intensities 0 j
  let d : Option ℚ := if range < 1 / 10000 then none else some range
  let pushed :=
    cloud.push_back
      { h := horizontal_angle, v := self.vertical_angle_lookup_table_[j]?, d := d,
        intensity := intensity, ring := j }
  if pushed.is_dense ∧ d.isNone then { pushed with is_dense := false } else pushed

/-- One pass of the firing loop of the legacy `parse`. -/
def m8FiringStep (time : Nat) (direction : Int) (st : M8LoopState) (data : M8FiringData) :
    M8LoopState :=
  let azimuth_angle := m8AzimuthAngle data.position
  let st1 : M8LoopState :=
    if (direction : ℚ) * azimuth_angle < (direction : ℚ) * st.self.last_azimuth_ then
      m8AtBoundary time st
    else st
  let horizontal_angle := st1.self.horizontal_angle_lookup_table_[data.position]?
  let cloud :=
    (List.range M8_NUM_LASERS).foldl (m8PushBeam st1.self data horizontal_angle)
      st1.self.current_cloud_
  { st1 with self := { st1.self with current_cloud_ := cloud, last_azimuth_ := azimuth_angle } }

/-- What a call of the legacy `parse` leaves behind: the generator, the clouds
passed to the signal, and the error it raised, if any. -/
structure M8Outcome where
  self : PointCloudGeneratorM8
  emitted : List PointCloudHVDIR
  raised : Option ParseError

/-- The member `PointCloudGeneratorM8::parse(data_packet)`. -/
def PointCloudGeneratorM8.parse (self : PointCloudGeneratorM8) (pkt : M8DataPacket) :
    M8Outcome :=
  -- don't do the work unless someone is listening
  if self.signal_ = some 0 then { self := self, emitted := [], raised := none }
  else if pkt.status ≠ 0 then
    if pkt.status = 1 then
      { self := self, emitted := [], raised := some .FirmwareVersionMismatchError }
    else { self := self, emitted := [], raised := none }
  else
    let time := m8PacketTime pkt
    let s1 : PointCloudGeneratorM8 :=
      { self with packet_counter_ := (self.packet_counter_ + 1) % 2 ^ 32 }
    let direction := m8Direction pkt
    let st :=
      (List.range M8_FIRING_PER_PKT).foldl
        (fun st i => m8FiringStep time direction st (pkt.data i))
        ({ self := s1, emitted := [] } : M8LoopState)
    { self := st.self, emitted := st.emitted, raised := none }

/-! ## The spec's reading of `ALL_RETURNS` -/

/-- The distances the spec emits for one beam when all returns are kept, in
order: return 0 if its distance is not 0, return 1 if its distance is neither 0
nor the distance of return 0, and return 2 likewise. -/
def specAllReturns (d0 d1 d2 : Nat) : List Nat :=
  (if d0 ≠ 0 then [d0] else []) ++ (if d1 ≠ 0 ∧ d1 ≠ d0 then [d1] else []) ++
    (if d2 ≠ 0 ∧ d2 ≠ d0 then [d2] else [])

/-- The points the spec emits for beam `j` of a firing when all returns are
kept: one per emitted distance, with ring `j`, the intensity of return 0 and
the scaled distance as range. -/
def specAllReturnsPoints (self : DataPacketParserMSeries) (distance_scaling : ℚ)
    (data : MSeriesFiringData) (j : Nat) : List PointHVDIR :=
  (specAllReturns (data.returns_distances 0 j) (data.returns_distances 1 j)
      (data.returns_distances 2 j)).map fun d =>
    { h := self.horizontal_angle_lookup_table_[data.position]?,
      v := self.vertical_angle_lookup_table_[j]?,
      d := some ((d : ℚ) * distance_scaling),
      intensity := data.returns_intensities 0 j,
      ring := j }

/-! ## Invariants used in the proofs -/

/-- The counter invariant of the firing loop: with `n0` clouds completed before
the call, the counter is `n0` plus the number of clouds of this call, and cloud
`k` of this call is numbered `n0 + k`, all modulo `2^32`. -/
def SeqInv (n0 : Nat) (st : LoopState) : Prop :=
  st.self.cloud_counter_ = (n0 + st.emitted.length) % 2 ^ 32 ∧
    ∀ k c, st.emitted[k]? = some c → c.header.seq = (n0 + k) % 2 ^ 32

/-- The previous packet stamp the firing loop of a call works with: the stored
one, or the packet's own stamp when the stored one is 0. -/
def effectivePreviousStamp (self : DataPacketParserMSeries) (pkt : MSeriesDataPacket) : Nat :=
  if self.previous_packet_stamp_ = 0 then packetStamp pkt else self.previous_packet_stamp_

/-- The stamp invariant of the firing loop: the previous packet stamp stays at
`prev` and every cloud of this call is stamped for one of the firings. -/
def StampInv (prev cur : Nat) (st : LoopState) : Prop :=
  st.self.previous_packet_stamp_ = prev ∧
    ∀ c, c ∈ st.emitted → ∃ i, i < M_SERIES_FIRING_PER_PKT ∧ c.header.stamp = firingStamp prev cur i

/-- How many passes of the inner loop `for (int i = 0; i < NUM_LASERS; ++i)`
find `return_selection_ == i`. -/
def selectedCount (return_selection : Int) : Nat :=
  ((List.range M_SERIES_NUM_LASERS).filter
    fun (i : Nat) => decide (return_selection = (i : Int))).length

/-- The shape invariant of the firing loop for a single return selection `sel`:
the selection stays `sel`, the accumulating cloud holds a multiple of
`NUM_LASERS` points, and every cloud of this call is organized. -/
def ShapeInv (sel : Int) (st : LoopState) : Prop :=
  st.self.return_selection_ = sel ∧
    st.self.current_cloud_.size % M_SERIES_NUM_LASERS = 0 ∧
    ∀ c, c ∈ st.emitted →
      c.points.length = c.height * c.width ∧ c.height = M_SERIES_NUM_LASERS

/-- The most points one call of `parse` can append to a cloud: three returns
for each beam of each firing. -/
def maxPointsPerPacket : Nat := M_SERIES_FIRING_PER_PKT * (M_SERIES_NUM_LASERS * 3)

/-- The size invariant of the firing loop after `n` firings, for a parser whose
`maximum_cloud_size_` is `maxv`: a cloud marked full is within the overshoot
bound, a cloud not marked full has grown by at most `n` firings past the limit,
and every cloud of this call is within the overshoot bound. -/
def CapInv (maxv : Int) (n : Nat) (st : LoopState) : Prop :=
  st.self.maximum_cloud_size_ = maxv ∧
    (st.cloudfull = true → st.self.current_cloud_.size ≤ asSizeT maxv + maxPointsPerPacket) ∧
    (st.cloudfull = false →
      st.self.current_cloud_.size ≤ asSizeT maxv + n * (M_SERIES_NUM_LASERS * 3)) ∧
    ∀ c, c ∈ st.emitted → c.size ≤ asSizeT maxv + maxPointsPerPacket

/-- The start azimuth is an azimuth: at least −180 and below 180 degrees. -/
def StartInRange (self : DataPacketParserMSeries) : Prop :=
  -180 ≤ self.start_azimuth_ ∧ self.start_azimuth_ < 180

/-! ## Skipped firings and reads of the horizontal angle table -/

/-- The value of the local `cloudfull` at `if(cloudfull) continue;` in pass `i`
of the firing loop of a call that gets past the status test: whether firing `i`
is skipped. -/
def firingSkipped (K : MSeriesDecls) (self : DataPacketParserMSeries) (pkt : MSeriesDataPacket)
    (i : Nat) : Bool :=
  (firingBoundary K (packetStamp pkt) (firingsUpTo K pkt i (beforeFirings self pkt)) i
    (pkt.data i)).cloudfull

/-- The indices at which such a call reads `horizontal_angle_lookup_table_`,
in order: `data.position` for every firing that is not skipped. -/
def horizontalTableReads (K : MSeriesDecls) (self : DataPacketParserMSeries)
    (pkt : MSeriesDataPacket) : List Nat :=
  (List.range M_SERIES_FIRING_PER_PKT).filterMap fun i =>
    if firingSkipped K self pkt i then none else some (pkt.data i).position

/-- The indices at which a call of the legacy `parse` that reaches the firing
loop reads `horizontal_angle_lookup_table_`: `data.position` for every
firing. -/
def m8HorizontalTableReads (pkt : M8DataPacket) : List Nat :=
  (List.range M8_FIRING_PER_PKT).map fun i => (pkt.data i).position

/-! ## Sample inputs -/

/-- A parser as the constructor leaves it, after `setVerticalAngles` with the
M8 table; the other settings are the initial ones of `referenceDecls`: return
selection 0, cloud size limits 1 and 1000000, 360 degrees per cloud. -/
def sampleParser : DataPacketParserMSeries :=
  { DataPacketParserMSeries.ctor referenceDecls with
    vertical_angle_lookup_table_ := M8_VERTICAL_ANGLES }

/-- A firing at encoder position `pos` whose 24 returns all have distance
`dist` and intensity 7. -/
def uniformFiring (pos dist : Nat) : MSeriesFiringData :=
  { position := pos, returns_distances := fun _ _ => dist, returns_intensities := fun _ _ => 7 }

/-- A version 5 packet with status `GOOD`, stamped `seconds` s, whose firing
`i` is at position `start + step * i` (modulo `N_ROT`) and has all distances
`dist`. -/
def sweepPacket (start step dist seconds : Nat) : MSeriesDataPacket :=
  { data := fun i => uniformFiring ((start + step * i) % M_SERIES_NUM_ROT_ANGLES) dist,
    seconds := seconds, nanoseconds := 0, version := 5, status := 0 }

/-- The sample parser after `setDegreesOfSweepPerCloud(1)`. -/
def slicingParser : DataPacketParserMSeries :=
  { sampleParser with degrees_per_cloud_ := 1 }

/-- The sample parser after `setCloudSizeLimits(1, 10)`. -/
def cappedParser : DataPacketParserMSeries :=
  { sampleParser with maximum_cloud_size_ := 10 }

/-- The sample parser after `setCloudSizeLimits(8, 1000000)`. -/
def minimumParser : DataPacketParserMSeries :=
  { sampleParser with minimum_cloud_size_ := 8 }

/-- The clouds the one degree slicing parser completes in its first call, on a
packet that sweeps 98 positions. -/
def sliceEmitted : List PointCloudHVDIR :=
  (parseCall referenceDecls slicingParser (sweepPacket 100 2 100 1)).2

/-- The cloud that call leaves in `result`. -/
def sliceReturned : PointCloudHVDIR := sliceEmitted.getLastD PointCloudHVDIR.new

/-- The loop state of `minimumParser` after the first firing (position 5199)
of a packet that crosses the half turn at its second firing: the accumulating
cloud holds the eight points of that firing. -/
def minimumBoundaryState : LoopState :=
  firingsUpTo referenceDecls (sweepPacket 5199 1 100 1) 1
    (beforeFirings minimumParser (sweepPacket 5199 1 100 1))

/-- The loop state of the sample parser after the first 25 firings, at
positions 10375 .. 10399, of a packet whose next firing is at position 0. -/
def wrapState : LoopState :=
  firingsUpTo referenceDecls (sweepPacket 10375 1 100 1) 25
    (beforeFirings sampleParser (sweepPacket 10375 1 100 1))

/-- A legacy generator with one listener connected. -/
def sampleGeneratorM8 : PointCloudGeneratorM8 :=
  PointCloudGeneratorM8.ctor "quanergy" (some 1)

/-- A legacy packet with the given status whose firing `i` is at position
`start + i` (modulo the number of positions) and has all distances 100. -/
def sweepPacketM8 (start status : Nat) : M8DataPacket :=
  { data := fun i =>
      { position := (start + i) % M8_NUM_ROT_ANGLES,
        returns_distances := fun _ _ => 100,
        returns_intensities := fun _ _ => 7 },
    seconds := 1, nanoseconds := 0, version := 4, status := status }

/-- The parser limited to 10 points after a first packet at positions
100 .. 149: the accumulating cloud holds the 400 points of that packet. -/
def filledParser : DataPacketParserMSeries :=
  (parseCall referenceDecls cappedParser (sweepPacket 100 1 100 1)).1

/-- A version 5 packet with status `GOOD` whose firing `i` is at position
`20000 + i`, a 16 bit value above the number of encoder positions. -/
def strayPacket : MSeriesDataPacket :=
  { data := fun i => uniformFiring (20000 + i) 100,
    seconds := 1, nanoseconds := 0, version := 5, status := 0 }

/-- A legacy packet with status 0 whose firing `i` is at position
`20000 + i`. -/
def strayPacketM8 : M8DataPacket :=
  { data := fun i =>
      { position := 20000 + i,
        returns_distances := fun _ _ => 100,
        returns_intensities := fun _ _ => 7 },
    seconds := 1, nanoseconds := 0, version := 4, status := 0 }

/-! ## Theorems -/

section Status

theorem land_mod_of_lt (a b n : Nat) (ha : a < 2 ^ n) : (a % 2 ^ n) &&& (b % 2 ^ n) = a &&& b := by
  rw [Nat.mod_eq_of_lt ha]
  apply Nat.eq_of_testBit_eq
  intro i
  simp only [Nat.testBit_land, Nat.testBit_mod_two_pow]
  by_cases hi : i < n
  · simp [hi]
  · have : a.testBit i = false := by
      apply Nat.testBit_eq_false_of_lt
      exact lt_of_lt_of_le ha (Nat.pow_le_pow_right (by decide) (by omega))
    simp [this]

theorem statusError_eq (K : MSeriesDecls) (status : Nat) (hs : status < 2 ^ 16) :
    statusError K status =
      if status &&& K.SENSOR_SW_FW_MISMATCH ≠ 0 then some .FirmwareVersionMismatchError
      else if status &&& K.WATCHDOG_VIOLATION ≠ 0 then some .FirmwareWatchdogViolationError
      else none := by
  unfold statusError
  rw [land_mod_of_lt _ _ 16 hs, land_mod_of_lt _ _ 16 hs]
  by_cases h0 : status = StatusType.GOOD
  · have : status = 0 := h0
    subst this
    simp [StatusType.GOOD]
  · simp [h0]

/-- C1: for a parser whose vertical angle table is not empty and a packet with
a 16 bit status, `parse` raises `FirmwareVersionMismatchError` exactly when the
status has the `SENSOR_SW_FW_MISMATCH` bit set, raises
`FirmwareWatchdogViolationError` exactly when the `WATCHDOG_VIOLATION` bit is
set and the `SENSOR_SW_FW_MISMATCH` bit is not, and for every other status
returns normally. -/
theorem parse_status_errors (K : MSeriesDecls) (self : DataPacketParserMSeries)
    (pkt : MSeriesDataPacket) (hv : self.vertical_angle_lookup_table_ ≠ [])
    (hs : pkt.status < 2 ^ 16) :
    (parse K self pkt = .error .FirmwareVersionMismatchError ↔
        pkt.status &&& K.SENSOR_SW_FW_MISMATCH ≠ 0) ∧
      (parse K self pkt = .error .FirmwareWatchdogViolationError ↔
        pkt.status &&& K.WATCHDOG_VIOLATION ≠ 0 ∧ pkt.status &&& K.SENSOR_SW_FW_MISMATCH = 0) ∧
      (pkt.status &&& K.SENSOR_SW_FW_MISMATCH = 0 → pkt.status &&& K.WATCHDOG_VIOLATION = 0 →
        ∃ o, parse K self pkt = .ok o) := by
  have hne : self.vertical_angle_lookup_table_.isEmpty = false := by
    cases h : self.vertical_angle_lookup_table_ with
    | nil => exact absurd h hv
    | cons a l => rfl
  unfold parse
  rw [hne, statusError_eq K _ hs]
  by_cases h1 : pkt.status &&& K.SENSOR_SW_FW_MISMATCH = 0
  · by_cases h2 : pkt.status &&& K.WATCHDOG_VIOLATION = 0
    · simp [h1, h2]
    · simp [h1, h2]
  · simp [h1]

/-- The witness for C1: a packet with status 3 (both flags set) on the sample
parser. -/
theorem parse_status_errors_witness :
    (parse referenceDecls sampleParser { sweepPacket 0 1 100 1 with status := 3 }
        = .error .FirmwareVersionMismatchError ↔
      (3 : Nat) &&& referenceDecls.SENSOR_SW_FW_MISMATCH ≠ 0) :=
  (parse_status_errors referenceDecls sampleParser { sweepPacket 0 1 100 1 with status := 3 }
    (by decide) (by decide)).1

end Status

section General

theorem foldl_invariant {α β : Type} (P : β → Prop) (f : β → α → β) (l : List α) (b : β)
    (hb : P b) (hf : ∀ b a, a ∈ l → P b → P (f b a)) : P (l.foldl f b) := by
  induction l generalizing b with
  | nil => simpa using hb
  | cons a l ih =>
    simp only [List.foldl_cons]
    apply ih
    · exact hf b a (List.mem_cons_self _ _) hb
    · intro b1 a1 ha1 hb1
      exact hf b1 a1 (List.mem_cons_of_mem _ ha1) hb1

theorem getLast?_eq_getLastD {α : Type} (l : List α) (d : α) (h : l.isEmpty = false) :
    l.getLast? = some (l.getLastD d) := by
  cases l with
  | nil => simp at h
  | cons a l => simp [List.getLast?_cons]

@[simp] theorem push_back_header (c : PointCloudHVDIR) (pt : PointHVDIR) :
    (c.push_back pt).header = c.header := rfl

@[simp] theorem push_back_is_dense (c : PointCloudHVDIR) (pt : PointHVDIR) :
    (c.push_back pt).is_dense = c.is_dense := rfl

@[simp] theorem push_back_points (c : PointCloudHVDIR) (pt : PointHVDIR) :
    (c.push_back pt).points = c.points ++ [pt] := rfl

theorem organizeLoop_header (cur : PointCloudHVDIR) (w : Nat) (t : PointCloudHVDIR) :
    (organizeLoop cur w t).header = t.header := by
  unfold organizeLoop
  apply foldl_invariant (fun x : PointCloudHVDIR => x.header = t.header)
  · rfl
  · intro b i _ hb
    apply foldl_invariant (fun x : PointCloudHVDIR => x.header = t.header)
    · exact hb
    · intro b1 j _ hb1
      cases cur.points[j * M_SERIES_NUM_LASERS + i]? <;> simpa using hb1

theorem organizeLoop_is_dense (cur : PointCloudHVDIR) (w : Nat) (t : PointCloudHVDIR) :
    (organizeLoop cur w t).is_dense = t.is_dense := by
  unfold organizeLoop
  apply foldl_invariant (fun x : PointCloudHVDIR => x.is_dense = t.is_dense)
  · rfl
  · intro b i _ hb
    apply foldl_invariant (fun x : PointCloudHVDIR => x.is_dense = t.is_dense)
    · exact hb
    · intro b1 j _ hb1
      cases cur.points[j * M_SERIES_NUM_LASERS + i]? <;> simpa using hb1

theorem organizeCloud_header (cur t : PointCloudHVDIR) :
    (organizeCloud cur t).1.header = cur.header := by
  simp [organizeCloud, organizeLoop_header]

/-- The cloud `emitCloud` assigns to `result` carries the stamp of the firing,
the cloud counter and the frame id, organized or not. -/
theorem emitCloud_emitted (K : MSeriesDecls) (cur i : Nat) (st : LoopState) :
    ∃ c, (emitCloud K cur i st).emitted = st.emitted ++ [c] ∧
      c.header.seq = st.self.cloud_counter_ ∧
      c.header.stamp = firingStamp st.self.previous_packet_stamp_ cur i ∧
      c.header.frame_id = st.self.frame_id_ := by
  unfold emitCloud
  by_cases h : st.self.return_selection_ ≠ K.ALL_RETURNS
  · refine ⟨_, rfl, ?_, ?_, ?_⟩ <;> simp [h, organizeCloud_header]
  · refine ⟨_, rfl, ?_, ?_, ?_⟩ <;> simp [h]

theorem emitCloud_cloud_counter (K : MSeriesDecls) (cur i : Nat) (st : LoopState) :
    (emitCloud K cur i st).self.cloud_counter_ = (st.self.cloud_counter_ + 1) % 2 ^ 32 := rfl

end General

section Seq

theorem emitCloud_seqInv (K : MSeriesDecls) (cur i n0 : Nat) (st : LoopState)
    (h : SeqInv n0 st) : SeqInv n0 (emitCloud K cur i st) := by
  obtain ⟨c, hem, hseq, -, -⟩ := emitCloud_emitted K cur i st
  refine ⟨?_, ?_⟩
  · rw [emitCloud_cloud_counter, hem, h.1]
    simp only [List.length_append, List.length_singleton]
    omega
  · intro k c1 hk
    rw [hem] at hk
    by_cases hlt : k < st.emitted.length
    · rw [List.getElem?_append_left hlt] at hk
      exact h.2 k c1 hk
    · have hge : st.emitted.length ≤ k := Nat.le_of_not_lt hlt
      rw [List.getElem?_append_right hge] at hk
      have hk0 : k - st.emitted.length = 0 := by
        by_contra hne
        have : ([c] : List PointCloudHVDIR)[k - st.emitted.length]? = none := by
          apply List.getElem?_eq_none
          simp only [List.length_singleton]
          omega
        rw [this] at hk
        exact Option.noConfusion hk
      rw [hk0] at hk
      simp only [List.getElem?_cons_zero, Option.some.injEq] at hk
      subst hk
      rw [hseq, h.1]
      have : k = st.emitted.length := by omega
      rw [this]

theorem atBoundary_seqInv (K : MSeriesDecls) (cur i n0 : Nat) (az : ℚ) (st : LoopState)
    (h : SeqInv n0 st) : SeqInv n0 (atBoundary K cur i az st) := by
  unfold atBoundary
  simp only
  split
  · exact emitCloud_seqInv K cur i n0 _ h
  · exact h

theorem firingBoundary_seqInv (K : MSeriesDecls) (cur n0 i : Nat)
    (data : MSeriesFiringData) (st : LoopState) (h : SeqInv n0 st) :
    SeqInv n0 (firingBoundary K cur st i data) := by
  have h1 : SeqInv n0 { st with self := latchStart st.self (azimuthAngle data.position) } := by
    unfold latchStart
    split <;> exact h
  unfold firingBoundary
  simp only
  split
  · exact atBoundary_seqInv K cur i n0 _ _ h1
  · exact h1

theorem firingStep_seqInv (K : MSeriesDecls) (cur : Nat) (scale : ℚ) (n0 i : Nat)
    (data : MSeriesFiringData) (st : LoopState) (h : SeqInv n0 st) :
    SeqInv n0 (firingStep K cur scale st i data) := by
  have h2 := firingBoundary_seqInv K cur n0 i data st h
  unfold firingStep firingPoints
  split
  · exact h2
  · exact h2

theorem firingsUpTo_seqInv (K : MSeriesDecls) (pkt : MSeriesDataPacket) (n n0 : Nat)
    (st : LoopState) (h : SeqInv n0 st) : SeqInv n0 (firingsUpTo K pkt n st) := by
  unfold firingsUpTo
  apply foldl_invariant (SeqInv n0)
  · exact h
  · intro b i _ hb
    exact firingStep_seqInv K _ _ n0 i _ b hb

theorem beforeFirings_cloud_counter (self : DataPacketParserMSeries) (pkt : MSeriesDataPacket) :
    (beforeFirings self pkt).self.cloud_counter_ = self.cloud_counter_ := by
  unfold beforeFirings
  simp only
  split <;> split <;> rfl

theorem beforeFirings_emitted (self : DataPacketParserMSeries) (pkt : MSeriesDataPacket) :
    (beforeFirings self pkt).emitted = [] := rfl

/-- A call either raises, and then nothing changes, or runs the firing loop
and stores the packet stamp. -/
theorem parseCall_cases (K : MSeriesDecls) (self : DataPacketParserMSeries)
    (pkt : MSeriesDataPacket) :
    parseCall K self pkt = (self, []) ∨
      parseCall K self pkt =
        ({ (firingLoop K pkt (beforeFirings self pkt)).self with
            previous_packet_stamp_ := packetStamp pkt },
          (firingLoop K pkt (beforeFirings self pkt)).emitted) := by
  unfold parseCall parse
  by_cases h1 : self.vertical_angle_lookup_table_.isEmpty
  · left; simp [h1]
  · cases h2 : statusError K pkt.status with
    | some e => left; simp [h1]
    | none => right; simp [h1]

theorem parseCall_seq (K : MSeriesDecls) (self : DataPacketParserMSeries)
    (pkt : MSeriesDataPacket) (n0 : Nat) (h : self.cloud_counter_ = n0 % 2 ^ 32) :
    (parseCall K self pkt).1.cloud_counter_ = (n0 + (parseCall K self pkt).2.length) % 2 ^ 32 ∧
      ∀ k c, (parseCall K self pkt).2[k]? = some c → c.header.seq = (n0 + k) % 2 ^ 32 := by
  rcases parseCall_cases K self pkt with hc | hc
  · rw [hc]
    refine ⟨by simpa using h, ?_⟩
    intro k c hk
    simp at hk
  · rw [hc]
    have hinv : SeqInv n0 (firingLoop K pkt (beforeFirings self pkt)) := by
      apply firingsUpTo_seqInv
      refine ⟨?_, ?_⟩
      · rw [beforeFirings_cloud_counter, beforeFirings_emitted, h]
        simp
      · intro k c hk
        rw [beforeFirings_emitted] at hk
        simp at hk
    generalize firingLoop K pkt (beforeFirings self pkt) = loop at hinv ⊢
    exact ⟨hinv.1, hinv.2⟩

/-- Numbering of the clouds a stream completes, starting from a counter that
stands at `n0`. -/
theorem completedClouds_seq (K : MSeriesDecls) (pkts : List MSeriesDataPacket) :
    ∀ (self : DataPacketParserMSeries) (n0 : Nat), self.cloud_counter_ = n0 % 2 ^ 32 →
      ∀ k c, (completedClouds K self pkts)[k]? = some c → c.header.seq = (n0 + k) % 2 ^ 32 := by
  induction pkts with
  | nil =>
    intro self n0 _ k c hk
    simp [completedClouds, parseStream] at hk
  | cons pkt rest ih =>
    intro self n0 h k c hk
    have hcall := parseCall_seq K self pkt n0 h
    have hflat : completedClouds K self (pkt :: rest) =
        (parseCall K self pkt).2 ++ completedClouds K (parseCall K self pkt).1 rest := by
      simp [completedClouds, parseStream]
    rw [hflat] at hk
    by_cases hlt : k < (parseCall K self pkt).2.length
    · rw [List.getElem?_append_left hlt] at hk
      exact hcall.2 k c hk
    · have hge : (parseCall K self pkt).2.length ≤ k := Nat.le_of_not_lt hlt
      rw [List.getElem?_append_right hge] at hk
      have := ih (parseCall K self pkt).1 (n0 + (parseCall K self pkt).2.length) hcall.1
        (k - (parseCall K self pkt).2.length) c hk
      rw [this]
      congr 1
      omega

/-- Numbering of the clouds the calls of a stream return: the cloud call `n`
leaves in `result` is numbered by the clouds completed up to and including call
`n`, less itself. -/
theorem returned_seq_from (K : MSeriesDecls) (pkts : List MSeriesDataPacket) :
    ∀ (self : DataPacketParserMSeries) (n0 : Nat), self.cloud_counter_ = n0 % 2 ^ 32 →
      ∀ n em c, (parseStream K self pkts).2[n]? = some em → em.getLast? = some c →
        c.header.seq =
          (n0 + (((parseStream K self pkts).2.take (n + 1)).flatten.length - 1)) % 2 ^ 32 := by
  induction pkts with
  | nil =>
    intro self n0 _ n em c hn
    simp [parseStream] at hn
  | cons pkt rest ih =>
    intro self n0 h n em c hn hlast
    have hcall := parseCall_seq K self pkt n0 h
    have hs : (parseStream K self (pkt :: rest)).2 =
        (parseCall K self pkt).2 :: (parseStream K (parseCall K self pkt).1 rest).2 := by
      simp [parseStream]
    rw [hs] at hn ⊢
    cases n with
    | zero =>
      simp only [List.getElem?_cons_zero, Option.some.injEq] at hn
      subst hn
      have hne : (parseCall K self pkt).2 ≠ [] := by
        intro he
        rw [he] at hlast
        simp at hlast
      have hk : (parseCall K self pkt).2[(parseCall K self pkt).2.length - 1]? = some c := by
        rw [← hlast, List.getLast?_eq_getElem?]
      have := hcall.2 _ c hk
      rw [this]
      simp
    | succ m =>
      simp only [List.getElem?_cons_succ] at hn
      have := ih (parseCall K self pkt).1 (n0 + (parseCall K self pkt).2.length) hcall.1
        m em c hn hlast
      rw [this]
      have hpos : 0 < ((parseStream K (parseCall K self pkt).1 rest).2.take (m + 1)).flatten.length := by
        have hmem : em ∈ (parseStream K (parseCall K self pkt).1 rest).2.take (m + 1) := by
          rw [List.mem_iff_getElem?]
          refine ⟨m, ?_⟩
          rw [List.getElem?_take_of_lt (Nat.lt_succ_self m)]
          exact hn
        have hemne : em ≠ [] := by
          intro he
          rw [he] at hlast
          simp at hlast
        rcases List.exists_cons_of_ne_nil hemne with ⟨x, xs, hx⟩
        have hxmem : x ∈ ((parseStream K (parseCall K self pkt).1 rest).2.take (m + 1)).flatten := by
          rw [List.mem_flatten]
          exact ⟨em, hmem, by rw [hx]; exact List.mem_cons_self _ _⟩
        exact List.length_pos_of_mem hxmem
      simp only [List.take_succ_cons, List.flatten_cons, List.length_append]
      congr 1
      omega

/-- C2 (amended): starting from a parser whose cloud counter is 0, the cloud
that call `n` of a stream returns has `header.seq` equal to the number of
clouds the parser completed before it, modulo `2^32`: all the clouds completed
in calls `0 .. n`, returned or overwritten within their call, less the returned
cloud itself. -/
theorem returned_seq_counts_completed (K : MSeriesDecls) (self : DataPacketParserMSeries)
    (pkts : List MSeriesDataPacket) (hfresh : self.cloud_counter_ = 0) (n : Nat)
    (em : List PointCloudHVDIR) (c : PointCloudHVDIR)
    (hcall : (parseStream K self pkts).2[n]? = some em) (hlast : em.getLast? = some c) :
    c.header.seq = (((parseStream K self pkts).2.take (n + 1)).flatten.length - 1) % 2 ^ 32 := by
  have h := returned_seq_from K pkts self 0 (by rw [hfresh]; rfl) n em c hcall hlast
  rw [h]
  congr 1
  omega

/-- The witness for C2: a one degree slicing parser completes three clouds in
one packet that sweeps 98 positions; the returned cloud is the third and is
numbered 2. -/
theorem returned_seq_counts_completed_witness :
    sliceReturned.header.seq =
      (((parseStream referenceDecls slicingParser [sweepPacket 100 2 100 1]).2.take
        (0 + 1)).flatten.length - 1) % 2 ^ 32 :=
  returned_seq_counts_completed referenceDecls slicingParser [sweepPacket 100 2 100 1] rfl 0
    sliceEmitted sliceReturned (by simp only [parseStream, sliceEmitted, List.getElem?_cons_zero])
    (getLast?_eq_getLastD sliceEmitted PointCloudHVDIR.new (by decide!))

/-- C2 (counterexample): the first call of a stream returns a cloud numbered 2
although no earlier call returned a cloud: the call completed three clouds and
`result` keeps the last. -/
theorem returned_seq_not_count_of_returned :
    ¬ ∀ (k : Nat) (c : PointCloudHVDIR),
      (returnedClouds referenceDecls slicingParser [sweepPacket 100 2 100 1])[k]? = some c →
      c.header.seq = k := by
  intro h
  have h1 : ((returnedClouds referenceDecls slicingParser [sweepPacket 100 2 100 1])[0]?).map
      (fun c => c.header.seq) = some 2 := by decide!
  cases h0 : (returnedClouds referenceDecls slicingParser [sweepPacket 100 2 100 1])[0]? with
  | none =>
    rw [h0] at h1
    exact Option.noConfusion h1
  | some c =>
    rw [h0] at h1
    have h2 := h 0 c h0
    simp only [Option.map_some', Option.some.injEq] at h1
    omega

end Seq

section Dense

theorem organizeCloud_is_dense (cur t : PointCloudHVDIR) :
    (organizeCloud cur t).1.is_dense = t.is_dense := by
  simp [organizeCloud, organizeLoop_is_dense, PointCloudHVDIR.clear]

/-- C3 (the code at the failing input): with return selection 0, a packet whose
firings are at positions 5199, 5200, ... and whose distances are all 0 makes
`parse` return a cloud of eight points, every one with a `NaN` range, whose
`is_dense` flag is `true`. -/
theorem returned_cloud_dense_flag_stale :
    (returnedClouds referenceDecls sampleParser [sweepPacket 5199 1 0 1]).map
        (fun c => (c.is_dense, c.noNaN, c.points.all fun pt => pt.isNaN, c.size)) =
      [(true, false, true, 8)] := by
  decide!

end Dense

section Organize

theorem foldl_push_filterMap (g : Nat → Option PointHVDIR) (l : List Nat) (t : PointCloudHVDIR) :
    (l.foldl
        (fun (t : PointCloudHVDIR) j =>
          match g j with
          | some pt => t.push_back pt
          | none => t)
        t).points = t.points ++ l.filterMap g := by
  induction l generalizing t with
  | nil => simp
  | cons j l ih =>
    simp only [List.foldl_cons]
    rw [ih]
    cases hg : g j with
    | none => simp [List.filterMap_cons, hg]
    | some pt => simp [List.filterMap_cons, hg]

theorem organizeLoop_points_aux (cur : PointCloudHVDIR) (w : Nat) (l : List Nat)
    (t : PointCloudHVDIR) :
    (l.foldl
        (fun t i =>
          (List.range w).foldl
            (fun (t : PointCloudHVDIR) j =>
              match cur.points[j * M_SERIES_NUM_LASERS + i]? with
              | some pt => t.push_back pt
              | none => t)
            t)
        t).points =
      t.points ++
        l.flatMap fun i =>
          (List.range w).filterMap fun j => cur.points[j * M_SERIES_NUM_LASERS + i]? := by
  induction l generalizing t with
  | nil => simp
  | cons i l ih =>
    simp only [List.foldl_cons]
    rw [ih]
    rw [foldl_push_filterMap (fun j => cur.points[j * M_SERIES_NUM_LASERS + i]?)]
    simp [List.flatMap_cons]

/-- The points `organizeCloud` leaves in the cloud it hands back: ring blocks
from the top ring down, each in column order. -/
theorem organizeCloud_points (cur t : PointCloudHVDIR) :
    (organizeCloud cur t).1.points =
      (List.range M_SERIES_NUM_LASERS).reverse.flatMap fun i =>
        (List.range (cur.size / M_SERIES_NUM_LASERS)).filterMap fun j =>
          cur.points[j * M_SERIES_NUM_LASERS + i]? := by
  simp only [organizeCloud, organizeLoop]
  rw [organizeLoop_points_aux]
  simp [PointCloudHVDIR.clear]

theorem filterMap_range_total {β : Type} (g : Nat → Option β) (w : Nat)
    (hg : ∀ j, j < w → (g j).isSome) :
    ((List.range w).filterMap g).length = w ∧
      ∀ c, c < w → ((List.range w).filterMap g)[c]? = g c := by
  induction w with
  | zero => simp
  | succ w ih =>
    have ih1 := ih (fun j hj => hg j (Nat.lt_succ_of_lt hj))
    obtain ⟨x, hx⟩ := Option.isSome_iff_exists.mp (hg w (Nat.lt_succ_self w))
    have hsplit : (List.range (w + 1)).filterMap g = (List.range w).filterMap g ++ [x] := by
      rw [List.range_succ, List.filterMap_append]
      simp [List.filterMap_cons, hx]
    rw [hsplit]
    refine ⟨by simp [ih1.1], ?_⟩
    intro c hc
    by_cases hlt : c < w
    · rw [List.getElem?_append_left (by rw [ih1.1]; exact hlt)]
      exact ih1.2 c hlt
    · have hcw : c = w := by omega
      subst hcw
      rw [List.getElem?_append_right (by rw [ih1.1])]
      simp [ih1.1, hx]

/-- Indexing into a concatenation of blocks of equal length `w`. -/
theorem getElem?_flatMap_blocks {α β : Type} (f : α → List β) (w : Nat) (l : List α)
    (hlen : ∀ a, a ∈ l → (f a).length = w) (r c : Nat) (hc : c < w) :
    (l.flatMap f)[r * w + c]? = (l[r]?).bind fun a => (f a)[c]? := by
  induction l generalizing r with
  | nil => simp
  | cons a l ih =>
    have ha := hlen a (List.mem_cons_self _ _)
    have hl := fun b hb => hlen b (List.mem_cons_of_mem _ hb)
    rw [List.flatMap_cons]
    cases r with
    | zero =>
      simp only [Nat.zero_mul, Nat.zero_add, List.getElem?_cons_zero, Option.some_bind]
      rw [List.getElem?_append_left (by rw [ha]; exact hc)]
    | succ r =>
      have hge : (f a).length ≤ (r + 1) * w + c := by
        rw [ha, Nat.succ_mul]; omega
      rw [List.getElem?_append_right hge, List.getElem?_cons_succ]
      have hidx : (r + 1) * w + c - (f a).length = r * w + c := by
        rw [ha, Nat.succ_mul]; omega
      rw [hidx]
      exact ih hl r

theorem filterMap_eq_flatMap_toList {α β : Type} (g : α → Option β) (l : List α) :
    l.filterMap g = l.flatMap fun a => (g a).toList := by
  induction l with
  | nil => simp
  | cons a l ih =>
    rw [List.flatMap_cons, ← ih]
    cases hg : g a <;> simp [List.filterMap_cons, hg]

/-- Exchanging the two loops of a double enumeration permutes the result. -/
theorem flatMap_filterMap_swap {α β γ : Type} (G : β → α → Option γ) (l1 : List α)
    (l2 : List β) :
    (l1.flatMap fun i => l2.filterMap fun j => G j i).Perm
      (l2.flatMap fun j => l1.filterMap fun i => G j i) := by
  induction l1 with
  | nil => simp
  | cons a l1 ih =>
    rw [List.flatMap_cons]
    have h1 : (l2.flatMap fun j => (a :: l1).filterMap fun i => G j i) =
        l2.flatMap fun j => (G j a).toList ++ l1.filterMap fun i => G j i := by
      congr 1
      funext j
      cases hg : G j a <;> simp [List.filterMap_cons, hg]
    rw [h1]
    refine List.Perm.trans ?_ (List.flatMap_append_perm l2 _ _)
    rw [← filterMap_eq_flatMap_toList (fun j => G j a) l2]
    exact List.Perm.append_left _ ih

/-- A list of `NUM_LASERS * w` points is the concatenation of its `w` columns
of `NUM_LASERS` points. -/
theorem points_eq_columns (P : List PointHVDIR) (w : Nat)
    (hsize : P.length = M_SERIES_NUM_LASERS * w) :
    P = (List.range w).flatMap fun j =>
      (List.range M_SERIES_NUM_LASERS).filterMap fun i => P[j * M_SERIES_NUM_LASERS + i]? := by
  have hblock : ∀ j, j ∈ List.range w →
      ((List.range M_SERIES_NUM_LASERS).filterMap
          fun i => P[j * M_SERIES_NUM_LASERS + i]?).length = M_SERIES_NUM_LASERS ∧
        ∀ c, c < M_SERIES_NUM_LASERS →
          ((List.range M_SERIES_NUM_LASERS).filterMap
            fun i => P[j * M_SERIES_NUM_LASERS + i]?)[c]? = P[j * M_SERIES_NUM_LASERS + c]? := by
    intro j hj
    apply filterMap_range_total
    intro i hi
    have hj1 : j < w := List.mem_range.mp hj
    have hidx : j * M_SERIES_NUM_LASERS + i < P.length := by
      rw [hsize]
      simp only [M_SERIES_NUM_LASERS] at hi ⊢
      omega
    rw [List.getElem?_eq_getElem hidx]
    rfl
  apply List.ext_getElem?
  intro k
  have hk : k = k / M_SERIES_NUM_LASERS * M_SERIES_NUM_LASERS + k % M_SERIES_NUM_LASERS := by
    simp only [M_SERIES_NUM_LASERS]
    omega
  have hmod : k % M_SERIES_NUM_LASERS < M_SERIES_NUM_LASERS := by
    simp only [M_SERIES_NUM_LASERS]
    omega
  conv_rhs => rw [hk]
  rw [getElem?_flatMap_blocks _ M_SERIES_NUM_LASERS (List.range w) (fun j hj => (hblock j hj).1)
    _ _ hmod]
  by_cases hlt : k / M_SERIES_NUM_LASERS < w
  · rw [List.getElem?_range hlt]
    simp only [Option.some_bind]
    rw [(hblock _ (List.mem_range.mpr hlt)).2 _ hmod, ← hk]
  · have hnone : (List.range w)[k / M_SERIES_NUM_LASERS]? = none := by
      apply List.getElem?_eq_none
      simp only [List.length_range]
      omega
    rw [hnone]
    simp only [Option.none_bind]
    apply List.getElem?_eq_none
    rw [hsize]
    simp only [M_SERIES_NUM_LASERS] at hlt ⊢
    omega

/-- What `organizeCloud` does to a cloud of `NUM_LASERS * w` points: size,
shape, the transposition, the permutation and the header. -/
theorem organizeCloud_spec (cur t : PointCloudHVDIR) (w : Nat)
    (hsize : cur.size = M_SERIES_NUM_LASERS * w) :
    (organizeCloud cur t).1.size = cur.size ∧
      (organizeCloud cur t).1.height = M_SERIES_NUM_LASERS ∧
      (organizeCloud cur t).1.width = w ∧
      (∀ r c, r < M_SERIES_NUM_LASERS → c < w →
        ∃ pt, cur.points[c * M_SERIES_NUM_LASERS + (M_SERIES_NUM_LASERS - 1 - r)]? = some pt ∧
          (organizeCloud cur t).1.points[r * w + c]? = some pt) ∧
      (organizeCloud cur t).1.points.Perm cur.points ∧
      (organizeCloud cur t).1.header.stamp = cur.header.stamp ∧
      (organizeCloud cur t).1.header.seq = cur.header.seq ∧
      (organizeCloud cur t).1.header.frame_id = cur.header.frame_id := by
  have hlen : cur.points.length = M_SERIES_NUM_LASERS * w := hsize
  have hw : cur.size / M_SERIES_NUM_LASERS = w := by
    rw [hsize]
    simp [M_SERIES_NUM_LASERS]
  have hpts := organizeCloud_points cur t
  rw [hw] at hpts
  have hsome : ∀ i, i < M_SERIES_NUM_LASERS → ∀ j, j < w →
      (cur.points[j * M_SERIES_NUM_LASERS + i]?).isSome := by
    intro i hi j hj
    have hidx : j * M_SERIES_NUM_LASERS + i < cur.points.length := by
      rw [hlen]
      simp only [M_SERIES_NUM_LASERS] at hi ⊢
      omega
    rw [List.getElem?_eq_getElem hidx]
    rfl
  have hperm : (organizeCloud cur t).1.points.Perm cur.points := by
    rw [hpts]
    refine List.Perm.trans
      (List.Perm.flatMap_right _ (List.reverse_perm (List.range M_SERIES_NUM_LASERS))) ?_
    refine List.Perm.trans
      (flatMap_filterMap_swap (fun j i => cur.points[j * M_SERIES_NUM_LASERS + i]?)
        (List.range M_SERIES_NUM_LASERS) (List.range w)) ?_
    rw [← points_eq_columns cur.points w hlen]
  refine ⟨hperm.length_eq, rfl, ?_, ?_, hperm, ?_, ?_, ?_⟩
  · show cur.size / M_SERIES_NUM_LASERS = w
    exact hw
  · intro r c hr hc
    have hi : M_SERIES_NUM_LASERS - 1 - r < M_SERIES_NUM_LASERS := by
      simp only [M_SERIES_NUM_LASERS] at hr ⊢
      omega
    obtain ⟨pt, hpt⟩ := Option.isSome_iff_exists.mp (hsome _ hi c hc)
    refine ⟨pt, hpt, ?_⟩
    rw [hpts]
    rw [getElem?_flatMap_blocks _ w (List.range M_SERIES_NUM_LASERS).reverse ?_ r c hc]
    · have hrev : (List.range M_SERIES_NUM_LASERS).reverse[r]? =
          some (M_SERIES_NUM_LASERS - 1 - r) := by
        simp only [M_SERIES_NUM_LASERS] at hr ⊢
        interval_cases r <;> rfl
      rw [hrev]
      simp only [Option.some_bind]
      rw [(filterMap_range_total _ w (hsome _ hi)).2 c hc]
      exact hpt
    · intro a ha
      have ha8 : a < M_SERIES_NUM_LASERS := by
        rw [List.mem_reverse] at ha
        exact List.mem_range.mp ha
      exact (filterMap_range_total _ w (hsome a ha8)).1
  · simp [organizeCloud_header]
  · simp [organizeCloud_header]
  · simp [organizeCloud_header]

/-- C5: on a cloud of `NUM_LASERS * w` points `organizeCloud` hands back a cloud
of the same size with `height = NUM_LASERS` and `width = w`, whose point at
index `r * w + c` is the input point at index
`c * NUM_LASERS + (NUM_LASERS - 1 - r)`; its points are a permutation of the
input points and its header stamp, seq and frame id are the input's. -/
theorem organizeCloud_transposes (cur t : PointCloudHVDIR) (w : Nat)
    (hsize : cur.size = M_SERIES_NUM_LASERS * w) :
    (organizeCloud cur t).1.size = cur.size ∧
      (organizeCloud cur t).1.height = M_SERIES_NUM_LASERS ∧
      (organizeCloud cur t).1.width = w ∧
      (∀ r c, r < M_SERIES_NUM_LASERS → c < w →
        ∃ pt, cur.points[c * M_SERIES_NUM_LASERS + (M_SERIES_NUM_LASERS - 1 - r)]? = some pt ∧
          (organizeCloud cur t).1.points[r * w + c]? = some pt) ∧
      (organizeCloud cur t).1.points.Perm cur.points ∧
      (organizeCloud cur t).1.header.stamp = cur.header.stamp ∧
      (organizeCloud cur t).1.header.seq = cur.header.seq ∧
      (organizeCloud cur t).1.header.frame_id = cur.header.frame_id :=
  organizeCloud_spec cur t w hsize

/-- The witness for C5: a cloud of sixteen points, two columns of eight. -/
theorem organizeCloud_transposes_witness :
    (organizeCloud
        { PointCloudHVDIR.new with
          points := (List.range 16).map fun k => mkPoint none none (k % 8) k (some 1) }
        PointCloudHVDIR.new).1.width = 2 :=
  (organizeCloud_transposes
    { PointCloudHVDIR.new with
      points := (List.range 16).map fun k => mkPoint none none (k % 8) k (some 1) }
    PointCloudHVDIR.new 2 (by decide)).2.2.1

end Organize

section Stamp

theorem firingStamp_spec (prev cur i : Nat) (hle : prev ≤ cur) (hcur : cur * 50 < 2 ^ 64)
    (hi : i < M_SERIES_FIRING_PER_PKT) :
    firingStamp prev cur i =
        (cround ((prev : ℚ) + ((cur : ℚ) - (prev : ℚ)) * (i : ℚ) / 50)).toNat ∧
      prev ≤ firingStamp prev cur i ∧ firingStamp prev cur i ≤ cur := by
  have hi50 : i < 50 := hi
  have hdiff : (cur + 2 ^ 64 - prev) % 2 ^ 64 = cur - prev := by omega
  have hprod : (cur - prev) * i < 2 ^ 64 := by
    calc (cur - prev) * i ≤ cur * 50 :=
          Nat.mul_le_mul (Nat.sub_le _ _) (Nat.le_of_lt hi50)
      _ < 2 ^ 64 := hcur
  have hform : firingStamp prev cur i =
      (cround ((prev : ℚ) + ((cur : ℚ) - (prev : ℚ)) * (i : ℚ) / 50)).toNat := by
    unfold firingStamp
    simp only [hdiff, Nat.mod_eq_of_lt hprod, M_SERIES_FIRING_PER_PKT]
    congr 3
    push_cast [Nat.cast_sub hle]
    ring
  refine ⟨hform, ?_⟩
  rw [hform]
  have hp : (prev : ℚ) ≤ (cur : ℚ) := by exact_mod_cast hle
  have hiq : (i : ℚ) ≤ 50 := by exact_mod_cast Nat.le_of_lt hi50
  have hi0 : (0 : ℚ) ≤ (i : ℚ) := Nat.cast_nonneg i
  have hp0 : (0 : ℚ) ≤ (prev : ℚ) := Nat.cast_nonneg prev
  have hterm0 : 0 ≤ ((cur : ℚ) - (prev : ℚ)) * (i : ℚ) / 50 := by
    apply div_nonneg
    · exact mul_nonneg (by linarith) hi0
    · norm_num
  have hterm1 : ((cur : ℚ) - (prev : ℚ)) * (i : ℚ) / 50 ≤ (cur : ℚ) - (prev : ℚ) := by
    rw [div_le_iff₀ (by norm_num : (0 : ℚ) < 50)]
    exact mul_le_mul_of_nonneg_left hiq (by linarith)
  have hq0 : 0 ≤ (prev : ℚ) + ((cur : ℚ) - (prev : ℚ)) * (i : ℚ) / 50 := by linarith
  have hround : cround ((prev : ℚ) + ((cur : ℚ) - (prev : ℚ)) * (i : ℚ) / 50) =
      ⌊(prev : ℚ) + ((cur : ℚ) - (prev : ℚ)) * (i : ℚ) / 50 + 1 / 2⌋ := by
    unfold cround
    rw [if_pos hq0]
  rw [hround]
  have h1 : (prev : ℤ) ≤ ⌊(prev : ℚ) + ((cur : ℚ) - (prev : ℚ)) * (i : ℚ) / 50 + 1 / 2⌋ := by
    apply Int.le_floor.mpr
    push_cast
    linarith
  have h2 : ⌊(prev : ℚ) + ((cur : ℚ) - (prev : ℚ)) * (i : ℚ) / 50 + 1 / 2⌋ < (cur : ℤ) + 1 := by
    apply Int.floor_lt.mpr
    push_cast
    linarith
  omega

theorem packetStamp_small (pkt : MSeriesDataPacket) (hs : pkt.seconds < 2 ^ 32)
    (hn : pkt.nanoseconds < 2 ^ 32) : packetStamp pkt * 50 < 2 ^ 64 := by
  have h1 : pkt.seconds * 1000000 + pkt.nanoseconds / 100 < 2 ^ 58 := by omega
  have h2 : pkt.seconds * 1000000 + pkt.nanoseconds / 1000 < 2 ^ 58 := by omega
  unfold packetStamp
  split
  · rw [Nat.mod_eq_of_lt (by omega)]
    omega
  · rw [Nat.mod_eq_of_lt (by omega)]
    omega

theorem emitCloud_stampInv (K : MSeriesDecls) (prev cur i : Nat) (st : LoopState)
    (hi : i < M_SERIES_FIRING_PER_PKT) (h : StampInv prev cur st) :
    StampInv prev cur (emitCloud K cur i st) := by
  obtain ⟨c, hem, -, hstamp, -⟩ := emitCloud_emitted K cur i st
  refine ⟨h.1, ?_⟩
  intro c1 hc1
  rw [hem, List.mem_append, List.mem_singleton] at hc1
  rcases hc1 with hc1 | hc1
  · exact h.2 c1 hc1
  · subst hc1
    exact ⟨i, hi, by rw [hstamp, h.1]⟩

theorem atBoundary_stampInv (K : MSeriesDecls) (prev cur i : Nat) (az : ℚ) (st : LoopState)
    (hi : i < M_SERIES_FIRING_PER_PKT) (h : StampInv prev cur st) :
    StampInv prev cur (atBoundary K cur i az st) := by
  unfold atBoundary
  simp only
  split
  · exact emitCloud_stampInv K prev cur i _ hi h
  · exact h

theorem firingStep_stampInv (K : MSeriesDecls) (prev cur : Nat) (scale : ℚ) (i : Nat)
    (data : MSeriesFiringData) (st : LoopState) (hi : i < M_SERIES_FIRING_PER_PKT)
    (h : StampInv prev cur st) : StampInv prev cur (firingStep K cur scale st i data) := by
  have h1 : StampInv prev cur { st with self := latchStart st.self (azimuthAngle data.position) } := by
    unfold latchStart
    split <;> exact h
  have h2 : StampInv prev cur (firingBoundary K cur st i data) := by
    unfold firingBoundary
    simp only
    split
    · exact atBoundary_stampInv K prev cur i _ _ hi h1
    · exact h1
  unfold firingStep firingPoints
  split
  · exact h2
  · exact h2

theorem firingsUpTo_stampInv (K : MSeriesDecls) (pkt : MSeriesDataPacket) (prev n : Nat)
    (st : LoopState) (hn : n ≤ M_SERIES_FIRING_PER_PKT)
    (h : StampInv prev (packetStamp pkt) st) :
    StampInv prev (packetStamp pkt) (firingsUpTo K pkt n st) := by
  unfold firingsUpTo
  apply foldl_invariant (StampInv prev (packetStamp pkt))
  · exact h
  · intro b i hi hb
    exact firingStep_stampInv K prev _ _ i _ b (lt_of_lt_of_le (List.mem_range.mp hi) hn) hb

theorem beforeFirings_previous_packet_stamp (self : DataPacketParserMSeries)
    (pkt : MSeriesDataPacket) :
    (beforeFirings self pkt).self.previous_packet_stamp_ = effectivePreviousStamp self pkt := by
  unfold beforeFirings effectivePreviousStamp
  simp only
  split <;> split <;> simp_all

/-- The stamps of one call: the stored stamp is never moved past the packet's
stamp, and every cloud of the call is stamped between the effective previous
stamp and the packet's stamp by the interpolation formula. -/
theorem parseCall_stamps (K : MSeriesDecls) (self : DataPacketParserMSeries)
    (pkt : MSeriesDataPacket) (hs : pkt.seconds < 2 ^ 32) (hn : pkt.nanoseconds < 2 ^ 32)
    (hle : self.previous_packet_stamp_ ≤ packetStamp pkt) :
    ((parseCall K self pkt).1.previous_packet_stamp_ = self.previous_packet_stamp_ ∨
        (parseCall K self pkt).1.previous_packet_stamp_ = packetStamp pkt) ∧
      ∀ c, c ∈ (parseCall K self pkt).2 →
        ∃ i, i < M_SERIES_FIRING_PER_PKT ∧
          c.header.stamp =
            (cround (((effectivePreviousStamp self pkt : Nat) : ℚ) +
              (((packetStamp pkt : Nat) : ℚ) - ((effectivePreviousStamp self pkt : Nat) : ℚ)) *
                (i : ℚ) / 50)).toNat ∧
          effectivePreviousStamp self pkt ≤ c.header.stamp ∧
          c.header.stamp ≤ packetStamp pkt := by
  rcases parseCall_cases K self pkt with hc | hc
  · rw [hc]
    exact ⟨Or.inl rfl, fun c hcm => absurd hcm (List.not_mem_nil c)⟩
  · rw [hc]
    refine ⟨Or.inr rfl, ?_⟩
    have hinv : StampInv (effectivePreviousStamp self pkt) (packetStamp pkt)
        (firingLoop K pkt (beforeFirings self pkt)) := by
      apply firingsUpTo_stampInv _ _ _ _ _ (le_refl _)
      exact ⟨beforeFirings_previous_packet_stamp self pkt,
        fun c hcm => absurd hcm (List.not_mem_nil c)⟩
    generalize firingLoop K pkt (beforeFirings self pkt) = loop at hinv ⊢
    intro c hcm
    obtain ⟨i, hi, hst⟩ := hinv.2 c hcm
    have heff : effectivePreviousStamp self pkt ≤ packetStamp pkt := by
      unfold effectivePreviousStamp
      split
      · exact le_refl _
      · exact hle
    have hspec := firingStamp_spec _ _ i heff (packetStamp_small pkt hs hn) hi
    refine ⟨i, hi, ?_, ?_, ?_⟩
    · rw [hst]; exact hspec.1
    · rw [hst]; exact hspec.2.1
    · rw [hst]; exact hspec.2.2

theorem self_le_effectivePreviousStamp (self : DataPacketParserMSeries)
    (pkt : MSeriesDataPacket) :
    self.previous_packet_stamp_ ≤ effectivePreviousStamp self pkt := by
  unfold effectivePreviousStamp
  split
  · omega
  · exact le_refl _

theorem returnedClouds_cons (K : MSeriesDecls) (self : DataPacketParserMSeries)
    (pkt : MSeriesDataPacket) (rest : List MSeriesDataPacket) :
    returnedClouds K self (pkt :: rest) =
      (parseCall K self pkt).2.getLast?.toList ++
        returnedClouds K (parseCall K self pkt).1 rest := by
  simp only [returnedClouds, parseStream, List.filterMap_cons]
  cases (parseCall K self pkt).2.getLast? <;> simp

/-- Along a stream with non-decreasing packet stamps the returned stamps are
non-decreasing and none is below the stamp stored at the start. -/
theorem returned_stamps_sorted_from (K : MSeriesDecls) (pkts : List MSeriesDataPacket) :
    ∀ self : DataPacketParserMSeries,
      (∀ pkt, pkt ∈ pkts → pkt.seconds < 2 ^ 32 ∧ pkt.nanoseconds < 2 ^ 32) →
      (∀ pkt, pkt ∈ pkts → self.previous_packet_stamp_ ≤ packetStamp pkt) →
      (pkts.map packetStamp).Sorted (fun a b => a ≤ b) →
      ((returnedClouds K self pkts).map fun c => c.header.stamp).Sorted (fun a b => a ≤ b) ∧
        ∀ c, c ∈ returnedClouds K self pkts → self.previous_packet_stamp_ ≤ c.header.stamp := by
  induction pkts with
  | nil =>
    intro self _ _ _
    simp [returnedClouds, parseStream]
  | cons pkt rest ih =>
    intro self hwf hprev hsorted
    have hwf0 := hwf pkt (List.mem_cons_self _ _)
    have hle0 := hprev pkt (List.mem_cons_self _ _)
    have hcall := parseCall_stamps K self pkt hwf0.1 hwf0.2 hle0
    rw [List.map_cons, List.sorted_cons] at hsorted
    have hnext : ∀ q, q ∈ rest → (parseCall K self pkt).1.previous_packet_stamp_ ≤ packetStamp q := by
      intro q hq
      rcases hcall.1 with h | h
      · rw [h]; exact hprev q (List.mem_cons_of_mem _ hq)
      · rw [h]; exact hsorted.1 _ (List.mem_map_of_mem _ hq)
    have hrest := ih (parseCall K self pkt).1
      (fun q hq => hwf q (List.mem_cons_of_mem _ hq)) hnext hsorted.2
    have hkeep : self.previous_packet_stamp_ ≤ (parseCall K self pkt).1.previous_packet_stamp_ := by
      rcases hcall.1 with h | h
      · rw [h]
      · rw [h]; exact hle0
    rw [returnedClouds_cons]
    cases hlast : (parseCall K self pkt).2.getLast? with
    | none =>
      simp only [Option.toList, List.nil_append]
      exact ⟨hrest.1, fun c hc => le_trans hkeep (hrest.2 c hc)⟩
    | some c0 =>
      have hmem : c0 ∈ (parseCall K self pkt).2 := List.mem_of_getLast?_eq_some hlast
      obtain ⟨i, -, -, hlo, hhi⟩ := hcall.2 c0 hmem
      have hc0next : c0.header.stamp ≤ (parseCall K self pkt).1.previous_packet_stamp_ := by
        rcases hcall.1 with h | h
        · -- the call raised: it completed no cloud
          rcases parseCall_cases K self pkt with hc | hc
          · rw [hc] at hmem
            exact absurd hmem (List.not_mem_nil c0)
          · rw [hc] at h
            have : packetStamp pkt = self.previous_packet_stamp_ := h
            rw [hc]
            show c0.header.stamp ≤ packetStamp pkt
            exact hhi
        · rw [h]; exact hhi
      simp only [Option.toList, List.singleton_append, List.map_cons, List.sorted_cons]
      refine ⟨⟨?_, hrest.1⟩, ?_⟩
      · intro b hb
        obtain ⟨c1, hc1, rfl⟩ := List.mem_map.mp hb
        exact le_trans hc0next (hrest.2 c1 hc1)
      · intro c hc
        rcases List.mem_cons.mp hc with hc | hc
        · subst hc
          exact le_trans (self_le_effectivePreviousStamp self pkt) hlo
        · exact le_trans hkeep (hrest.2 c hc)

/-- C4: along a stream of packets whose stamps are non-decreasing (and not
below the stamp the parser holds at the start), the `header.stamp` values of
the clouds returned by successive calls are non-decreasing; and in every call
a cloud completed at firing `i` is stamped
`round(prev + (cur - prev) * i / FIRINGS_PER_PKT)`, which lies between `prev`
and `cur`, the previous and the current packet stamp. -/
theorem returned_stamps_nondecreasing (K : MSeriesDecls) (self : DataPacketParserMSeries)
    (pkts : List MSeriesDataPacket)
    (hwf : ∀ pkt, pkt ∈ pkts → pkt.seconds < 2 ^ 32 ∧ pkt.nanoseconds < 2 ^ 32)
    (hprev : ∀ pkt, pkt ∈ pkts → self.previous_packet_stamp_ ≤ packetStamp pkt)
    (hsorted : (pkts.map packetStamp).Sorted (fun a b => a ≤ b)) :
    ((returnedClouds K self pkts).map fun c => c.header.stamp).Sorted (fun a b => a ≤ b) ∧
      ∀ (s : DataPacketParserMSeries) (pkt : MSeriesDataPacket),
        pkt.seconds < 2 ^ 32 → pkt.nanoseconds < 2 ^ 32 →
        s.previous_packet_stamp_ ≤ packetStamp pkt →
        ∀ c, c ∈ (parseCall K s pkt).2 →
          ∃ i, i < M_SERIES_FIRING_PER_PKT ∧
            c.header.stamp =
              (cround (((effectivePreviousStamp s pkt : Nat) : ℚ) +
                (((packetStamp pkt : Nat) : ℚ) - ((effectivePreviousStamp s pkt : Nat) : ℚ)) *
                  (i : ℚ) / 50)).toNat ∧
            effectivePreviousStamp s pkt ≤ c.header.stamp ∧
            c.header.stamp ≤ packetStamp pkt :=
  ⟨(returned_stamps_sorted_from K pkts self hwf hprev hsorted).1,
    fun s pkt hs hn hle => (parseCall_stamps K s pkt hs hn hle).2⟩

/-- The witness for C4: two packets stamped 1 s and 2 s, each crossing the half
turn, on the sample parser. -/
theorem returned_stamps_nondecreasing_witness :
    ((returnedClouds referenceDecls sampleParser
        [sweepPacket 5199 1 100 1, sweepPacket 5199 1 100 2]).map
      fun c => c.header.stamp).Sorted (fun a b => a ≤ b) :=
  (returned_stamps_nondecreasing referenceDecls sampleParser
    [sweepPacket 5199 1 100 1, sweepPacket 5199 1 100 2]
    (by
      intro pkt h
      simp only [List.mem_cons, List.mem_singleton, List.not_mem_nil, or_false] at h
      rcases h with rfl | rfl <;> exact ⟨by decide, by decide⟩)
    (by
      intro pkt h
      simp only [List.mem_cons, List.mem_singleton, List.not_mem_nil, or_false] at h
      rcases h with rfl | rfl <;> decide)
    (by decide)).1

end Stamp

section Streams

/-- A property of the parser object that every call keeps, and a property of
clouds that every cloud of a call has, hold along a whole stream. -/
theorem parseStream_invariant (K : MSeriesDecls) (P : DataPacketParserMSeries → Prop)
    (Q : PointCloudHVDIR → Prop)
    (hcall : ∀ self pkt, P self →
      P (parseCall K self pkt).1 ∧ ∀ c, c ∈ (parseCall K self pkt).2 → Q c)
    (pkts : List MSeriesDataPacket) :
    ∀ self, P self →
      P (parseStream K self pkts).1 ∧ ∀ c, c ∈ completedClouds K self pkts → Q c := by
  induction pkts with
  | nil =>
    intro self h
    exact ⟨h, fun c hc => by simp [completedClouds, parseStream] at hc⟩
  | cons pkt rest ih =>
    intro self h
    have h1 := hcall self pkt h
    have h2 := ih (parseCall K self pkt).1 h1.1
    refine ⟨h2.1, ?_⟩
    intro c hc
    have hflat : completedClouds K self (pkt :: rest) =
        (parseCall K self pkt).2 ++ completedClouds K (parseCall K self pkt).1 rest := by
      simp [completedClouds, parseStream]
    rw [hflat, List.mem_append] at hc
    rcases hc with hc | hc
    · exact h1.2 c hc
    · exact h2.2 c hc

/-- A returned cloud is one of the completed clouds. -/
theorem returned_mem_completed (K : MSeriesDecls) (self : DataPacketParserMSeries)
    (pkts : List MSeriesDataPacket) (c : PointCloudHVDIR)
    (hc : c ∈ returnedClouds K self pkts) : c ∈ completedClouds K self pkts := by
  unfold returnedClouds at hc
  unfold completedClouds
  rw [List.mem_filterMap] at hc
  obtain ⟨em, hem, hlast⟩ := hc
  rw [List.mem_flatten]
  exact ⟨em, hem, List.mem_of_getLast?_eq_some hlast⟩

end Streams

section Shape

theorem foldl_push_if_length (p : Nat → Prop) [DecidablePred p]
    (f : PointCloudHVDIR → Nat → PointCloudHVDIR)
    (hf : ∀ c i, (f c i).points.length = c.points.length + 1)
    (l : List Nat) (c : PointCloudHVDIR) :
    (l.foldl (fun c i => if p i then f c i else c) c).points.length =
      c.points.length + (l.filter fun i => decide (p i)).length := by
  induction l generalizing c with
  | nil => simp
  | cons i l ih =>
    simp only [List.foldl_cons]
    rw [ih]
    by_cases hp : p i
    · simp [hp, hf, List.filter_cons]
      omega
    · simp [hp, List.filter_cons]

theorem pushSelectedReturn_length (sel : Int) (scale : ℚ) (data : MSeriesFiringData)
    (h v : Option ℚ) (j : Nat) (cloud : PointCloudHVDIR) :
    (pushSelectedReturn sel scale data h v j cloud).points.length =
      cloud.points.length + selectedCount sel := by
  unfold pushSelectedReturn selectedCount
  exact foldl_push_if_length (fun i => sel = (i : Int))
    (fun c i =>
      if data.returns_distances i j = 0 then
        ({ c with is_dense := false } : PointCloudHVDIR).push_back
          (mkPoint h v j (data.returns_intensities i j) none)
      else
        c.push_back
          (mkPoint h v j (data.returns_intensities i j)
            (some ((data.returns_distances i j : ℚ) * scale))))
    (by intro c i; dsimp only; split <;> simp) _ cloud

theorem selectedCount_le_one (sel : Int) : selectedCount sel ≤ 1 := by
  unfold selectedCount
  by_cases h : 0 ≤ sel ∧ sel < 8
  · obtain ⟨k, hk⟩ := Int.eq_ofNat_of_zero_le h.1
    have hk8 : k < 8 := by omega
    subst hk
    interval_cases k <;> decide
  · have : ((List.range M_SERIES_NUM_LASERS).filter fun (i : Nat) => decide (sel = (i : Int))) = [] := by
      rw [List.filter_eq_nil_iff]
      intro i hi
      have hi8 : i < M_SERIES_NUM_LASERS := List.mem_range.mp hi
      simp only [M_SERIES_NUM_LASERS] at hi8
      simp only [decide_eq_true_eq]
      omega
    rw [this]
    exact Nat.zero_le _

theorem foldl_length_const (f : PointCloudHVDIR → Nat → PointCloudHVDIR) (k : Nat)
    (hf : ∀ c j, (f c j).points.length = c.points.length + k) (l : List Nat)
    (c : PointCloudHVDIR) : (l.foldl f c).points.length = c.points.length + l.length * k := by
  induction l generalizing c with
  | nil => simp
  | cons j l ih =>
    simp only [List.foldl_cons, List.length_cons]
    rw [ih, hf, Nat.succ_mul]
    omega

theorem pushFiring_length_selected (K : MSeriesDecls) (self : DataPacketParserMSeries)
    (scale : ℚ) (data : MSeriesFiringData) (hsel : self.return_selection_ ≠ K.ALL_RETURNS) :
    (pushFiring K self scale data).points.length =
      self.current_cloud_.points.length +
        M_SERIES_NUM_LASERS * selectedCount self.return_selection_ := by
  unfold pushFiring
  simp only
  rw [foldl_length_const _ (selectedCount self.return_selection_)]
  · simp
  · intro c j
    unfold pushBeam
    simp only [if_neg hsel]
    exact pushSelectedReturn_length _ _ _ _ _ _ _

theorem emitCloud_shapeInv (K : MSeriesDecls) (cur i : Nat) (sel : Int) (st : LoopState)
    (hsel : sel ≠ K.ALL_RETURNS) (h : ShapeInv sel st) : ShapeInv sel (emitCloud K cur i st) := by
  obtain ⟨h1, h2, h3⟩ := h
  have hne : st.self.return_selection_ ≠ K.ALL_RETURNS := by rw [h1]; exact hsel
  have hsize : ∀ hdr : PCLHeader,
      ({ st.self.current_cloud_ with header := hdr } : PointCloudHVDIR).size =
        M_SERIES_NUM_LASERS * (st.self.current_cloud_.size / M_SERIES_NUM_LASERS) := by
    intro hdr
    show st.self.current_cloud_.size = _
    simp only [M_SERIES_NUM_LASERS] at h2 ⊢
    omega
  have horg := fun hdr => organizeCloud_spec
    ({ st.self.current_cloud_ with header := hdr } : PointCloudHVDIR) st.self.worker_cloud_
    (st.self.current_cloud_.size / M_SERIES_NUM_LASERS) (hsize hdr)
  unfold emitCloud
  simp only [if_pos hne]
  obtain ⟨e1, e2, e3, -⟩ := horg
    { stamp := firingStamp st.self.previous_packet_stamp_ cur i,
      seq := st.self.cloud_counter_, frame_id := st.self.frame_id_ }
  have e4 := e1.trans (hsize _)
  refine ⟨h1, ?_, ?_⟩
  · show PointCloudHVDIR.size _ % M_SERIES_NUM_LASERS = 0
    rw [e4]
    exact Nat.mul_mod_right _ _
  · intro c hc
    rw [List.mem_append, List.mem_singleton] at hc
    rcases hc with hc | hc
    · exact h3 c hc
    · subst hc
      refine ⟨?_, e2⟩
      rw [e2, e3]
      exact e4

theorem atBoundary_shapeInv (K : MSeriesDecls) (cur i : Nat) (az : ℚ) (sel : Int)
    (st : LoopState) (hsel : sel ≠ K.ALL_RETURNS) (h : ShapeInv sel st) :
    ShapeInv sel (atBoundary K cur i az st) := by
  have h1 : ShapeInv sel
      (if st.self.current_cloud_.size > asSizeT st.self.minimum_cloud_size_ then
        emitCloud K cur i { st with self := { st.self with start_azimuth_ := az } }
      else { st with self := { st.self with start_azimuth_ := az } }) := by
    split
    · exact emitCloud_shapeInv K cur i sel _ hsel h
    · exact h
  unfold atBoundary
  exact ⟨h1.1, rfl, h1.2.2⟩

theorem firingStep_shapeInv (K : MSeriesDecls) (cur : Nat) (scale : ℚ) (i : Nat) (sel : Int)
    (data : MSeriesFiringData) (st : LoopState) (hsel : sel ≠ K.ALL_RETURNS)
    (h : ShapeInv sel st) : ShapeInv sel (firingStep K cur scale st i data) := by
  have h1 : ShapeInv sel { st with self := latchStart st.self (azimuthAngle data.position) } := by
    unfold latchStart
    split <;> exact h
  have h2 : ShapeInv sel (firingBoundary K cur st i data) := by
    unfold firingBoundary
    simp only
    split
    · exact atBoundary_shapeInv K cur i _ sel _ hsel h1
    · exact h1
  unfold firingStep firingPoints
  split
  · exact h2
  · refine ⟨h2.1, ?_, h2.2.2⟩
    have hne : (firingBoundary K cur st i data).self.return_selection_ ≠ K.ALL_RETURNS := by
      rw [h2.1]; exact hsel
    have hlen := pushFiring_length_selected K (firingBoundary K cur st i data).self scale data hne
    have h8 := h2.2.1
    unfold PointCloudHVDIR.size at h8 ⊢
    show (pushFiring K (firingBoundary K cur st i data).self scale data).points.length
      % M_SERIES_NUM_LASERS = 0
    rw [hlen]
    simp only [M_SERIES_NUM_LASERS] at h8 ⊢
    omega

theorem firingsUpTo_shapeInv (K : MSeriesDecls) (pkt : MSeriesDataPacket) (n : Nat) (sel : Int)
    (st : LoopState) (hsel : sel ≠ K.ALL_RETURNS) (h : ShapeInv sel st) :
    ShapeInv sel (firingsUpTo K pkt n st) := by
  unfold firingsUpTo
  apply foldl_invariant (ShapeInv sel)
  · exact h
  · intro b i _ hb
    exact firingStep_shapeInv K _ _ i sel _ b hsel hb

theorem beforeFirings_shapeInv (self : DataPacketParserMSeries) (pkt : MSeriesDataPacket)
    (sel : Int) (h1 : self.return_selection_ = sel)
    (h2 : self.current_cloud_.size % M_SERIES_NUM_LASERS = 0) :
    ShapeInv sel (beforeFirings self pkt) := by
  unfold beforeFirings
  simp only
  refine ⟨?_, ?_, fun c hc => absurd hc (List.not_mem_nil c)⟩
  · split <;> split <;> exact h1
  · split <;> split <;> exact h2

theorem parseCall_shape (K : MSeriesDecls) (sel : Int) (hsel : sel ≠ K.ALL_RETURNS)
    (self : DataPacketParserMSeries) (pkt : MSeriesDataPacket)
    (h : self.return_selection_ = sel ∧ self.current_cloud_.size % M_SERIES_NUM_LASERS = 0) :
    ((parseCall K self pkt).1.return_selection_ = sel ∧
        (parseCall K self pkt).1.current_cloud_.size % M_SERIES_NUM_LASERS = 0) ∧
      ∀ c, c ∈ (parseCall K self pkt).2 →
        c.points.length = c.height * c.width ∧ c.height = M_SERIES_NUM_LASERS := by
  rcases parseCall_cases K self pkt with hc | hc
  · rw [hc]
    exact ⟨h, fun c hcm => absurd hcm (List.not_mem_nil c)⟩
  · rw [hc]
    have hinv : ShapeInv sel (firingLoop K pkt (beforeFirings self pkt)) :=
      firingsUpTo_shapeInv K pkt _ sel _ hsel (beforeFirings_shapeInv self pkt sel h.1 h.2)
    generalize firingLoop K pkt (beforeFirings self pkt) = loop at hinv ⊢
    exact ⟨⟨hinv.1, hinv.2.1⟩, hinv.2.2⟩

/-- C6: for a parser that starts with an empty accumulating cloud and whose
return selection is a single index (not `ALL_RETURNS`), along every stream of
packets each cloud returned by `parse` has `|points| = height * width` with
`height = NUM_LASERS`, and after every firing of every further packet the
accumulating cloud holds a multiple of `NUM_LASERS` points. -/
theorem single_return_clouds_organized (K : MSeriesDecls) (self : DataPacketParserMSeries)
    (pkts : List MSeriesDataPacket) (hsel : self.return_selection_ ≠ K.ALL_RETURNS)
    (hfresh : self.current_cloud_.size = 0) :
    (∀ c, c ∈ returnedClouds K self pkts →
        c.points.length = c.height * c.width ∧ c.height = M_SERIES_NUM_LASERS) ∧
      ∀ (pkt : MSeriesDataPacket) (n : Nat), n ≤ M_SERIES_FIRING_PER_PKT →
        (firingsUpTo K pkt n (beforeFirings (parseStream K self pkts).1 pkt)).self.current_cloud_.size
          % M_SERIES_NUM_LASERS = 0 := by
  have hstream := parseStream_invariant K
    (fun s => s.return_selection_ = self.return_selection_ ∧
      s.current_cloud_.size % M_SERIES_NUM_LASERS = 0)
    (fun c => c.points.length = c.height * c.width ∧ c.height = M_SERIES_NUM_LASERS)
    (fun s pkt hs => parseCall_shape K self.return_selection_ hsel s pkt hs)
    pkts self ⟨rfl, by rw [hfresh]; rfl⟩
  refine ⟨fun c hc => hstream.2 c (returned_mem_completed K self pkts c hc), ?_⟩
  intro pkt n _
  exact (firingsUpTo_shapeInv K pkt n self.return_selection_ _ hsel
    (beforeFirings_shapeInv _ pkt _ hstream.1.1 hstream.1.2)).2.1

/-- The witness for C6: the sample parser (return selection 0) on two packets
that each cross the half turn. -/
theorem single_return_clouds_organized_witness :
    (returnedClouds referenceDecls sampleParser
        [sweepPacket 5199 1 100 1, sweepPacket 5199 1 100 2]).all
      (fun c =>
        decide (c.points.length = c.height * c.width ∧ c.height = M_SERIES_NUM_LASERS)) = true :=
  List.all_eq_true.mpr fun c hc =>
    decide_eq_true
      ((single_return_clouds_organized referenceDecls sampleParser
        [sweepPacket 5199 1 100 1, sweepPacket 5199 1 100 2] (by decide) (by decide)).1 c hc)

end Shape

section AllReturns

theorem pushAllReturns_spec (self : DataPacketParserMSeries) (scale : ℚ)
    (data : MSeriesFiringData) (j : Nat) (cloud : PointCloudHVDIR) :
    (pushAllReturns scale data self.horizontal_angle_lookup_table_[data.position]?
          self.vertical_angle_lookup_table_[j]? j cloud).points =
        cloud.points ++ specAllReturnsPoints self scale data j ∧
      (pushAllReturns scale data self.horizontal_angle_lookup_table_[data.position]?
          self.vertical_angle_lookup_table_[j]? j cloud).is_dense = cloud.is_dense := by
  unfold pushAllReturns specAllReturnsPoints specAllReturns mkPoint
  simp only
  split_ifs <;> simp

theorem foldl_append_points (f : PointCloudHVDIR → Nat → PointCloudHVDIR)
    (g : Nat → List PointHVDIR)
    (hf : ∀ c j, (f c j).points = c.points ++ g j ∧ (f c j).is_dense = c.is_dense)
    (l : List Nat) (c : PointCloudHVDIR) :
    (l.foldl f c).points = c.points ++ l.flatMap g ∧ (l.foldl f c).is_dense = c.is_dense := by
  induction l generalizing c with
  | nil => simp
  | cons j l ih =>
    simp only [List.foldl_cons, List.flatMap_cons]
    rw [(ih (f c j)).1, (ih (f c j)).2, (hf c j).1, (hf c j).2]
    simp

/-- C7: with `ALL_RETURNS` selected, a firing that is not skipped appends, beam
by beam, a point for return 0 iff its distance is not 0, then a point for
return 1 iff its distance is neither 0 nor that of return 0, then a point for
return 2 iff its distance is neither 0 nor that of return 0; every appended
point has the ring of its beam and the intensity of return 0, none has a `NaN`
range, and `is_dense` is left as it was. -/
theorem all_returns_firing (K : MSeriesDecls) (scale : ℚ) (st : LoopState)
    (data : MSeriesFiringData) (hall : st.self.return_selection_ = K.ALL_RETURNS)
    (hrun : st.cloudfull = false) :
    (firingPoints K scale st data).self.current_cloud_.points =
        st.self.current_cloud_.points ++
          (List.range M_SERIES_NUM_LASERS).flatMap (specAllReturnsPoints st.self scale data) ∧
      (firingPoints K scale st data).self.current_cloud_.is_dense =
        st.self.current_cloud_.is_dense ∧
      ∀ j pt, pt ∈ specAllReturnsPoints st.self scale data j →
        pt.ring = j ∧ pt.intensity = data.returns_intensities 0 j ∧ pt.isNaN = false := by
  have hfold := foldl_append_points
    (pushBeam K st.self scale data st.self.horizontal_angle_lookup_table_[data.position]?)
    (specAllReturnsPoints st.self scale data)
    (by
      intro c j
      unfold pushBeam
      simp only [if_pos hall]
      exact pushAllReturns_spec st.self scale data j c)
    (List.range M_SERIES_NUM_LASERS) st.self.current_cloud_
  refine ⟨?_, ?_, ?_⟩
  · unfold firingPoints
    rw [if_neg (by rw [hrun]; exact Bool.false_ne_true)]
    exact hfold.1
  · unfold firingPoints
    rw [if_neg (by rw [hrun]; exact Bool.false_ne_true)]
    exact hfold.2
  · intro j pt hpt
    unfold specAllReturnsPoints at hpt
    rw [List.mem_map] at hpt
    obtain ⟨d, -, rfl⟩ := hpt
    exact ⟨rfl, rfl, rfl⟩

/-- The witness for C7: a firing whose return 1 repeats the distance of return
0 and whose return 2 is missing, on the sample parser set to keep all returns:
one point per beam. -/
theorem all_returns_firing_witness :
    (firingPoints referenceDecls (1 / 100)
        { self := { sampleParser with return_selection_ := -1 }, cloudfull := false,
          emitted := [] }
        { position := 0,
          returns_distances := fun i _ => if i = 2 then 0 else 250,
          returns_intensities := fun _ _ => 9 }).self.current_cloud_.is_dense = true :=
  (all_returns_firing referenceDecls (1 / 100)
    { self := { sampleParser with return_selection_ := -1 }, cloudfull := false, emitted := [] }
    { position := 0,
      returns_distances := fun i _ => if i = 2 then 0 else 250,
      returns_intensities := fun _ _ => 9 }
    rfl rfl).2.1

end AllReturns

section Cap

theorem foldl_range_invariant {β : Type} (P : Nat → β → Prop) (f : β → Nat → β) (n : Nat)
    (b : β) (h0 : P 0 b) (hstep : ∀ i b, i < n → P i b → P (i + 1) (f b i)) :
    P n ((List.range n).foldl f b) := by
  induction n with
  | zero => simpa using h0
  | succ n ih =>
    rw [List.range_succ, List.foldl_append]
    simp only [List.foldl_cons, List.foldl_nil]
    apply hstep n _ (Nat.lt_succ_self n)
    exact ih (fun i b hi hb => hstep i b (Nat.lt_succ_of_lt hi) hb)

theorem firingsUpTo_succ (K : MSeriesDecls) (pkt : MSeriesDataPacket) (n : Nat)
    (st : LoopState) :
    firingsUpTo K pkt (n + 1) st =
      firingStep K (packetStamp pkt) (distanceScaling pkt) (firingsUpTo K pkt n st) n
        (pkt.data n) := by
  unfold firingsUpTo
  rw [List.range_succ, List.foldl_append]
  rfl

theorem foldl_length_le (f : PointCloudHVDIR → Nat → PointCloudHVDIR) (k : Nat)
    (hf : ∀ c j, (f c j).points.length ≤ c.points.length + k) (l : List Nat)
    (c : PointCloudHVDIR) : (l.foldl f c).points.length ≤ c.points.length + l.length * k := by
  induction l generalizing c with
  | nil => simp
  | cons j l ih =>
    simp only [List.foldl_cons, List.length_cons]
    have h1 := ih (f c j)
    have h2 := hf c j
    rw [Nat.succ_mul]
    omega

theorem pushAllReturns_length_le (scale : ℚ) (data : MSeriesFiringData) (h v : Option ℚ)
    (j : Nat) (cloud : PointCloudHVDIR) :
    (pushAllReturns scale data h v j cloud).points.length ≤ cloud.points.length + 3 := by
  unfold pushAllReturns
  simp only
  split_ifs <;> simp

theorem pushBeam_length_le (K : MSeriesDecls) (self : DataPacketParserMSeries) (scale : ℚ)
    (data : MSeriesFiringData) (h : Option ℚ) (cloud : PointCloudHVDIR) (j : Nat) :
    (pushBeam K self scale data h cloud j).points.length ≤ cloud.points.length + 3 := by
  unfold pushBeam
  simp only
  split
  · exact pushAllReturns_length_le _ _ _ _ _ _
  · rw [pushSelectedReturn_length]
    have := selectedCount_le_one self.return_selection_
    omega

/-- A firing appends at most three points for each beam. -/
theorem pushFiring_length_le (K : MSeriesDecls) (self : DataPacketParserMSeries) (scale : ℚ)
    (data : MSeriesFiringData) :
    (pushFiring K self scale data).size ≤ self.current_cloud_.size + M_SERIES_NUM_LASERS * 3 := by
  unfold pushFiring PointCloudHVDIR.size
  simp only
  have := foldl_length_le
    (pushBeam K self scale data self.horizontal_angle_lookup_table_[data.position]?) 3
    (fun c j => pushBeam_length_le K self scale data _ c j)
    (List.range M_SERIES_NUM_LASERS) self.current_cloud_
  simpa using this

/-- The cloud `organizeCloud` hands back is never larger than its input. -/
theorem organizeCloud_size_le (cur t : PointCloudHVDIR) :
    (organizeCloud cur t).1.size ≤ cur.size := by
  show (organizeCloud cur t).1.points.length ≤ cur.size
  rw [organizeCloud_points]
  have hblock : ∀ (l : List Nat),
      (l.flatMap fun i =>
          (List.range (cur.size / M_SERIES_NUM_LASERS)).filterMap fun j =>
            cur.points[j * M_SERIES_NUM_LASERS + i]?).length ≤
        l.length * (cur.size / M_SERIES_NUM_LASERS) := by
    intro l
    induction l with
    | nil => simp
    | cons i l ih =>
      rw [List.flatMap_cons, List.length_append, List.length_cons, Nat.succ_mul]
      have := List.length_filterMap_le
        (fun j => cur.points[j * M_SERIES_NUM_LASERS + i]?)
        (List.range (cur.size / M_SERIES_NUM_LASERS))
      rw [List.length_range] at this
      omega
  have h := hblock (List.range M_SERIES_NUM_LASERS).reverse
  rw [List.length_reverse, List.length_range] at h
  exact le_trans h (Nat.mul_div_le _ _)

theorem emitCloud_size_le (K : MSeriesDecls) (cur i : Nat) (st : LoopState) :
    ∃ c, (emitCloud K cur i st).emitted = st.emitted ++ [c] ∧
      c.size ≤ st.self.current_cloud_.size := by
  unfold emitCloud
  simp only
  refine ⟨_, rfl, ?_⟩
  split
  · exact organizeCloud_size_le _ _
  · exact le_refl _

theorem capInv_bound (maxv : Int) (n : Nat) (st : LoopState)
    (hn : n ≤ M_SERIES_FIRING_PER_PKT) (h : CapInv maxv n st) :
    st.self.current_cloud_.size ≤ asSizeT maxv + maxPointsPerPacket := by
  obtain ⟨-, h1, h2, -⟩ := h
  cases hf : st.cloudfull with
  | true => exact h1 hf
  | false =>
    have := h2 hf
    simp only [maxPointsPerPacket, M_SERIES_FIRING_PER_PKT, M_SERIES_NUM_LASERS] at hn this ⊢
    omega

theorem atBoundary_capInv (K : MSeriesDecls) (cur i : Nat) (az : ℚ) (maxv : Int) (n : Nat)
    (st : LoopState) (hn : n ≤ M_SERIES_FIRING_PER_PKT) (h : CapInv maxv n st) :
    CapInv maxv n (atBoundary K cur i az st) := by
  have hb := capInv_bound maxv n st hn h
  unfold atBoundary
  simp only
  refine ⟨?_, ?_, ?_, ?_⟩
  · split
    · exact h.1
    · exact h.1
  · intro hf
    exact absurd hf Bool.false_ne_true
  · intro _
    exact Nat.zero_le _
  · intro c hc
    split at hc
    · obtain ⟨c0, hem, hle⟩ := emitCloud_size_le K cur i
        { st with self := { st.self with start_azimuth_ := az } }
      rw [hem, List.mem_append, List.mem_singleton] at hc
      rcases hc with hc | hc
      · exact h.2.2.2 c hc
      · subst hc
        exact le_trans hle hb
    · exact h.2.2.2 c hc

theorem firingStep_capInv (K : MSeriesDecls) (cur : Nat) (scale : ℚ) (i : Nat) (maxv : Int)
    (data : MSeriesFiringData) (st : LoopState) (hi : i < M_SERIES_FIRING_PER_PKT)
    (h : CapInv maxv i st) : CapInv maxv (i + 1) (firingStep K cur scale st i data) := by
  have h1 : CapInv maxv i { st with self := latchStart st.self (azimuthAngle data.position) } := by
    unfold latchStart
    split <;> exact h
  have h2 : CapInv maxv i (firingBoundary K cur st i data) := by
    unfold firingBoundary
    simp only
    split
    · exact atBoundary_capInv K cur i _ maxv i _ (Nat.le_of_lt hi) h1
    · exact h1
  obtain ⟨e1, e2, e3, e4⟩ := h2
  unfold firingStep firingPoints
  split
  · rename_i hfull
    refine ⟨e1, e2, ?_, e4⟩
    intro hf
    rw [hfull] at hf
    exact absurd hf (by decide)
  · rename_i hfull
    have hfalse : (firingBoundary K cur st i data).cloudfull = false := by
      cases hc : (firingBoundary K cur st i data).cloudfull with
      | true => exact absurd hc hfull
      | false => rfl
    refine ⟨e1, ?_, ?_, e4⟩
    · intro hf
      exact absurd (hfalse.symm.trans hf) (by decide)
    · intro _
      have hgrow := pushFiring_length_le K (firingBoundary K cur st i data).self scale data
      have hold := e3 hfalse
      show (pushFiring K (firingBoundary K cur st i data).self scale data).size ≤ _
      rw [Nat.succ_mul]
      omega

theorem firingsUpTo_capInv (K : MSeriesDecls) (pkt : MSeriesDataPacket) (maxv : Int) (n : Nat)
    (st : LoopState) (hn : n ≤ M_SERIES_FIRING_PER_PKT) (h : CapInv maxv 0 st) :
    CapInv maxv n (firingsUpTo K pkt n st) := by
  unfold firingsUpTo
  apply foldl_range_invariant (CapInv maxv)
  · exact h
  · intro i b hi hb
    exact firingStep_capInv K _ _ i maxv _ b (lt_of_lt_of_le hi hn) hb

theorem beforeFirings_capInv (self : DataPacketParserMSeries) (pkt : MSeriesDataPacket)
    (maxv : Int) (h1 : self.maximum_cloud_size_ = maxv)
    (h2 : self.current_cloud_.size ≤ asSizeT maxv + maxPointsPerPacket) :
    CapInv maxv 0 (beforeFirings self pkt) := by
  have hm : (beforeFirings self pkt).self.maximum_cloud_size_ = maxv := by
    unfold beforeFirings
    simp only
    split <;> split <;> exact h1
  have hc : (beforeFirings self pkt).self.current_cloud_ = self.current_cloud_ := by
    unfold beforeFirings
    simp only
    split <;> split <;> rfl
  have hfull : (beforeFirings self pkt).cloudfull =
      decide ((beforeFirings self pkt).self.current_cloud_.size ≥
        asSizeT (beforeFirings self pkt).self.maximum_cloud_size_) := rfl
  refine ⟨hm, ?_, ?_, fun c hcm => absurd hcm (List.not_mem_nil c)⟩
  · intro _
    rw [hc]
    exact h2
  · intro hf
    rw [hfull, hm, hc] at hf
    have : ¬ self.current_cloud_.size ≥ asSizeT maxv := by
      intro hge
      rw [decide_eq_true hge] at hf
      exact absurd hf (by decide)
    rw [hc]
    omega

theorem parseCall_cap (K : MSeriesDecls) (maxv : Int) (self : DataPacketParserMSeries)
    (pkt : MSeriesDataPacket)
    (h : self.maximum_cloud_size_ = maxv ∧
      self.current_cloud_.size ≤ asSizeT maxv + maxPointsPerPacket) :
    ((parseCall K self pkt).1.maximum_cloud_size_ = maxv ∧
        (parseCall K self pkt).1.current_cloud_.size ≤ asSizeT maxv + maxPointsPerPacket) ∧
      ∀ c, c ∈ (parseCall K self pkt).2 → c.size ≤ asSizeT maxv + maxPointsPerPacket := by
  rcases parseCall_cases K self pkt with hc | hc
  · rw [hc]
    exact ⟨h, fun c hcm => absurd hcm (List.not_mem_nil c)⟩
  · rw [hc]
    have hinv : CapInv maxv M_SERIES_FIRING_PER_PKT (firingLoop K pkt (beforeFirings self pkt)) :=
      firingsUpTo_capInv K pkt maxv _ _ (le_refl _) (beforeFirings_capInv self pkt maxv h.1 h.2)
    have hb := capInv_bound maxv _ _ (le_refl _) hinv
    generalize firingLoop K pkt (beforeFirings self pkt) = loop at hinv hb ⊢
    exact ⟨⟨hinv.1, hb⟩, hinv.2.2.2⟩

theorem firingStep_full_no_boundary (K : MSeriesDecls) (cur : Nat) (scale : ℚ) (i : Nat)
    (data : MSeriesFiringData) (st : LoopState) (hfull : st.cloudfull = true)
    (hnb : ¬ rotationBoundary st.self (azimuthAngle data.position)) :
    (firingStep K cur scale st i data).cloudfull = true ∧
      (firingStep K cur scale st i data).self.current_cloud_ = st.self.current_cloud_ := by
  have hb : firingBoundary K cur st i data =
      { st with self := latchStart st.self (azimuthAngle data.position) } := by
    unfold firingBoundary
    simp only [if_neg hnb]
  have hl : (latchStart st.self (azimuthAngle data.position)).current_cloud_ =
      st.self.current_cloud_ := by
    unfold latchStart
    split <;> rfl
  unfold firingStep firingPoints
  rw [hb]
  simp only [hfull, if_true]
  exact ⟨trivial, hl⟩

/-- A call that starts with the accumulating cloud marked full leaves it
untouched as long as no firing detects a rotation boundary. -/
theorem full_cloud_kept_until_boundary (K : MSeriesDecls) (pkt : MSeriesDataPacket)
    (st : LoopState) (hfull : st.cloudfull = true) (n : Nat)
    (hnb : ∀ i, i < n →
      ¬ rotationBoundary (firingsUpTo K pkt i st).self (azimuthAngle (pkt.data i).position)) :
    (firingsUpTo K pkt n st).cloudfull = true ∧
      (firingsUpTo K pkt n st).self.current_cloud_ = st.self.current_cloud_ := by
  induction n with
  | zero => exact ⟨hfull, rfl⟩
  | succ n ih =>
    have ih1 := ih (fun i hi => hnb i (Nat.lt_succ_of_lt hi))
    rw [firingsUpTo_succ]
    have := firingStep_full_no_boundary K (packetStamp pkt) (distanceScaling pkt) n
      (pkt.data n) (firingsUpTo K pkt n st) ih1.1 (hnb n (Nat.lt_succ_self n))
    exact ⟨this.1, this.2.trans ih1.2⟩

/-- C8 (amended): the size limit is tested once, when a call starts.  Along
every stream from a parser whose accumulating cloud is within the overshoot
bound (an empty cloud is), no cloud returned by `parse` has more than
`maximum_cloud_size + FIRINGS_PER_PKT * NUM_LASERS * 3` points; and when a call
starts with the accumulating cloud at or above `maximum_cloud_size`, its
firings append no points as long as no rotation boundary is detected. -/
theorem returned_clouds_within_overshoot (K : MSeriesDecls) (self : DataPacketParserMSeries)
    (pkts : List MSeriesDataPacket)
    (hstart : self.current_cloud_.size ≤ asSizeT self.maximum_cloud_size_ + maxPointsPerPacket) :
    (∀ c, c ∈ returnedClouds K self pkts →
        c.size ≤ asSizeT self.maximum_cloud_size_ + maxPointsPerPacket) ∧
      ∀ (s : DataPacketParserMSeries) (pkt : MSeriesDataPacket) (n : Nat),
        asSizeT s.maximum_cloud_size_ ≤ s.current_cloud_.size →
        (∀ i, i < n →
          ¬ rotationBoundary (firingsUpTo K pkt i (beforeFirings s pkt)).self
            (azimuthAngle (pkt.data i).position)) →
        (firingsUpTo K pkt n (beforeFirings s pkt)).self.current_cloud_ = s.current_cloud_ := by
  have hstream := parseStream_invariant K
    (fun s => s.maximum_cloud_size_ = self.maximum_cloud_size_ ∧
      s.current_cloud_.size ≤ asSizeT self.maximum_cloud_size_ + maxPointsPerPacket)
    (fun c => c.size ≤ asSizeT self.maximum_cloud_size_ + maxPointsPerPacket)
    (fun s pkt hs => parseCall_cap K self.maximum_cloud_size_ s pkt hs)
    pkts self ⟨rfl, hstart⟩
  refine ⟨fun c hc => hstream.2 c (returned_mem_completed K self pkts c hc), ?_⟩
  intro s pkt n hge hnb
  have hm : (beforeFirings s pkt).self.maximum_cloud_size_ = s.maximum_cloud_size_ := by
    unfold beforeFirings
    simp only
    split <;> split <;> rfl
  have hc : (beforeFirings s pkt).self.current_cloud_ = s.current_cloud_ := by
    unfold beforeFirings
    simp only
    split <;> split <;> rfl
  have hfull : (beforeFirings s pkt).cloudfull = true := by
    have : (beforeFirings s pkt).cloudfull =
        decide ((beforeFirings s pkt).self.current_cloud_.size ≥
          asSizeT (beforeFirings s pkt).self.maximum_cloud_size_) := rfl
    rw [this, hm, hc]
    exact decide_eq_true hge
  exact ((full_cloud_kept_until_boundary K pkt _ hfull n hnb).2).trans hc

/-- The witness for C8: the parser limited to 10 points, on a packet that
crosses the half turn at its sixth firing. -/
theorem returned_clouds_within_overshoot_witness :
    (returnedClouds referenceDecls cappedParser [sweepPacket 5195 1 100 1]).all
      (fun c => decide (c.size ≤ asSizeT cappedParser.maximum_cloud_size_ + maxPointsPerPacket))
      = true :=
  List.all_eq_true.mpr fun c hc =>
    decide_eq_true
      ((returned_clouds_within_overshoot referenceDecls cappedParser [sweepPacket 5195 1 100 1]
        (by decide)).1 c hc)

/-- C8 (counterexample): with `maximum_cloud_size` 10, one packet whose firings
are at positions 5195 .. 5244 makes `parse` return a cloud of 40 points: the
limit is not tested again after the call has started. -/
theorem returned_cloud_exceeds_maximum :
    ¬ ∀ c, c ∈ returnedClouds referenceDecls cappedParser [sweepPacket 5195 1 100 1] →
      (c.size : Int) ≤ cappedParser.maximum_cloud_size_ := by
  intro h
  have h1 : ((returnedClouds referenceDecls cappedParser [sweepPacket 5195 1 100 1]).map
      fun c => c.size) = [40] := by decide!
  have h2 : ∀ n : Nat, n ∈ ((returnedClouds referenceDecls cappedParser
      [sweepPacket 5195 1 100 1]).map fun c => c.size) → n ≤ 10 := by
    intro n hn
    obtain ⟨c, hc, rfl⟩ := List.mem_map.mp hn
    have hle := h c hc
    have e : cappedParser.maximum_cloud_size_ = 10 := rfl
    rw [e] at hle
    omega
  rw [h1] at h2
  have := h2 40 (List.mem_singleton.mpr rfl)
  omega

end Cap

section Boundary

theorem latchStart_current_cloud (self : DataPacketParserMSeries) (az : ℚ) :
    (latchStart self az).current_cloud_ = self.current_cloud_ ∧
      (latchStart self az).minimum_cloud_size_ = self.minimum_cloud_size_ := by
  unfold latchStart
  split <;> exact ⟨rfl, rfl⟩

theorem atBoundary_spec (K : MSeriesDecls) (cur i : Nat) (az : ℚ) (st : LoopState) :
    (asSizeT st.self.minimum_cloud_size_ < st.self.current_cloud_.size →
        ∃ c, (atBoundary K cur i az st).emitted = st.emitted ++ [c]) ∧
      (st.self.current_cloud_.size ≤ asSizeT st.self.minimum_cloud_size_ →
        (atBoundary K cur i az st).emitted = st.emitted) ∧
      (atBoundary K cur i az st).self.current_cloud_ = PointCloudHVDIR.new ∧
      (atBoundary K cur i az st).cloudfull = false := by
  unfold atBoundary
  refine ⟨?_, ?_, rfl, rfl⟩
  · intro hgt
    dsimp only
    rw [if_pos hgt]
    obtain ⟨c, hc, -⟩ := emitCloud_emitted K cur i
      { st with self := { st.self with start_azimuth_ := az } }
    exact ⟨c, hc⟩
  · intro hle
    dsimp only
    rw [if_neg (by omega)]

/-- C9 (amended): at every rotation boundary `parse` detects, the accumulating
cloud is emitted if and only if its size is strictly greater than
`minimum_cloud_size` (as the unsigned comparison reads it); a cloud of at most
`minimum_cloud_size` points is discarded without being emitted; and in both
cases a fresh empty cloud with `is_dense = true` replaces it and the cloud is
no longer marked full. -/
theorem boundary_emits_iff_above_minimum (K : MSeriesDecls) (cur : Nat) (st : LoopState)
    (i : Nat) (data : MSeriesFiringData)
    (hb : rotationBoundary st.self (azimuthAngle data.position)) :
    (asSizeT st.self.minimum_cloud_size_ < st.self.current_cloud_.size →
        ∃ c, (firingBoundary K cur st i data).emitted = st.emitted ++ [c]) ∧
      (st.self.current_cloud_.size ≤ asSizeT st.self.minimum_cloud_size_ →
        (firingBoundary K cur st i data).emitted = st.emitted) ∧
      (firingBoundary K cur st i data).self.current_cloud_ = PointCloudHVDIR.new ∧
      (firingBoundary K cur st i data).self.current_cloud_.points = [] ∧
      (firingBoundary K cur st i data).self.current_cloud_.is_dense = true ∧
      (firingBoundary K cur st i data).cloudfull = false := by
  have hl := latchStart_current_cloud st.self (azimuthAngle data.position)
  have hspec := atBoundary_spec K cur i (azimuthAngle data.position)
    { st with self := latchStart st.self (azimuthAngle data.position) }
  have hfb : firingBoundary K cur st i data =
      atBoundary K cur i (azimuthAngle data.position)
        { st with self := latchStart st.self (azimuthAngle data.position) } := by
    unfold firingBoundary
    simp only [if_pos hb]
  rw [hfb]
  obtain ⟨s1, s2, s3, s4⟩ := hspec
  refine ⟨?_, ?_, s3, ?_, ?_, s4⟩
  · intro hgt
    apply s1
    show asSizeT (latchStart st.self (azimuthAngle data.position)).minimum_cloud_size_ <
      (latchStart st.self (azimuthAngle data.position)).current_cloud_.size
    rw [hl.1, hl.2]
    exact hgt
  · intro hle
    apply s2
    show (latchStart st.self (azimuthAngle data.position)).current_cloud_.size ≤
      asSizeT (latchStart st.self (azimuthAngle data.position)).minimum_cloud_size_
    rw [hl.1, hl.2]
    exact hle
  · rw [s3]; rfl
  · rw [s3]; rfl

/-- The witness for C9: the second firing of the sample packet detects a
boundary with eight points accumulated and a minimum of eight: nothing is
emitted. -/
theorem boundary_emits_iff_above_minimum_witness :
    (firingBoundary referenceDecls 1000000 minimumBoundaryState 1
        ((sweepPacket 5199 1 100 1).data 1)).self.current_cloud_ = PointCloudHVDIR.new :=
  (boundary_emits_iff_above_minimum referenceDecls 1000000 minimumBoundaryState 1
    ((sweepPacket 5199 1 100 1).data 1) (by decide!)).2.2.1

/-- C9 (counterexample): a boundary is detected while the accumulating cloud
holds exactly `minimum_cloud_size` = 8 points, and no cloud is emitted. -/
theorem boundary_at_minimum_size_not_emitted :
    ¬ (rotationBoundary minimumBoundaryState.self
          (azimuthAngle ((sweepPacket 5199 1 100 1).data 1).position) →
        (minimumBoundaryState.self.minimum_cloud_size_ ≤
            (minimumBoundaryState.self.current_cloud_.size : Int) ↔
          (firingBoundary referenceDecls 1000000 minimumBoundaryState 1
              ((sweepPacket 5199 1 100 1).data 1)).emitted.length =
            minimumBoundaryState.emitted.length + 1)) := by
  decide!

/-- The azimuth is at least −180 and below 180 degrees. -/
theorem azimuthAngle_range (position : Nat) :
    -180 ≤ azimuthAngle position ∧ azimuthAngle position < 180 := by
  unfold azimuthAngle
  have hlt : (position + M_SERIES_NUM_ROT_ANGLES / 2) % M_SERIES_NUM_ROT_ANGLES
      < M_SERIES_NUM_ROT_ANGLES := Nat.mod_lt _ (by decide)
  generalize (position + M_SERIES_NUM_ROT_ANGLES / 2) % M_SERIES_NUM_ROT_ANGLES = m at hlt ⊢
  have hN : (M_SERIES_NUM_ROT_ANGLES : ℚ) = 10400 := by norm_num [M_SERIES_NUM_ROT_ANGLES]
  have hq : (m : ℚ) < 10400 := by
    rw [← hN]
    exact_mod_cast hlt
  have h0 : (0 : ℚ) ≤ (m : ℚ) := Nat.cast_nonneg _
  rw [hN]
  constructor
  · have : 0 ≤ (m : ℚ) / 10400 * 360 :=
      mul_nonneg (div_nonneg h0 (by norm_num)) (by norm_num)
    linarith
  · have : (m : ℚ) / 10400 * 360 < 360 := by
      rw [div_mul_eq_mul_div, div_lt_iff₀ (by norm_num : (0 : ℚ) < 10400)]
      linarith
    linarith

theorem wrapDeltaFuel_nonneg (fuel : Nat) :
    ∀ x : ℚ, -x ≤ 360 * (fuel : ℚ) → 0 ≤ wrapDeltaFuel fuel x := by
  induction fuel with
  | zero =>
    intro x hx
    simp only [wrapDeltaFuel]
    simp only [Nat.cast_zero, mul_zero] at hx
    linarith
  | succ n ih =>
    intro x hx
    simp only [wrapDeltaFuel]
    split
    · apply ih
      push_cast at hx
      linarith
    · linarith

/-- The fuel of `wrapDelta` is enough: the loop ends with its condition
`delta_angle < 0.0` false. -/
theorem wrapDelta_exits (x : ℚ) : ¬ wrapDelta x < 0 := by
  have h : 0 ≤ wrapDelta x := by
    unfold wrapDelta
    apply wrapDeltaFuel_nonneg
    have h1 : -x / 360 ≤ ((⌈-x / 360⌉ : Int) : ℚ) := Int.le_ceil _
    have h2 : ((⌈-x / 360⌉ : Int) : ℚ) ≤ (((⌈-x / 360⌉).toNat : Nat) : ℚ) := by
      have : ⌈-x / 360⌉ ≤ ((⌈-x / 360⌉).toNat : Int) := Int.self_le_toNat _
      exact_mod_cast this
    have h3 : -x / 360 ≤ (((⌈-x / 360⌉).toNat : Nat) : ℚ) := le_trans h1 h2
    rw [div_le_iff₀ (by norm_num : (0 : ℚ) < 360)] at h3
    linarith
  linarith

theorem wrapDelta_lt (x : ℚ) (h1 : -360 < x) (h2 : x ≤ 0) : wrapDelta x < 360 := by
  unfold wrapDelta
  by_cases hneg : x < 0
  · have hceil : ⌈-x / 360⌉ = 1 := by
      rw [Int.ceil_eq_iff]
      constructor
      · have : 0 < -x / 360 := div_pos (by linarith) (by norm_num)
        simpa using this
      · rw [div_le_iff₀ (by norm_num : (0 : ℚ) < 360)]
        push_cast
        linarith
    rw [hceil]
    simp only [Int.toNat_one, wrapDeltaFuel, if_pos hneg]
    linarith
  · have hx : x = 0 := le_antisymm h2 (not_lt.mp hneg)
    subst hx
    simp [wrapDeltaFuel]

/-- C10 (amended): with `degrees_per_cloud = 360` and direction +1, whenever a
firing at position `N_ROT/2` immediately follows a firing at position
`N_ROT/2 − 1` that was not skipped (so that `last_azimuth_` is its azimuth),
`parse` detects a rotation boundary at the position `N_ROT/2` firing, through
the `last_azimuth_` comparison, while the delta comparison is false (the start
azimuth being an azimuth, between −180 and 180 degrees). -/
theorem wrap_boundary_at_half_turn (self : DataPacketParserMSeries)
    (hdeg : self.degrees_per_cloud_ = 360) (hdir : self.direction_ = 1)
    (hlast : self.last_azimuth_ = azimuthAngle (M_SERIES_NUM_ROT_ANGLES / 2 - 1))
    (hstart : -180 ≤ self.start_azimuth_ ∧ self.start_azimuth_ < 180) :
    rotationBoundary self (azimuthAngle (M_SERIES_NUM_ROT_ANGLES / 2)) ∧
      boundaryByLastAzimuth self (azimuthAngle (M_SERIES_NUM_ROT_ANGLES / 2)) ∧
      ¬ boundaryByDelta self (azimuthAngle (M_SERIES_NUM_ROT_ANGLES / 2)) := by
  have haz : azimuthAngle (M_SERIES_NUM_ROT_ANGLES / 2) = -180 := by decide!
  have hprev : azimuthAngle (M_SERIES_NUM_ROT_ANGLES / 2 - 1) = 46791 / 260 := by decide!
  have hlastaz : boundaryByLastAzimuth self (azimuthAngle (M_SERIES_NUM_ROT_ANGLES / 2)) := by
    unfold boundaryByLastAzimuth
    rw [hlast, haz, hprev, hdir]
    refine ⟨hdeg, ?_⟩
    norm_num
  have hdelta : ¬ boundaryByDelta self (azimuthAngle (M_SERIES_NUM_ROT_ANGLES / 2)) := by
    unfold boundaryByDelta deltaAngle
    rw [hdeg, haz, hdir]
    split
    · norm_num
    · have := wrapDelta_lt (((1 : Int) : ℚ) * (-180 - self.start_azimuth_))
        (by push_cast; linarith [hstart.2]) (by push_cast; linarith [hstart.1])
      linarith
  exact ⟨Or.inr hlastaz, hlastaz, hdelta⟩

/-- The witness for C10: a parser that has just taken the firing at position
5199. -/
theorem wrap_boundary_at_half_turn_witness :
    rotationBoundary
      { sampleParser with last_azimuth_ := azimuthAngle (M_SERIES_NUM_ROT_ANGLES / 2 - 1) }
      (azimuthAngle (M_SERIES_NUM_ROT_ANGLES / 2)) :=
  (wrap_boundary_at_half_turn
    { sampleParser with last_azimuth_ := azimuthAngle (M_SERIES_NUM_ROT_ANGLES / 2 - 1) }
    rfl rfl rfl (by decide!)).1

/-- C10 (counterexample): after the firings at positions 10375 .. 10399, with
`degrees_per_cloud = 360` and direction +1, the firing at position 0 detects no
rotation boundary: its azimuth 0 is not below the last azimuth −9/260. -/
theorem wrap_at_position_zero_no_boundary :
    ¬ (wrapState.self.degrees_per_cloud_ = 360 → wrapState.self.direction_ = 1 →
        wrapState.cloudfull = false →
        wrapState.self.last_azimuth_ = azimuthAngle (M_SERIES_NUM_ROT_ANGLES - 1) →
        rotationBoundary wrapState.self (azimuthAngle 0) ∧
          boundaryByLastAzimuth wrapState.self (azimuthAngle 0) ∧
          ¬ boundaryByDelta wrapState.self (azimuthAngle 0)) := by
  decide!

theorem firingStep_startInRange (K : MSeriesDecls) (cur : Nat) (scale : ℚ) (i : Nat)
    (data : MSeriesFiringData) (st : LoopState) (h : StartInRange st.self) :
    StartInRange (firingStep K cur scale st i data).self := by
  have haz := azimuthAngle_range data.position
  have h1 : StartInRange (latchStart st.self (azimuthAngle data.position)) := by
    unfold latchStart
    split
    · exact haz
    · exact h
  have h2 : StartInRange (firingBoundary K cur st i data).self := by
    unfold firingBoundary
    simp only
    split
    · unfold atBoundary
      dsimp only
      split
      · exact haz
      · exact haz
    · exact h1
  unfold firingStep firingPoints
  split
  · exact h2
  · exact h2

/-- Along every stream the start azimuth stays an azimuth, so the start
azimuth of every parser reached from the constructor is in range. -/
theorem parseStream_startInRange (K : MSeriesDecls) (pkts : List MSeriesDataPacket)
    (self : DataPacketParserMSeries) (h : StartInRange self) :
    StartInRange (parseStream K self pkts).1 := by
  refine (parseStream_invariant K StartInRange (fun _ => True) ?_ pkts self h).1
  intro s pkt hs
  refine ⟨?_, fun _ _ => trivial⟩
  rcases parseCall_cases K s pkt with hc | hc
  · rw [hc]
    exact hs
  · rw [hc]
    have hb : StartInRange (beforeFirings s pkt).self := by
      unfold beforeFirings
      simp only
      split <;> split <;> exact hs
    have hloop : StartInRange (firingLoop K pkt (beforeFirings s pkt)).self := by
      unfold firingLoop firingsUpTo
      apply foldl_invariant (fun st : LoopState => StartInRange st.self)
      · exact hb
      · intro b i _ hbi
        exact firingStep_startInRange K _ _ i _ b hbi
    generalize firingLoop K pkt (beforeFirings s pkt) = loop at hloop ⊢
    exact hloop

end Boundary

section Samples

/-- The sample parsers are what the setters make of a constructed parser. -/
theorem sampleParser_by_setters :
    (DataPacketParserMSeries.ctor referenceDecls).setVerticalAngles M8_VERTICAL_ANGLES =
        .ok sampleParser ∧
      sampleParser.setDegreesOfSweepPerCloud 1 = .ok slicingParser ∧
      sampleParser.setCloudSizeLimits referenceDecls 1 10 = .ok cappedParser ∧
      sampleParser.setCloudSizeLimits referenceDecls 8 1000000 = .ok minimumParser := by
  refine ⟨?_, ?_, ?_, ?_⟩
  · unfold DataPacketParserMSeries.setVerticalAngles
    rw [if_neg (by decide)]
    rfl
  · unfold DataPacketParserMSeries.setDegreesOfSweepPerCloud
    rw [if_neg (by norm_num)]
    rfl
  · simp [DataPacketParserMSeries.setCloudSizeLimits, referenceDecls, cappedParser, sampleParser,
      DataPacketParserMSeries.ctor]
  · simp [DataPacketParserMSeries.setCloudSizeLimits, referenceDecls, minimumParser, sampleParser,
      DataPacketParserMSeries.ctor]

end Samples

section Direction

theorem emitCloud_direction (K : MSeriesDecls) (cur i : Nat) (st : LoopState) :
    (emitCloud K cur i st).self.direction_ = st.self.direction_ := rfl

theorem firingStep_direction (K : MSeriesDecls) (cur : Nat) (scale : ℚ) (i : Nat)
    (data : MSeriesFiringData) (st : LoopState) :
    (firingStep K cur scale st i data).self.direction_ = st.self.direction_ := by
  have h1 : (latchStart st.self (azimuthAngle data.position)).direction_ = st.self.direction_ := by
    unfold latchStart
    split <;> rfl
  have h2 : (firingBoundary K cur st i data).self.direction_ = st.self.direction_ := by
    unfold firingBoundary
    simp only
    split
    · unfold atBoundary
      dsimp only
      split
      · rw [emitCloud_direction]
        exact h1
      · exact h1
    · exact h1
  unfold firingStep firingPoints
  split
  · exact h2
  · exact h2

theorem firingsUpTo_direction (K : MSeriesDecls) (pkt : MSeriesDataPacket) (n : Nat)
    (st : LoopState) : (firingsUpTo K pkt n st).self.direction_ = st.self.direction_ := by
  unfold firingsUpTo
  apply foldl_invariant (fun b : LoopState => b.self.direction_ = st.self.direction_)
  · rfl
  · intro b i _ hb
    rw [firingStep_direction]
    exact hb

theorem beforeFirings_direction (self : DataPacketParserMSeries) (pkt : MSeriesDataPacket) :
    (beforeFirings self pkt).self.direction_ = detectDirection self.direction_ pkt := by
  unfold beforeFirings
  simp only
  split <;> split <;> rfl

/-- What a call that returns normally leaves behind, in terms of the firing
loop. -/
theorem parse_ok_eq (K : MSeriesDecls) (self : DataPacketParserMSeries)
    (pkt : MSeriesDataPacket) (o : ParseOutcome) (h : parse K self pkt = .ok o) :
    o.self =
        { (firingLoop K pkt (beforeFirings self pkt)).self with
          previous_packet_stamp_ := packetStamp pkt } ∧
      o.emitted = (firingLoop K pkt (beforeFirings self pkt)).emitted := by
  unfold parse at h
  generalize firingLoop K pkt (beforeFirings self pkt) = loop at h ⊢
  split at h
  · exact Except.noConfusion h
  · split at h
    · exact Except.noConfusion h
    · injection h with h
      subst h
      exact ⟨rfl, rfl⟩

/-- C11: with `p0`, `pm`, `pl` the positions of firings 0, `FIRINGS_PER_PKT/2`
and `FIRINGS_PER_PKT − 1` of a packet, the direction the parser holds before
each firing of the packet, and after a call that returns normally, is +1 if
`p0 < pm` and `pm < pl`, −1 if `p0 > pm` and `pm > pl`, and in every other case
the direction held before the call. -/
theorem direction_three_point_test (K : MSeriesDecls) (self : DataPacketParserMSeries)
    (pkt : MSeriesDataPacket) (n : Nat) :
    (((pkt.data 0).position < (pkt.data (M_SERIES_FIRING_PER_PKT / 2)).position ∧
          (pkt.data (M_SERIES_FIRING_PER_PKT / 2)).position <
            (pkt.data (M_SERIES_FIRING_PER_PKT - 1)).position) →
        (firingsUpTo K pkt n (beforeFirings self pkt)).self.direction_ = 1) ∧
      (((pkt.data 0).position > (pkt.data (M_SERIES_FIRING_PER_PKT / 2)).position ∧
          (pkt.data (M_SERIES_FIRING_PER_PKT / 2)).position >
            (pkt.data (M_SERIES_FIRING_PER_PKT - 1)).position) →
        (firingsUpTo K pkt n (beforeFirings self pkt)).self.direction_ = -1) ∧
      (¬ ((pkt.data 0).position < (pkt.data (M_SERIES_FIRING_PER_PKT / 2)).position ∧
          (pkt.data (M_SERIES_FIRING_PER_PKT / 2)).position <
            (pkt.data (M_SERIES_FIRING_PER_PKT - 1)).position) →
        ¬ ((pkt.data 0).position > (pkt.data (M_SERIES_FIRING_PER_PKT / 2)).position ∧
          (pkt.data (M_SERIES_FIRING_PER_PKT / 2)).position >
            (pkt.data (M_SERIES_FIRING_PER_PKT - 1)).position) →
        (firingsUpTo K pkt n (beforeFirings self pkt)).self.direction_ = self.direction_) ∧
      ∀ o, parse K self pkt = .ok o →
        o.self.direction_ = (firingsUpTo K pkt n (beforeFirings self pkt)).self.direction_ := by
  have hd : ∀ m, (firingsUpTo K pkt m (beforeFirings self pkt)).self.direction_ =
      detectDirection self.direction_ pkt := by
    intro m
    rw [firingsUpTo_direction, beforeFirings_direction]
  refine ⟨?_, ?_, ?_, ?_⟩
  · intro h
    rw [hd]
    unfold detectDirection
    simp only
    rw [if_pos (by omega)]
  · intro h
    rw [hd]
    unfold detectDirection
    simp only
    rw [if_neg (by omega), if_pos (by omega)]
  · intro h1 h2
    rw [hd]
    unfold detectDirection
    simp only
    rw [if_neg (by omega), if_neg (by omega)]
  · intro o ho
    have h1 := (parse_ok_eq K self pkt o ho).1
    have hloop : (firingLoop K pkt (beforeFirings self pkt)).self.direction_ =
        detectDirection self.direction_ pkt := by
      unfold firingLoop
      exact hd _
    generalize firingLoop K pkt (beforeFirings self pkt) = loop at h1 hloop
    rw [hd, h1]
    exact hloop

end Direction

section PacketStamp

theorem packetStamp_eq (pkt : MSeriesDataPacket) (hs : pkt.seconds < 2 ^ 32)
    (hn : pkt.nanoseconds < 2 ^ 32) :
    packetStamp pkt =
      if pkt.version ≤ 3 ∧ pkt.version ≠ 0 then pkt.seconds * 1000000 + pkt.nanoseconds / 100
      else pkt.seconds * 1000000 + pkt.nanoseconds / 1000 := by
  have h1 : pkt.seconds * 1000000 + pkt.nanoseconds / 100 < 2 ^ 58 := by omega
  have h2 : pkt.seconds * 1000000 + pkt.nanoseconds / 1000 < 2 ^ 58 := by omega
  unfold packetStamp
  split
  · exact Nat.mod_eq_of_lt (by omega)
  · exact Nat.mod_eq_of_lt (by omega)

/-- C12: for a packet with 32 bit seconds and nanoseconds, the packet stamp
`parse` computes is `seconds * 10^6 + floor(nanoseconds / 100)` when the version
is 1, 2 or 3 and `seconds * 10^6 + floor(nanoseconds / 1000)` for every other
version (0 included), the 64 bit sum does not overflow, and a call that returns
normally stores this value as the previous packet stamp. -/
theorem packet_stamp_value (K : MSeriesDecls) (self : DataPacketParserMSeries)
    (pkt : MSeriesDataPacket) (hs : pkt.seconds < 2 ^ 32) (hn : pkt.nanoseconds < 2 ^ 32) :
    ((pkt.version = 1 ∨ pkt.version = 2 ∨ pkt.version = 3) →
        packetStamp pkt = pkt.seconds * 10 ^ 6 + pkt.nanoseconds / 100) ∧
      (¬ (pkt.version = 1 ∨ pkt.version = 2 ∨ pkt.version = 3) →
        packetStamp pkt = pkt.seconds * 10 ^ 6 + pkt.nanoseconds / 1000) ∧
      pkt.seconds * 10 ^ 6 + pkt.nanoseconds / 100 < 2 ^ 64 ∧
      pkt.seconds * 10 ^ 6 + pkt.nanoseconds / 1000 < 2 ^ 64 ∧
      ∀ o, parse K self pkt = .ok o → o.self.previous_packet_stamp_ = packetStamp pkt := by
  have heq := packetStamp_eq pkt hs hn
  refine ⟨?_, ?_, by omega, by omega, ?_⟩
  · intro hv
    rw [heq, if_pos (by omega)]
    norm_num
  · intro hv
    rw [heq, if_neg (by omega)]
    norm_num
  · intro o ho
    have h1 := (parse_ok_eq K self pkt o ho).1
    generalize firingLoop K pkt (beforeFirings self pkt) = loop at h1
    rw [h1]

/-- The witness for C12: a version 2 packet stamped 7 s and 1234567 units. -/
theorem packet_stamp_value_witness :
    packetStamp
        { sweepPacket 0 1 100 7 with nanoseconds := 1234567, version := 2 } =
      7 * 10 ^ 6 + 1234567 / 100 :=
  (packet_stamp_value referenceDecls sampleParser
    { sweepPacket 0 1 100 7 with nanoseconds := 1234567, version := 2 }
    (by decide) (by decide)).1 (Or.inr (Or.inl rfl))

end PacketStamp

section AngleTable

theorem horizontalAngleEntry_low (p : Nat) (hp : p < M_SERIES_NUM_ROT_ANGLES / 2) :
    horizontalAngleEntry p = (p : ℚ) / 5200 := by
  have hp1 : p < 5200 := hp
  have hmod : (p + M_SERIES_NUM_ROT_ANGLES / 2) % M_SERIES_NUM_ROT_ANGLES = p + 5200 := by
    simp only [M_SERIES_NUM_ROT_ANGLES]
    omega
  have hN : (M_SERIES_NUM_ROT_ANGLES : ℚ) = 10400 := by norm_num [M_SERIES_NUM_ROT_ANGLES]
  unfold horizontalAngleEntry
  simp only [hmod, hN]
  push_cast
  ring

theorem horizontalAngleEntry_high (p : Nat) (hp1 : M_SERIES_NUM_ROT_ANGLES / 2 ≤ p)
    (hp2 : p < M_SERIES_NUM_ROT_ANGLES) :
    horizontalAngleEntry p = ((p : ℚ) - 10400) / 5200 := by
  have h1 : 5200 ≤ p := hp1
  have h2 : p < 10400 := hp2
  have hmod : (p + M_SERIES_NUM_ROT_ANGLES / 2) % M_SERIES_NUM_ROT_ANGLES = p - 5200 := by
    simp only [M_SERIES_NUM_ROT_ANGLES]
    omega
  have hN : (M_SERIES_NUM_ROT_ANGLES : ℚ) = 10400 := by norm_num [M_SERIES_NUM_ROT_ANGLES]
  unfold horizontalAngleEntry
  simp only [hmod, hN]
  rw [Nat.cast_sub h1]
  push_cast
  ring

/-- The entries of the table over the positions: non-negative and below 1 on
the first half turn, at least −1 and negative on the second. -/
theorem horizontalAngleEntry_range (p : Nat) (hp : p < M_SERIES_NUM_ROT_ANGLES) :
    (p < M_SERIES_NUM_ROT_ANGLES / 2 →
        0 ≤ horizontalAngleEntry p ∧ horizontalAngleEntry p < 1) ∧
      (M_SERIES_NUM_ROT_ANGLES / 2 ≤ p →
        -1 ≤ horizontalAngleEntry p ∧ horizontalAngleEntry p < 0) := by
  constructor
  · intro h
    rw [horizontalAngleEntry_low p h]
    have h1 : (p : ℚ) < 5200 := by
      have : p < 5200 := h
      exact_mod_cast this
    have h0 : (0 : ℚ) ≤ (p : ℚ) := Nat.cast_nonneg p
    constructor
    · exact div_nonneg h0 (by norm_num)
    · rw [div_lt_iff₀ (by norm_num : (0 : ℚ) < 5200)]
      linarith
  · intro h
    rw [horizontalAngleEntry_high p h hp]
    have h1 : (5200 : ℚ) ≤ (p : ℚ) := by
      have : 5200 ≤ p := h
      exact_mod_cast this
    have h2 : (p : ℚ) < 10400 := by
      have : p < 10400 := hp
      exact_mod_cast this
    constructor
    · rw [le_div_iff₀ (by norm_num : (0 : ℚ) < 5200)]
      linarith
    · rw [div_lt_iff₀ (by norm_num : (0 : ℚ) < 5200)]
      linarith

/-- Within one half turn the entries increase strictly. -/
theorem horizontalAngleEntry_lt (p p' : Nat) (hlt : p < p') (hp' : p' < M_SERIES_NUM_ROT_ANGLES)
    (hside : p' < M_SERIES_NUM_ROT_ANGLES / 2 ∨ M_SERIES_NUM_ROT_ANGLES / 2 ≤ p) :
    horizontalAngleEntry p < horizontalAngleEntry p' := by
  have hq : (p : ℚ) < (p' : ℚ) := by exact_mod_cast hlt
  rcases hside with h | h
  · rw [horizontalAngleEntry_low p (lt_trans hlt h), horizontalAngleEntry_low p' h]
    exact div_lt_div_of_pos_right hq (by norm_num)
  · rw [horizontalAngleEntry_high p h (lt_trans hlt hp'),
      horizontalAngleEntry_high p' (le_trans h (Nat.le_of_lt hlt)) hp']
    exact div_lt_div_of_pos_right (by linarith) (by norm_num)

theorem horizontalAngleEntry_injective (p p' : Nat) (hp : p < M_SERIES_NUM_ROT_ANGLES)
    (hp' : p' < M_SERIES_NUM_ROT_ANGLES)
    (heq : horizontalAngleEntry p = horizontalAngleEntry p') : p = p' := by
  have key : ∀ a b : Nat, a < b → b < M_SERIES_NUM_ROT_ANGLES →
      horizontalAngleEntry a ≠ horizontalAngleEntry b := by
    intro a b hab hb
    by_cases hside : b < M_SERIES_NUM_ROT_ANGLES / 2 ∨ M_SERIES_NUM_ROT_ANGLES / 2 ≤ a
    · exact ne_of_lt (horizontalAngleEntry_lt a b hab hb hside)
    · have ha1 : a < M_SERIES_NUM_ROT_ANGLES / 2 := by omega
      have hb1 : M_SERIES_NUM_ROT_ANGLES / 2 ≤ b := by omega
      have h1 := ((horizontalAngleEntry_range a (lt_trans hab hb)).1 ha1).1
      have h2 := ((horizontalAngleEntry_range b hb).2 hb1).2
      intro h
      rw [h] at h1
      linarith
  rcases Nat.lt_trichotomy p p' with h | h | h
  · exact absurd heq (key p p' h hp')
  · exact h
  · exact absurd heq.symm (key p' p h hp)

theorem ctor_table_getElem? (K : MSeriesDecls) (p : Nat) (hp : p ≤ M_SERIES_NUM_ROT_ANGLES) :
    (DataPacketParserMSeries.ctor K).horizontal_angle_lookup_table_[p]? =
      some (horizontalAngleEntry p) := by
  simp only [DataPacketParserMSeries.ctor, List.getElem?_map,
    List.getElem?_range (Nat.lt_succ_of_le hp), Option.map_some']

theorem horizontalAngleEntry_radians (p : Nat) :
    ((horizontalAngleEntry p : ℚ) : ℝ) * Real.pi =
      (((p + M_SERIES_NUM_ROT_ANGLES / 2) % M_SERIES_NUM_ROT_ANGLES : Nat) : ℝ)
        / (M_SERIES_NUM_ROT_ANGLES : ℝ) * (2 * Real.pi) - Real.pi := by
  unfold horizontalAngleEntry
  push_cast
  ring

theorem m8_table_eq (K : MSeriesDecls) (frame_id : String) (signal : Option Nat) :
    (PointCloudGeneratorM8.ctor frame_id signal).horizontal_angle_lookup_table_ =
      (DataPacketParserMSeries.ctor K).horizontal_angle_lookup_table_ := by
  have h1 : horizontalAngleEntryM8 = horizontalAngleEntry := rfl
  have h2 : M8_NUM_ROT_ANGLES = M_SERIES_NUM_ROT_ANGLES := rfl
  simp only [PointCloudGeneratorM8.ctor, DataPacketParserMSeries.ctor, h1, h2]

/-- C13: the horizontal angle table the constructor builds has `N_ROT + 1`
entries; for every position `p` in `[0, N_ROT)` its entry is
`((p + N_ROT/2) mod N_ROT) / N_ROT · 2π − π`, which lies in `[−π, π)`; the
entries increase strictly in `p` within `[0, N_ROT/2)` and within
`[N_ROT/2, N_ROT)` and drop once, between `N_ROT/2 − 1` and `N_ROT/2`, so the
table is injective on `[0, N_ROT)`; entry 0 is 0 and the guard entry `N_ROT`
equals entry 0.  The legacy generator builds the same table.  (Entries are kept
in units of π.) -/
theorem horizontal_angle_table (K : MSeriesDecls) (frame_id : String) (signal : Option Nat) :
    (DataPacketParserMSeries.ctor K).horizontal_angle_lookup_table_.length =
        M_SERIES_NUM_ROT_ANGLES + 1 ∧
      (∀ p, p < M_SERIES_NUM_ROT_ANGLES →
        ∃ q : ℚ, (DataPacketParserMSeries.ctor K).horizontal_angle_lookup_table_[p]? = some q ∧
          (q : ℝ) * Real.pi =
            (((p + M_SERIES_NUM_ROT_ANGLES / 2) % M_SERIES_NUM_ROT_ANGLES : Nat) : ℝ)
              / (M_SERIES_NUM_ROT_ANGLES : ℝ) * (2 * Real.pi) - Real.pi ∧
          -Real.pi ≤ (q : ℝ) * Real.pi ∧ (q : ℝ) * Real.pi < Real.pi) ∧
      (∀ p p' (q q' : ℚ), p < p' → p' < M_SERIES_NUM_ROT_ANGLES →
        (p' < M_SERIES_NUM_ROT_ANGLES / 2 ∨ M_SERIES_NUM_ROT_ANGLES / 2 ≤ p) →
        (DataPacketParserMSeries.ctor K).horizontal_angle_lookup_table_[p]? = some q →
        (DataPacketParserMSeries.ctor K).horizontal_angle_lookup_table_[p']? = some q' →
        q < q') ∧
      (∀ q q' : ℚ,
        (DataPacketParserMSeries.ctor K).horizontal_angle_lookup_table_[
          M_SERIES_NUM_ROT_ANGLES / 2 - 1]? = some q →
        (DataPacketParserMSeries.ctor K).horizontal_angle_lookup_table_[
          M_SERIES_NUM_ROT_ANGLES / 2]? = some q' →
        q' < q) ∧
      (∀ p p', p < M_SERIES_NUM_ROT_ANGLES → p' < M_SERIES_NUM_ROT_ANGLES →
        (DataPacketParserMSeries.ctor K).horizontal_angle_lookup_table_[p]? =
          (DataPacketParserMSeries.ctor K).horizontal_angle_lookup_table_[p']? →
        p = p') ∧
      (DataPacketParserMSeries.ctor K).horizontal_angle_lookup_table_[0]? = some 0 ∧
      (DataPacketParserMSeries.ctor K).horizontal_angle_lookup_table_[M_SERIES_NUM_ROT_ANGLES]? =
        (DataPacketParserMSeries.ctor K).horizontal_angle_lookup_table_[0]? ∧
      (PointCloudGeneratorM8.ctor frame_id signal).horizontal_angle_lookup_table_ =
        (DataPacketParserMSeries.ctor K).horizontal_angle_lookup_table_ := by
  have hget := ctor_table_getElem? K
  have hN : (0 : Nat) < M_SERIES_NUM_ROT_ANGLES := by decide
  refine ⟨?_, ?_, ?_, ?_, ?_, ?_, ?_, m8_table_eq K frame_id signal⟩
  · simp only [DataPacketParserMSeries.ctor, List.length_map, List.length_range]
  · intro p hp
    refine ⟨horizontalAngleEntry p, hget p (Nat.le_of_lt hp), horizontalAngleEntry_radians p, ?_⟩
    have hr := horizontalAngleEntry_range p hp
    have hpi := Real.pi_pos
    have hlo : (-1 : ℝ) ≤ ((horizontalAngleEntry p : ℚ) : ℝ) := by
      have : (-1 : ℚ) ≤ horizontalAngleEntry p := by
        by_cases h : p < M_SERIES_NUM_ROT_ANGLES / 2
        · have := (hr.1 h).1
          linarith
        · exact (hr.2 (Nat.le_of_not_lt h)).1
      exact_mod_cast this
    have hhi : ((horizontalAngleEntry p : ℚ) : ℝ) < 1 := by
      have : horizontalAngleEntry p < 1 := by
        by_cases h : p < M_SERIES_NUM_ROT_ANGLES / 2
        · exact (hr.1 h).2
        · have := (hr.2 (Nat.le_of_not_lt h)).2
          linarith
      exact_mod_cast this
    constructor
    · nlinarith
    · nlinarith
  · intro p p' q q' hlt hp' hside h1 h2
    rw [hget p (Nat.le_of_lt (lt_trans hlt hp'))] at h1
    rw [hget p' (Nat.le_of_lt hp')] at h2
    injection h1 with h1
    injection h2 with h2
    rw [← h1, ← h2]
    exact horizontalAngleEntry_lt p p' hlt hp' hside
  · intro q q' h1 h2
    rw [hget _ (by decide)] at h1
    rw [hget _ (by decide)] at h2
    injection h1 with h1
    injection h2 with h2
    rw [← h1, ← h2]
    have ha := ((horizontalAngleEntry_range (M_SERIES_NUM_ROT_ANGLES / 2) (by decide)).2
      (le_refl _)).2
    have hb := ((horizontalAngleEntry_range (M_SERIES_NUM_ROT_ANGLES / 2 - 1) (by decide)).1
      (by decide)).1
    linarith
  · intro p p' hp hp' heq
    rw [hget p (Nat.le_of_lt hp), hget p' (Nat.le_of_lt hp')] at heq
    injection heq with heq
    exact horizontalAngleEntry_injective p p' hp hp' heq
  · rw [hget 0 (Nat.zero_le _), horizontalAngleEntry_low 0 (by decide)]
    simp
  · rw [hget _ (le_refl _), hget 0 (Nat.zero_le _)]
    congr 1

end AngleTable

section Setters

/-- The two outcomes of `setDegreesOfSweepPerCloud`. -/
theorem setDegreesOfSweepPerCloud_spec (self : DataPacketParserMSeries) (d : ℚ) :
    ((0 ≤ d ∧ d ≤ 360) →
        self.setDegreesOfSweepPerCloud d = .ok { self with degrees_per_cloud_ := d } ∧
          (objectAfter self (self.setDegreesOfSweepPerCloud d)).degrees_per_cloud_ = d) ∧
      (¬ (0 ≤ d ∧ d ≤ 360) →
        self.setDegreesOfSweepPerCloud d = .error .InvalidDegreesPerCloud ∧
          objectAfter self (self.setDegreesOfSweepPerCloud d) = self) := by
  unfold DataPacketParserMSeries.setDegreesOfSweepPerCloud
  constructor
  · intro h
    have hc : ¬ (d < 0 ∨ d > 360) := by
      intro hh
      rcases hh with hh | hh
      · linarith [h.1]
      · linarith [h.2]
    rw [if_neg hc]
    exact ⟨rfl, rfl⟩
  · intro h
    have hc : d < 0 ∨ d > 360 := by
      by_contra hh
      apply h
      constructor
      · by_contra h0
        exact hh (Or.inl (lt_of_not_le h0))
      · by_contra h1
        exact hh (Or.inr (lt_of_not_le h1))
    rw [if_pos hc]
    exact ⟨rfl, rfl⟩

/-- C14 (amended): `setDegreesOfSweepPerCloud(d)` succeeds and stores `d` as
`degrees_per_cloud_` exactly when `0 ≤ d ≤ 360` (0 included); for every other
value it raises `InvalidDegreesPerCloud` and leaves `degrees_per_cloud_`, and
the whole object, unchanged. -/
theorem setDegreesOfSweepPerCloud_accepts (self : DataPacketParserMSeries) (d : ℚ) :
    ((0 ≤ d ∧ d ≤ 360) →
        self.setDegreesOfSweepPerCloud d = .ok { self with degrees_per_cloud_ := d } ∧
          (objectAfter self (self.setDegreesOfSweepPerCloud d)).degrees_per_cloud_ = d) ∧
      (¬ (0 ≤ d ∧ d ≤ 360) →
        self.setDegreesOfSweepPerCloud d = .error .InvalidDegreesPerCloud ∧
          objectAfter self (self.setDegreesOfSweepPerCloud d) = self) :=
  setDegreesOfSweepPerCloud_spec self d

/-- C14 (counterexample): `setDegreesOfSweepPerCloud(0)` does not raise: it
stores 0. -/
theorem setDegreesOfSweepPerCloud_zero_accepted :
    ¬ ((∃ s, sampleParser.setDegreesOfSweepPerCloud 0 = .ok s ∧ s.degrees_per_cloud_ = 0) ↔
        ((0 : ℚ) < 0 ∧ (0 : ℚ) ≤ 360)) := by
  intro h
  have hok : ∃ s, sampleParser.setDegreesOfSweepPerCloud 0 = .ok s ∧ s.degrees_per_cloud_ = 0 :=
    ⟨_, ((setDegreesOfSweepPerCloud_spec sampleParser 0).1 ⟨le_refl _, by norm_num⟩).1, rfl⟩
  exact lt_irrefl (0 : ℚ) (h.mp hok).1

/-- C15: `setReturnSelection(s)` raises `InvalidReturnSelection` exactly when
`s` is not `ALL_RETURNS` and lies outside `[0, NUM_LASERS)`; when it raises the
stored return selection (and the whole object) is unchanged, and when it does
not raise the stored return selection is `s`. -/
theorem setReturnSelection_raises_iff (K : MSeriesDecls) (self : DataPacketParserMSeries)
    (s : Int) :
    (self.setReturnSelection K s = .error .InvalidReturnSelection ↔
        (s ≠ K.ALL_RETURNS ∧ (s < 0 ∨ (M_SERIES_NUM_LASERS : Int) ≤ s))) ∧
      (self.setReturnSelection K s = .error .InvalidReturnSelection →
        objectAfter self (self.setReturnSelection K s) = self) ∧
      (self.setReturnSelection K s ≠ .error .InvalidReturnSelection →
        self.setReturnSelection K s = .ok { self with return_selection_ := s } ∧
          (objectAfter self (self.setReturnSelection K s)).return_selection_ = s) := by
  unfold DataPacketParserMSeries.setReturnSelection
  by_cases hc : s ≠ K.ALL_RETURNS ∧ (s < 0 ∨ s ≥ (M_SERIES_NUM_LASERS : Int))
  · rw [if_pos hc]
    refine ⟨⟨fun _ => hc, fun _ => rfl⟩, fun _ => rfl, fun h => absurd rfl h⟩
  · rw [if_neg hc]
    refine ⟨⟨fun h => Except.noConfusion h, fun h => absurd h hc⟩,
      fun h => Except.noConfusion h, fun _ => ⟨rfl, rfl⟩⟩

/-- What `setCloudSizeLimits` does when it does not raise: a positive `szmin`
replaces the minimum, and a positive `szmax` replaces the maximum by the larger
of the new minimum and `szmax`; a `szmax` that is not positive leaves the
maximum alone. -/
theorem setCloudSizeLimits_raises_iff (K : MSeriesDecls) (self : DataPacketParserMSeries)
    (szmin szmax : Int) :
    (self.setCloudSizeLimits K szmin szmax = .error .InvalidCloudSizeLimits ↔
        (szmin > K.MAX_CLOUD_SIZE ∨ szmax > K.MAX_CLOUD_SIZE)) ∧
      (self.setCloudSizeLimits K szmin szmax = .error .InvalidCloudSizeLimits →
        objectAfter self (self.setCloudSizeLimits K szmin szmax) = self) := by
  unfold DataPacketParserMSeries.setCloudSizeLimits
  by_cases hc : szmin > K.MAX_CLOUD_SIZE ∨ szmax > K.MAX_CLOUD_SIZE
  · rw [if_pos hc]
    exact ⟨⟨fun _ => hc, fun _ => rfl⟩, fun _ => rfl⟩
  · rw [if_neg hc]
    exact ⟨⟨fun h => Except.noConfusion h, fun h => absurd h hc⟩, fun h => Except.noConfusion h⟩

/-- C17 (the code at the failing input): on a parser with limits 1 and 10,
`setCloudSizeLimits(100, 0)` does not raise and leaves the minimum at 100 and
the maximum at 10: a `szmax` that is not positive skips the only statement that
keeps the maximum at or above the minimum. -/
theorem setCloudSizeLimits_minimum_above_maximum :
    cappedParser.minimum_cloud_size_ ≤ cappedParser.maximum_cloud_size_ ∧
      cappedParser.setCloudSizeLimits referenceDecls 100 0 ≠ .error .InvalidCloudSizeLimits ∧
      (objectAfter cappedParser
        (cappedParser.setCloudSizeLimits referenceDecls 100 0)).minimum_cloud_size_ = 100 ∧
      (objectAfter cappedParser
        (cappedParser.setCloudSizeLimits referenceDecls 100 0)).maximum_cloud_size_ = 10 := by
  have hcall : cappedParser.setCloudSizeLimits referenceDecls 100 0 =
      .ok { cappedParser with minimum_cloud_size_ := 100 } := by
    simp [DataPacketParserMSeries.setCloudSizeLimits, referenceDecls]
  rw [hcall]
  refine ⟨by decide, fun h => Except.noConfusion h, rfl, rfl⟩

end Setters

section ReturnIndex

theorem foldl_push_if_points (p : Nat → Prop) [DecidablePred p]
    (f : PointCloudHVDIR → Nat → PointCloudHVDIR) (g : Nat → PointHVDIR)
    (hf : ∀ c i, (f c i).points = c.points ++ [g i]) (l : List Nat) (c : PointCloudHVDIR) :
    (l.foldl (fun c i => if p i then f c i else c) c).points =
      c.points ++ (l.filter fun i => decide (p i)).map g := by
  induction l generalizing c with
  | nil => simp
  | cons i l ih =>
    simp only [List.foldl_cons]
    rw [ih]
    by_cases hp : p i
    · simp [hp, hf, List.filter_cons]
    · simp [hp, List.filter_cons]

/-- The points a single selection appends for a beam: one for each index the
inner loop selects, read from `returns_intensities` and `returns_distances` at
that index. -/
theorem pushSelectedReturn_points (sel : Int) (scale : ℚ) (data : MSeriesFiringData)
    (h v : Option ℚ) (j : Nat) (cloud : PointCloudHVDIR) :
    (pushSelectedReturn sel scale data h v j cloud).points =
      cloud.points ++
        (selectedReturnIndices sel).map fun i =>
          mkPoint h v j (data.returns_intensities i j)
            (if data.returns_distances i j = 0 then none
              else some ((data.returns_distances i j : ℚ) * scale)) := by
  unfold pushSelectedReturn selectedReturnIndices
  exact foldl_push_if_points (fun i => sel = (i : Int))
    (fun c i =>
      if data.returns_distances i j = 0 then
        ({ c with is_dense := false } : PointCloudHVDIR).push_back
          (mkPoint h v j (data.returns_intensities i j) none)
      else
        c.push_back
          (mkPoint h v j (data.returns_intensities i j)
            (some ((data.returns_distances i j : ℚ) * scale))))
    _ (by intro c i; dsimp only; split <;> simp) _ cloud

/-- The index a selection in `[0, NUM_LASERS)` reads is the selection itself. -/
theorem selectedReturnIndices_eq (k : Nat) (hk : k < M_SERIES_NUM_LASERS) :
    selectedReturnIndices (k : Int) = [k] := by
  have hk8 : k < 8 := hk
  unfold selectedReturnIndices
  interval_cases k <;> decide

/-- Every selection from the number of returns up to the number of lasers is
accepted by `setReturnSelection`, and the index the inner loop of `parse`
reads for it (when it is not `ALL_RETURNS`) is the selection itself. -/
theorem setReturnSelection_accepts_beyond_returns (K : MSeriesDecls)
    (self : DataPacketParserMSeries) (k : Nat) (h3 : M_SERIES_NUM_RETURNS ≤ k)
    (h8 : k < M_SERIES_NUM_LASERS) :
    self.setReturnSelection K (k : Int) = .ok { self with return_selection_ := (k : Int) } ∧
      selectedReturnIndices (k : Int) = [k] ∧ ¬ k < M_SERIES_NUM_RETURNS := by
  refine ⟨?_, selectedReturnIndices_eq k h8, Nat.not_lt.mpr h3⟩
  unfold DataPacketParserMSeries.setReturnSelection
  have hk : ¬ ((k : Int) ≠ K.ALL_RETURNS ∧
      ((k : Int) < 0 ∨ (k : Int) ≥ (M_SERIES_NUM_LASERS : Int))) := by
    intro hh
    rcases hh.2 with h | h
    · omega
    · have : M_SERIES_NUM_LASERS ≤ k := by exact_mod_cast h
      omega
  rw [if_neg hk]

/-- C16 (the code at the failing input): `setReturnSelection(5)` is accepted,
5 is not `ALL_RETURNS`, and for each beam `parse` then reads
`returns_intensities[5][j]` and `returns_distances[5][j]`: the index it reads
is 5, which is not one of the three return indices 0, 1, 2 of a firing. -/
theorem accepted_selection_reads_outside_returns :
    sampleParser.setReturnSelection referenceDecls 5 =
        .ok { sampleParser with return_selection_ := 5 } ∧
      (5 : Int) ≠ referenceDecls.ALL_RETURNS ∧
      selectedReturnIndices 5 = [5] ∧
      ¬ (5 < M_SERIES_NUM_RETURNS) ∧
      (pushSelectedReturn 5 (1 / 100)
          { position := 0,
            returns_distances := fun i _ => 100 * (i + 1),
            returns_intensities := fun i _ => i }
          none none 0 PointCloudHVDIR.new).points =
        [mkPoint none none 0 5 (some 6)] := by
  refine ⟨?_, by decide, selectedReturnIndices_eq 5 (by decide), by decide, ?_⟩
  · simp [DataPacketParserMSeries.setReturnSelection, referenceDecls, M_SERIES_NUM_LASERS]
  · decide!

end ReturnIndex

section Raise

/-- The explicit-state reading of `parse` agrees with `parse`. -/
theorem parseEffect_raised (K : MSeriesDecls) (self : DataPacketParserMSeries)
    (pkt : MSeriesDataPacket) (e : ParseError) :
    parse K self pkt = .error e ↔ (parseEffect K self pkt).raised = some e := by
  unfold parse parseEffect
  generalize firingLoop K pkt (beforeFirings self pkt) = loop
  by_cases h1 : self.vertical_angle_lookup_table_.isEmpty
  · simp only [h1, if_true]
    constructor
    · intro h
      injection h with h
      rw [h]
    · intro h
      injection h with h
      rw [h]
  · simp only [h1]
    cases h2 : statusError K pkt.status with
    | some e1 =>
      constructor
      · intro h
        injection h with h
        simp [h]
      · intro h
        simp at h
        simp [h]
    | none =>
      constructor
      · intro h
        exact Except.noConfusion h
      · intro h
        simp at h

theorem parseEffect_eq_parseCall (K : MSeriesDecls) (self : DataPacketParserMSeries)
    (pkt : MSeriesDataPacket) :
    ((parseEffect K self pkt).self, (parseEffect K self pkt).written) = parseCall K self pkt := by
  unfold parseEffect parseCall parse
  generalize firingLoop K pkt (beforeFirings self pkt) = loop
  by_cases h1 : self.vertical_angle_lookup_table_.isEmpty
  · simp [h1]
  · cases h2 : statusError K pkt.status <;> simp [h1]

theorem parseEffect_raise_unchanged (K : MSeriesDecls) (self : DataPacketParserMSeries)
    (pkt : MSeriesDataPacket) (e : ParseError) (h : (parseEffect K self pkt).raised = some e) :
    (parseEffect K self pkt).self = self ∧ (parseEffect K self pkt).written = [] := by
  unfold parseEffect at h ⊢
  generalize firingLoop K pkt (beforeFirings self pkt) = loop at h ⊢
  by_cases h1 : self.vertical_angle_lookup_table_.isEmpty
  · simp [h1]
  · cases h2 : statusError K pkt.status with
    | some e1 => simp [h1]
    | none =>
      rw [h2] at h
      simp [h1] at h

theorem parse_error_of_statusError (K : MSeriesDecls) (self : DataPacketParserMSeries)
    (pkt : MSeriesDataPacket) (e : ParseError)
    (hv : self.vertical_angle_lookup_table_.isEmpty = false)
    (hs : statusError K pkt.status = some e) : parse K self pkt = .error e := by
  unfold parse
  rw [hv, hs]
  rfl

/-- C18: when `parse` raises `FirmwareVersionMismatchError` or
`FirmwareWatchdogViolationError`, no cloud is written to `result` and the
parser object after the call equals the object before it, member for member
(both `throw`s precede the first assignment to a member). -/
theorem firmware_error_leaves_state (K : MSeriesDecls) (self : DataPacketParserMSeries)
    (pkt : MSeriesDataPacket)
    (h : parse K self pkt = .error .FirmwareVersionMismatchError ∨
      parse K self pkt = .error .FirmwareWatchdogViolationError) :
    (parseEffect K self pkt).written = [] ∧
      (parseEffect K self pkt).self = self ∧
      (parseEffect K self pkt).self.current_cloud_ = self.current_cloud_ ∧
      (parseEffect K self pkt).self.cloud_counter_ = self.cloud_counter_ ∧
      (parseEffect K self pkt).self.packet_counter_ = self.packet_counter_ ∧
      (parseEffect K self pkt).self.previous_status_ = self.previous_status_ ∧
      (parseEffect K self pkt).self.previous_packet_stamp_ = self.previous_packet_stamp_ ∧
      (parseEffect K self pkt).self.direction_ = self.direction_ ∧
      (parseEffect K self pkt).self.start_azimuth_ = self.start_azimuth_ ∧
      (parseEffect K self pkt).self.last_azimuth_ = self.last_azimuth_ := by
  have hr : ∃ e, (parseEffect K self pkt).raised = some e := by
    rcases h with h | h
    · exact ⟨_, (parseEffect_raised K self pkt _).mp h⟩
    · exact ⟨_, (parseEffect_raised K self pkt _).mp h⟩
  obtain ⟨e, he⟩ := hr
  obtain ⟨h1, h2⟩ := parseEffect_raise_unchanged K self pkt e he
  rw [h1]
  exact ⟨h2, rfl, rfl, rfl, rfl, rfl, rfl, rfl, rfl, rfl⟩

/-- The witness for C18: a packet with the watchdog flag set, on the sample
parser. -/
theorem firmware_error_leaves_state_witness :
    (parseEffect referenceDecls sampleParser { sweepPacket 0 1 100 1 with status := 2 }).self =
      sampleParser :=
  (firmware_error_leaves_state referenceDecls sampleParser
    { sweepPacket 0 1 100 1 with status := 2 }
    (Or.inr (parse_error_of_statusError referenceDecls sampleParser
      { sweepPacket 0 1 100 1 with status := 2 } _ (by decide) (by decide)))).2.1

end Raise

section SeqOrder

theorem completedClouds_cons (K : MSeriesDecls) (self : DataPacketParserMSeries)
    (pkt : MSeriesDataPacket) (rest : List MSeriesDataPacket) :
    completedClouds K self (pkt :: rest) =
      (parseCall K self pkt).2 ++ completedClouds K (parseCall K self pkt).1 rest := by
  simp [completedClouds, parseStream]

/-- While the counter does not wrap, the numbers of the returned clouds
increase strictly and none is below the counter at the start. -/
theorem returned_seq_sorted_from (K : MSeriesDecls) (pkts : List MSeriesDataPacket) :
    ∀ (self : DataPacketParserMSeries) (n0 : Nat), self.cloud_counter_ = n0 →
      n0 + (completedClouds K self pkts).length < 2 ^ 32 →
      ((returnedClouds K self pkts).map fun c => c.header.seq).Sorted (fun a b => a < b) ∧
        ∀ c, c ∈ returnedClouds K self pkts → n0 ≤ c.header.seq := by
  induction pkts with
  | nil =>
    intro self n0 _ _
    simp [returnedClouds, parseStream]
  | cons pkt rest ih =>
    intro self n0 hc hfew
    rw [completedClouds_cons, List.length_append] at hfew
    have hn0 : n0 % 2 ^ 32 = n0 := Nat.mod_eq_of_lt (by omega)
    have hcall := parseCall_seq K self pkt n0 (by rw [hn0]; exact hc)
    have hcounter : (parseCall K self pkt).1.cloud_counter_ =
        n0 + (parseCall K self pkt).2.length := by
      rw [hcall.1]
      exact Nat.mod_eq_of_lt (by omega)
    have hrest := ih (parseCall K self pkt).1 (n0 + (parseCall K self pkt).2.length) hcounter
      (by omega)
    rw [returnedClouds_cons]
    cases hlast : (parseCall K self pkt).2.getLast? with
    | none =>
      simp only [Option.toList, List.nil_append]
      refine ⟨hrest.1, fun c hcm => ?_⟩
      have := hrest.2 c hcm
      omega
    | some c0 =>
      have hne : (parseCall K self pkt).2 ≠ [] := by
        intro he
        rw [he] at hlast
        simp at hlast
      have hpos : 0 < (parseCall K self pkt).2.length := List.length_pos.mpr hne
      have hk : (parseCall K self pkt).2[(parseCall K self pkt).2.length - 1]? = some c0 := by
        rw [← hlast, List.getLast?_eq_getElem?]
      have hseq : c0.header.seq = n0 + ((parseCall K self pkt).2.length - 1) := by
        rw [hcall.2 _ c0 hk]
        exact Nat.mod_eq_of_lt (by omega)
      simp only [Option.toList, List.singleton_append, List.map_cons, List.sorted_cons]
      refine ⟨⟨?_, hrest.1⟩, ?_⟩
      · intro b hb
        obtain ⟨c1, hc1, rfl⟩ := List.mem_map.mp hb
        have := hrest.2 c1 hc1
        omega
      · intro c hcm
        rcases List.mem_cons.mp hcm with hcm | hcm
        · subst hcm
          omega
        · have := hrest.2 c hcm
          omega

/-- C19: along a stream parsed by one parser, starting with the cloud counter
at 0, that completes fewer than `2^32` clouds, the `header.seq` values of the
clouds returned by successive calls of `parse` are strictly increasing. -/
theorem returned_seq_strictly_increasing (K : MSeriesDecls) (self : DataPacketParserMSeries)
    (pkts : List MSeriesDataPacket) (hfresh : self.cloud_counter_ = 0)
    (hfew : (completedClouds K self pkts).length < 2 ^ 32) :
    ((returnedClouds K self pkts).map fun c => c.header.seq).Sorted (fun a b => a < b) :=
  (returned_seq_sorted_from K pkts self 0 hfresh (by omega)).1

theorem firingStep_emitted_length (K : MSeriesDecls) (cur : Nat) (scale : ℚ) (i : Nat)
    (data : MSeriesFiringData) (st : LoopState) :
    (firingStep K cur scale st i data).emitted.length ≤ st.emitted.length + 1 := by
  have h2 : (firingBoundary K cur st i data).emitted.length ≤ st.emitted.length + 1 := by
    unfold firingBoundary
    simp only
    split
    · unfold atBoundary
      dsimp only
      split
      · obtain ⟨c, hc, -⟩ := emitCloud_emitted K cur i
          { self := { latchStart st.self (azimuthAngle data.position) with
              start_azimuth_ := azimuthAngle data.position },
            cloudfull := st.cloudfull, emitted := st.emitted }
        rw [hc]
        simp
      · exact Nat.le_succ _
    · exact Nat.le_succ _
  unfold firingStep firingPoints
  split
  · exact h2
  · exact h2

theorem firingsUpTo_emitted_length (K : MSeriesDecls) (pkt : MSeriesDataPacket) (n : Nat)
    (st : LoopState) : (firingsUpTo K pkt n st).emitted.length ≤ st.emitted.length + n := by
  unfold firingsUpTo
  apply foldl_range_invariant (fun m (b : LoopState) => b.emitted.length ≤ st.emitted.length + m)
  · exact Nat.le_refl _
  · intro i b _ hb
    have := firingStep_emitted_length K (packetStamp pkt) (distanceScaling pkt) i (pkt.data i) b
    omega

/-- A call of `parse` completes at most one cloud for each firing. -/
theorem parseCall_emitted_length (K : MSeriesDecls) (self : DataPacketParserMSeries)
    (pkt : MSeriesDataPacket) : (parseCall K self pkt).2.length ≤ M_SERIES_FIRING_PER_PKT := by
  rcases parseCall_cases K self pkt with hc | hc
  · rw [hc]
    exact Nat.zero_le _
  · rw [hc]
    have h := firingsUpTo_emitted_length K pkt M_SERIES_FIRING_PER_PKT (beforeFirings self pkt)
    rw [beforeFirings_emitted] at h
    unfold firingLoop
    generalize firingsUpTo K pkt M_SERIES_FIRING_PER_PKT (beforeFirings self pkt) = loop at h ⊢
    simpa using h

theorem completedClouds_length_le (K : MSeriesDecls) (pkts : List MSeriesDataPacket) :
    ∀ self : DataPacketParserMSeries,
      (completedClouds K self pkts).length ≤ M_SERIES_FIRING_PER_PKT * pkts.length := by
  induction pkts with
  | nil =>
    intro self
    simp [completedClouds, parseStream]
  | cons pkt rest ih =>
    intro self
    rw [completedClouds_cons, List.length_append, List.length_cons, Nat.mul_succ]
    have h1 := parseCall_emitted_length K self pkt
    have h2 := ih (parseCall K self pkt).1
    omega

/-- The witness for C19: two packets that each cross the half turn, on the
sample parser. -/
theorem returned_seq_strictly_increasing_witness :
    ((returnedClouds referenceDecls sampleParser
        [sweepPacket 5199 1 100 1, sweepPacket 5199 1 100 2]).map
      fun c => c.header.seq).Sorted (fun a b => a < b) :=
  returned_seq_strictly_increasing referenceDecls sampleParser
    [sweepPacket 5199 1 100 1, sweepPacket 5199 1 100 2] rfl
    (lt_of_le_of_lt (completedClouds_length_le referenceDecls _ sampleParser) (by decide))

end SeqOrder

section LegacyStatus

/-- C20: for a legacy generator with a listener attached and a legacy packet
with `status ≠ 0`, `PointCloudGeneratorM8::parse` passes no cloud to the signal
and leaves the generator (accumulating cloud, packet counter, cloud counter,
last azimuth and the rest) as it was; it raises `FirmwareVersionMismatchError`
exactly when `status = 1` and returns normally for every other non-zero
status. -/
theorem m8_nonzero_status_no_cloud (self : PointCloudGeneratorM8) (pkt : M8DataPacket)
    (hlisten : self.signal_ ≠ some 0) (hstatus : pkt.status ≠ 0) :
    (self.parse pkt).emitted = [] ∧
      (self.parse pkt).self = self ∧
      ((self.parse pkt).raised = some .FirmwareVersionMismatchError ↔ pkt.status = 1) ∧
      (pkt.status ≠ 1 → (self.parse pkt).raised = none) := by
  unfold PointCloudGeneratorM8.parse
  rw [if_neg hlisten, if_pos hstatus]
  by_cases h1 : pkt.status = 1
  · rw [if_pos h1]
    exact ⟨rfl, rfl, ⟨fun _ => h1, fun _ => rfl⟩, fun h => absurd h1 h⟩
  · rw [if_neg h1]
    refine ⟨rfl, rfl, ⟨fun h => ?_, fun h => absurd h h1⟩, fun _ => rfl⟩
    exact Option.noConfusion h

/-- The witness for C20: a packet with status 2 on a generator with one
listener. -/
theorem m8_nonzero_status_no_cloud_witness :
    (sampleGeneratorM8.parse (sweepPacketM8 5199 2)).emitted = [] ∧
      (sampleGeneratorM8.parse (sweepPacketM8 5199 2)).raised = none :=
  ⟨(m8_nonzero_status_no_cloud sampleGeneratorM8 (sweepPacketM8 5199 2)
      (by decide) (by decide)).1,
    (m8_nonzero_status_no_cloud sampleGeneratorM8 (sweepPacketM8 5199 2)
      (by decide) (by decide)).2.2.2 (by decide)⟩

end LegacyStatus

section LegacyDirection

/-- The legacy direction test on the first and the last position `a` and `b`:
the result is +1 or −1, by the sign of `a − b` and the threshold 4000. -/
theorem m8Direction_cases (pkt : M8DataPacket) :
    (m8Direction pkt = 1 ∨ m8Direction pkt = -1) ∧
      (m8Direction pkt = 1 ↔
        ((pkt.data 0).position : Int) - (pkt.data (M8_FIRING_PER_PKT - 1)).position > 4000 ∨
          (0 ≤ ((pkt.data (M8_FIRING_PER_PKT - 1)).position : Int) - (pkt.data 0).position ∧
            ((pkt.data (M8_FIRING_PER_PKT - 1)).position : Int) - (pkt.data 0).position
              ≤ 4000)) ∧
      (m8Direction pkt = -1 ↔
        (0 < ((pkt.data 0).position : Int) - (pkt.data (M8_FIRING_PER_PKT - 1)).position ∧
            ((pkt.data 0).position : Int) - (pkt.data (M8_FIRING_PER_PKT - 1)).position
              ≤ 4000) ∨
          ((pkt.data (M8_FIRING_PER_PKT - 1)).position : Int) - (pkt.data 0).position
            > 4000) := by
  unfold m8Direction
  simp only
  generalize ((pkt.data 0).position : Int) = a
  generalize ((pkt.data (M8_FIRING_PER_PKT - 1)).position : Int) = b
  by_cases h1 : a - b > 0
  · by_cases h2 : a - b > 4000
    · rw [if_pos h1, if_pos h2]
      refine ⟨Or.inl rfl, ⟨fun _ => Or.inl h2, fun _ => rfl⟩, ⟨fun h => ?_, fun h => ?_⟩⟩
      · exact absurd h (by decide)
      · omega
    · rw [if_pos h1, if_neg h2]
      refine ⟨Or.inr rfl, ⟨fun h => ?_, fun h => ?_⟩, ⟨fun _ => Or.inl ⟨h1, by omega⟩, fun _ => rfl⟩⟩
      · exact absurd h (by decide)
      · omega
  · by_cases h2 : b - a > 4000
    · rw [if_neg h1, if_pos h2]
      refine ⟨Or.inr rfl, ⟨fun h => ?_, fun h => ?_⟩, ⟨fun _ => Or.inr h2, fun _ => rfl⟩⟩
      · exact absurd h (by decide)
      · omega
    · rw [if_neg h1, if_neg h2]
      refine ⟨Or.inl rfl, ⟨fun _ => Or.inr ⟨by omega, by omega⟩, fun _ => rfl⟩,
        ⟨fun h => ?_, fun h => ?_⟩⟩
      · exact absurd h (by decide)
      · omega

/-- C21: for a legacy packet with status 0 (and a listener attached, so that
`PointCloudGeneratorM8::parse` does its work), with `a` the position of the
first firing and `b` the position of the last one, every pass of the firing
loop runs with the one direction `d` computed from `a` and `b`, which is +1 or
−1 and never 0: `d = +1` exactly when `a − b > 4000` or `0 ≤ b − a ≤ 4000`, and
`d = −1` exactly when `0 < a − b ≤ 4000` or `b − a > 4000`. -/
theorem m8_direction_endpoints (self : PointCloudGeneratorM8) (pkt : M8DataPacket)
    (hlisten : self.signal_ ≠ some 0) (hstatus : pkt.status = 0) :
    ((self.parse pkt).self =
          ((List.range M8_FIRING_PER_PKT).foldl
            (fun st i => m8FiringStep (m8PacketTime pkt) (m8Direction pkt) st (pkt.data i))
            ({ self := { self with packet_counter_ := (self.packet_counter_ + 1) % 2 ^ 32 },
               emitted := [] } : M8LoopState)).self ∧
        (self.parse pkt).emitted =
          ((List.range M8_FIRING_PER_PKT).foldl
            (fun st i => m8FiringStep (m8PacketTime pkt) (m8Direction pkt) st (pkt.data i))
            ({ self := { self with packet_counter_ := (self.packet_counter_ + 1) % 2 ^ 32 },
               emitted := [] } : M8LoopState)).emitted) ∧
      (m8Direction pkt = 1 ∨ m8Direction pkt = -1) ∧ m8Direction pkt ≠ 0 ∧
      (m8Direction pkt = 1 ↔
        ((pkt.data 0).position : Int) - (pkt.data (M8_FIRING_PER_PKT - 1)).position > 4000 ∨
          (0 ≤ ((pkt.data (M8_FIRING_PER_PKT - 1)).position : Int) - (pkt.data 0).position ∧
            ((pkt.data (M8_FIRING_PER_PKT - 1)).position : Int) - (pkt.data 0).position
              ≤ 4000)) ∧
      (m8Direction pkt = -1 ↔
        (0 < ((pkt.data 0).position : Int) - (pkt.data (M8_FIRING_PER_PKT - 1)).position ∧
            ((pkt.data 0).position : Int) - (pkt.data (M8_FIRING_PER_PKT - 1)).position
              ≤ 4000) ∨
          ((pkt.data (M8_FIRING_PER_PKT - 1)).position : Int) - (pkt.data 0).position
            > 4000) := by
  have hc := m8Direction_cases pkt
  refine ⟨?_, hc.1, ?_, hc.2.1, hc.2.2⟩
  · unfold PointCloudGeneratorM8.parse
    rw [if_neg hlisten, if_neg (not_not.mpr hstatus)]
    exact ⟨rfl, rfl⟩
  · rcases hc.1 with h | h <;> rw [h] <;> decide

/-- The witness for C21: a packet whose positions run from 5199 to 5248, for
which the direction is +1. -/
theorem m8_direction_endpoints_witness :
    (sweepPacketM8 5199 0).status = 0 ∧ m8Direction (sweepPacketM8 5199 0) = 1 :=
  ⟨rfl,
    (m8_direction_endpoints sampleGeneratorM8 (sweepPacketM8 5199 0) (by decide)
      (by decide)).2.2.2.1.mpr (Or.inr ⟨by decide, by decide⟩)⟩

end LegacyDirection

section LastAzimuth

theorem beforeFirings_last_azimuth (self : DataPacketParserMSeries) (pkt : MSeriesDataPacket) :
    (beforeFirings self pkt).self.last_azimuth_ = self.last_azimuth_ ∧
      (beforeFirings self pkt).self.horizontal_angle_lookup_table_ =
        self.horizontal_angle_lookup_table_ ∧
      (beforeFirings self pkt).cloudfull =
        decide (asSizeT self.maximum_cloud_size_ ≤ self.current_cloud_.size) := by
  unfold beforeFirings
  simp only
  split <;> split <;> exact ⟨rfl, rfl, rfl⟩

/-- The first half of the firing body leaves `last_azimuth_` and the horizontal
angle table alone, and leaves `cloudfull` set exactly when it was set and no
rotation boundary is detected. -/
theorem firingBoundary_keeps (K : MSeriesDecls) (cur : Nat) (st : LoopState) (i : Nat)
    (data : MSeriesFiringData) :
    (firingBoundary K cur st i data).self.last_azimuth_ = st.self.last_azimuth_ ∧
      (firingBoundary K cur st i data).self.horizontal_angle_lookup_table_ =
        st.self.horizontal_angle_lookup_table_ ∧
      ((firingBoundary K cur st i data).cloudfull = true ↔
        st.cloudfull = true ∧ ¬ rotationBoundary st.self (azimuthAngle data.position)) := by
  have h1 : (latchStart st.self (azimuthAngle data.position)).last_azimuth_ =
        st.self.last_azimuth_ ∧
      (latchStart st.self (azimuthAngle data.position)).horizontal_angle_lookup_table_ =
        st.self.horizontal_angle_lookup_table_ := by
    unfold latchStart
    split <;> exact ⟨rfl, rfl⟩
  unfold firingBoundary
  simp only
  split
  · rename_i hb
    unfold atBoundary
    dsimp only
    split
    · exact ⟨h1.1, h1.2, ⟨fun h => Bool.noConfusion h, fun h => absurd hb h.2⟩⟩
    · exact ⟨h1.1, h1.2, ⟨fun h => Bool.noConfusion h, fun h => absurd hb h.2⟩⟩
  · rename_i hb
    exact ⟨h1.1, h1.2, ⟨fun h => ⟨h, hb⟩, fun h => h.1⟩⟩

/-- The second half of the firing body: a skipped firing changes nothing, a
firing that is not skipped stores its azimuth in `last_azimuth_`; neither
changes `cloudfull` or the horizontal angle table. -/
theorem firingPoints_last_azimuth (K : MSeriesDecls) (scale : ℚ) (st : LoopState)
    (data : MSeriesFiringData) :
    (firingPoints K scale st data).cloudfull = st.cloudfull ∧
      (firingPoints K scale st data).self.horizontal_angle_lookup_table_ =
        st.self.horizontal_angle_lookup_table_ ∧
      (st.cloudfull = true → firingPoints K scale st data = st) ∧
      (st.cloudfull = false →
        (firingPoints K scale st data).self.last_azimuth_ = azimuthAngle data.position) := by
  unfold firingPoints
  cases hc : st.cloudfull <;> simp [hc]

theorem firingsUpTo_cloudfull (K : MSeriesDecls) (self : DataPacketParserMSeries)
    (pkt : MSeriesDataPacket) (n : Nat) :
    (firingsUpTo K pkt (n + 1) (beforeFirings self pkt)).cloudfull = firingSkipped K self pkt n := by
  rw [firingsUpTo_succ]
  unfold firingStep firingSkipped
  exact (firingPoints_last_azimuth K _ _ _).1


/-- A firing is skipped exactly when the cloud was at or above the limit when
the call started and no rotation boundary has been detected in the call up to
and including that firing. -/
theorem firingSkipped_iff (K : MSeriesDecls) (self : DataPacketParserMSeries)
    (pkt : MSeriesDataPacket) (i : Nat) :
    firingSkipped K self pkt i = true ↔
      asSizeT self.maximum_cloud_size_ ≤ self.current_cloud_.size ∧
        ∀ k, k ≤ i →
          ¬ rotationBoundary (firingsUpTo K pkt k (beforeFirings self pkt)).self
            (azimuthAngle (pkt.data k).position) := by
  induction i with
  | zero =>
    have h := (firingBoundary_keeps K (packetStamp pkt)
      (firingsUpTo K pkt 0 (beforeFirings self pkt)) 0 (pkt.data 0)).2.2
    have h0 : firingsUpTo K pkt 0 (beforeFirings self pkt) = beforeFirings self pkt := rfl
    unfold firingSkipped
    rw [h, h0, (beforeFirings_last_azimuth self pkt).2.2, decide_eq_true_iff]
    constructor
    · rintro ⟨h1, h2⟩
      refine ⟨h1, fun k hk => ?_⟩
      have : k = 0 := by omega
      subst this
      exact h2
    · rintro ⟨h1, h2⟩
      exact ⟨h1, h2 0 (le_refl 0)⟩
  | succ n ih =>
    have h := (firingBoundary_keeps K (packetStamp pkt)
      (firingsUpTo K pkt (n + 1) (beforeFirings self pkt)) (n + 1) (pkt.data (n + 1))).2.2
    have hs : firingSkipped K self pkt (n + 1) =
        (firingBoundary K (packetStamp pkt)
          (firingsUpTo K pkt (n + 1) (beforeFirings self pkt)) (n + 1)
          (pkt.data (n + 1))).cloudfull := rfl
    rw [hs, h, firingsUpTo_cloudfull, ih]
    constructor
    · rintro ⟨⟨h1, h2⟩, h3⟩
      refine ⟨h1, fun k hk => ?_⟩
      rcases Nat.lt_or_ge k (n + 1) with hlt | hge
      · exact h2 k (by omega)
      · have : k = n + 1 := by omega
        subst this
        exact h3
    · rintro ⟨h1, h2⟩
      exact ⟨⟨h1, fun k hk => h2 k (by omega)⟩, h2 (n + 1) (le_refl _)⟩

/-- Once a firing is not skipped, no later firing of the call is. -/
theorem firingSkipped_downward (K : MSeriesDecls) (self : DataPacketParserMSeries)
    (pkt : MSeriesDataPacket) (i j : Nat) (hij : i ≤ j)
    (hj : firingSkipped K self pkt j = true) : firingSkipped K self pkt i = true := by
  rw [firingSkipped_iff] at hj ⊢
  exact ⟨hj.1, fun k hk => hj.2 k (by omega)⟩

/-- The value of `last_azimuth_` after firing `n`: the azimuth of that firing
when it is not skipped, and the value the call started with when it is. -/
theorem firingsUpTo_last_azimuth (K : MSeriesDecls) (self : DataPacketParserMSeries)
    (pkt : MSeriesDataPacket) (n : Nat) :
    (firingSkipped K self pkt n = false →
        (firingsUpTo K pkt (n + 1) (beforeFirings self pkt)).self.last_azimuth_ =
          azimuthAngle (pkt.data n).position) ∧
      (firingSkipped K self pkt n = true →
        (firingsUpTo K pkt (n + 1) (beforeFirings self pkt)).self.last_azimuth_ =
          self.last_azimuth_) := by
  induction n with
  | zero =>
    have hp := firingPoints_last_azimuth K (distanceScaling pkt)
      (firingBoundary K (packetStamp pkt) (firingsUpTo K pkt 0 (beforeFirings self pkt)) 0
        (pkt.data 0)) (pkt.data 0)
    have hb := firingBoundary_keeps K (packetStamp pkt)
      (firingsUpTo K pkt 0 (beforeFirings self pkt)) 0 (pkt.data 0)
    have h0 : firingsUpTo K pkt 0 (beforeFirings self pkt) = beforeFirings self pkt := rfl
    rw [firingsUpTo_succ]
    unfold firingStep
    refine ⟨fun hf => hp.2.2.2 hf, fun ht => ?_⟩
    rw [hp.2.2.1 ht, hb.1, h0]
    exact (beforeFirings_last_azimuth self pkt).1
  | succ n ih =>
    have hp := firingPoints_last_azimuth K (distanceScaling pkt)
      (firingBoundary K (packetStamp pkt) (firingsUpTo K pkt (n + 1) (beforeFirings self pkt))
        (n + 1) (pkt.data (n + 1))) (pkt.data (n + 1))
    have hb := firingBoundary_keeps K (packetStamp pkt)
      (firingsUpTo K pkt (n + 1) (beforeFirings self pkt)) (n + 1) (pkt.data (n + 1))
    rw [firingsUpTo_succ K pkt (n + 1)]
    unfold firingStep
    refine ⟨fun hf => hp.2.2.2 hf, fun ht => ?_⟩
    rw [hp.2.2.1 ht, hb.1]
    exact ih.2 (firingSkipped_downward K self pkt n (n + 1) (Nat.le_succ n) ht)


/-- A call on a parser with vertical angles set and a packet that passes the
status test returns normally, with the state the firing loop leaves. -/
theorem parse_ok_of_accepted (K : MSeriesDecls) (self : DataPacketParserMSeries)
    (pkt : MSeriesDataPacket) (hv : self.vertical_angle_lookup_table_.isEmpty = false)
    (hs : statusError K pkt.status = none) :
    parse K self pkt =
      .ok
        { self :=
            { (firingLoop K pkt (beforeFirings self pkt)).self with
              previous_packet_stamp_ := packetStamp pkt },
          emitted := (firingLoop K pkt (beforeFirings self pkt)).emitted } := by
  unfold parse
  generalize firingLoop K pkt (beforeFirings self pkt) = loop
  rw [hv, hs]
  rfl

/-- C22 (amended): a call of `parse` on a parser with vertical angles set and a
packet that passes the status test returns normally, and `last_azimuth`
afterwards equals the azimuth of the packet's last firing unless that firing
was skipped; if it was skipped, every firing of the packet was skipped and
`last_azimuth` is what it was before the call.  A firing is skipped exactly
when the accumulating cloud was at or above `maximum_cloud_size` when the call
started and no rotation boundary has been detected in the call up to and
including that firing: skipping a firing suppresses its point emission and its
`last_azimuth` update. -/
theorem last_azimuth_after_parse (K : MSeriesDecls) (self : DataPacketParserMSeries)
    (pkt : MSeriesDataPacket) (hv : self.vertical_angle_lookup_table_.isEmpty = false)
    (hs : statusError K pkt.status = none) :
    ∃ o, parse K self pkt = .ok o ∧
      (firingSkipped K self pkt (M_SERIES_FIRING_PER_PKT - 1) = false →
        o.self.last_azimuth_ =
          azimuthAngle (pkt.data (M_SERIES_FIRING_PER_PKT - 1)).position) ∧
      (firingSkipped K self pkt (M_SERIES_FIRING_PER_PKT - 1) = true →
        o.self.last_azimuth_ = self.last_azimuth_ ∧
          ∀ i, i < M_SERIES_FIRING_PER_PKT → firingSkipped K self pkt i = true) ∧
      ∀ i, firingSkipped K self pkt i = true ↔
        asSizeT self.maximum_cloud_size_ ≤ self.current_cloud_.size ∧
          ∀ k, k ≤ i →
            ¬ rotationBoundary (firingsUpTo K pkt k (beforeFirings self pkt)).self
              (azimuthAngle (pkt.data k).position) := by
  have hl := firingsUpTo_last_azimuth K self pkt (M_SERIES_FIRING_PER_PKT - 1)
  have hN : M_SERIES_FIRING_PER_PKT - 1 + 1 = M_SERIES_FIRING_PER_PKT := rfl
  rw [hN] at hl
  have hloop : firingLoop K pkt (beforeFirings self pkt) =
      firingsUpTo K pkt M_SERIES_FIRING_PER_PKT (beforeFirings self pkt) := rfl
  have hok := parse_ok_of_accepted K self pkt hv hs
  rw [← hloop] at hl
  generalize firingLoop K pkt (beforeFirings self pkt) = loop at hl hok
  exact ⟨_, hok, fun hf => hl.1 hf,
    fun ht => ⟨hl.2 ht, fun i hi =>
      firingSkipped_downward K self pkt i (M_SERIES_FIRING_PER_PKT - 1)
        (Nat.le_pred_of_lt hi) ht⟩,
    fun i => firingSkipped_iff K self pkt i⟩

/-- The witness for C22: the parser limited to 10 points, holding 400, on a
packet at positions 150 .. 199: every firing is skipped and `last_azimuth`
keeps its value. -/
theorem last_azimuth_after_parse_witness :
    ∃ o, parse referenceDecls filledParser (sweepPacket 150 1 100 2) = .ok o ∧
      o.self.last_azimuth_ = filledParser.last_azimuth_ :=
  (last_azimuth_after_parse referenceDecls filledParser (sweepPacket 150 1 100 2)
    (by decide!) (by decide)).elim fun o h => ⟨o, h.1, (h.2.2.1 (by decide!)).1⟩

/-- C22 (counterexample): the parser limited to 10 points holds the 400 points
of a packet at positions 100 .. 149; on the next packet, at positions
150 .. 199, `parse` returns normally, every firing is skipped, and
`last_azimuth` stays at the azimuth of position 149 instead of moving to the
azimuth of position 199. -/
theorem last_azimuth_kept_by_skipped_firings :
    ¬ ∀ o, parse referenceDecls filledParser (sweepPacket 150 1 100 2) = .ok o →
        o.self.last_azimuth_ =
          azimuthAngle
            ((sweepPacket 150 1 100 2).data (M_SERIES_FIRING_PER_PKT - 1)).position := by
  intro h
  have h1 := h _ (parse_ok_of_accepted referenceDecls filledParser (sweepPacket 150 1 100 2)
    (by decide!) (by decide))
  have h2 : (firingLoop referenceDecls (sweepPacket 150 1 100 2)
      (beforeFirings filledParser (sweepPacket 150 1 100 2))).self.last_azimuth_ =
        azimuthAngle 149 := by decide!
  have h3 : azimuthAngle 149 ≠
      azimuthAngle
        ((sweepPacket 150 1 100 2).data (M_SERIES_FIRING_PER_PKT - 1)).position := by decide!
  generalize firingLoop referenceDecls (sweepPacket 150 1 100 2)
      (beforeFirings filledParser (sweepPacket 150 1 100 2)) = loop at h1 h2
  exact h3 (h2.symm.trans h1)

end LastAzimuth

section TableReads

/-- The firing loop never assigns the horizontal angle table: every read of a
call is a read of the table the call started with. -/
theorem firingsUpTo_table (K : MSeriesDecls) (self : DataPacketParserMSeries)
    (pkt : MSeriesDataPacket) (n : Nat) :
    (firingsUpTo K pkt n (beforeFirings self pkt)).self.horizontal_angle_lookup_table_ =
      self.horizontal_angle_lookup_table_ := by
  induction n with
  | zero => exact (beforeFirings_last_azimuth self pkt).2.1
  | succ n ih =>
    rw [firingsUpTo_succ]
    unfold firingStep
    rw [(firingPoints_last_azimuth K _ _ _).2.1, (firingBoundary_keeps K _ _ _ _).2.1]
    exact ih

/-- The reads of a call are the positions of its firings that are not
skipped. -/
theorem mem_horizontalTableReads (K : MSeriesDecls) (self : DataPacketParserMSeries)
    (pkt : MSeriesDataPacket) (p : Nat) :
    p ∈ horizontalTableReads K self pkt ↔
      ∃ i, i < M_SERIES_FIRING_PER_PKT ∧ firingSkipped K self pkt i = false ∧
        (pkt.data i).position = p := by
  unfold horizontalTableReads
  rw [List.mem_filterMap]
  constructor
  · rintro ⟨i, hi, h⟩
    refine ⟨i, List.mem_range.mp hi, ?_⟩
    cases hc : firingSkipped K self pkt i
    · rw [hc] at h
      simp only [Bool.false_eq_true, if_false, Option.some.injEq] at h
      exact ⟨rfl, h⟩
    · rw [hc] at h
      simp at h
  · rintro ⟨i, hi, hc, hp⟩
    refine ⟨i, List.mem_range.mpr hi, ?_⟩
    rw [hc, ← hp]
    rfl

/-- A call that starts with the accumulating cloud below the limit reads the
table at the position of its first firing. -/
theorem horizontalTableReads_first (K : MSeriesDecls) (self : DataPacketParserMSeries)
    (pkt : MSeriesDataPacket)
    (hroom : self.current_cloud_.size < asSizeT self.maximum_cloud_size_) :
    (pkt.data 0).position ∈ horizontalTableReads K self pkt := by
  rw [mem_horizontalTableReads]
  refine ⟨0, by decide, ?_, rfl⟩
  cases hc : firingSkipped K self pkt 0
  · rfl
  · have := ((firingSkipped_iff K self pkt 0).mp hc).1
    omega

/-- A read at a position up to `N_ROT` is within a table of `N_ROT + 1`
entries, and a read at any higher position is outside it. -/
theorem table_read_inside_iff (table : List ℚ)
    (hlen : table.length = M_SERIES_NUM_ROT_ANGLES + 1) (p : Nat) :
    (table[p]?).isSome = true ↔ p ≤ M_SERIES_NUM_ROT_ANGLES := by
  rw [Option.isSome_iff_exists]
  constructor
  · rintro ⟨a, ha⟩
    have := (List.getElem?_eq_some.mp ha).1
    omega
  · intro hp
    exact ⟨table.get ⟨p, by omega⟩, List.getElem?_eq_getElem (by omega)⟩

/-- On a packet whose positions are all at most `N_ROT`, every read of the
table of `N_ROT + 1` entries is within the table. -/
theorem horizontalTableReads_inside (K : MSeriesDecls) (self : DataPacketParserMSeries)
    (pkt : MSeriesDataPacket)
    (hlen : self.horizontal_angle_lookup_table_.length = M_SERIES_NUM_ROT_ANGLES + 1)
    (hpos : ∀ i, i < M_SERIES_FIRING_PER_PKT → (pkt.data i).position ≤ M_SERIES_NUM_ROT_ANGLES)
    (p : Nat) (hp : p ∈ horizontalTableReads K self pkt) :
    p < self.horizontal_angle_lookup_table_.length := by
  obtain ⟨i, hi, _, rfl⟩ := (mem_horizontalTableReads K self pkt p).mp hp
  have := hpos i hi
  omega

/-- C23 (the code at the failing input): the packet whose firings are at the
16 bit positions 20000 .. 20049 is accepted by `parse` on the sample parser,
whose horizontal angle table has `N_ROT + 1` = 10401 entries; the call reads
the table at index 20000 for its first firing, outside the table, and the
eight points of that firing carry what was read there.  The legacy
`PointCloudGeneratorM8::parse` does the same on such a packet. -/
theorem horizontal_table_read_beyond_table :
    (∀ i, i < M_SERIES_FIRING_PER_PKT → (strayPacket.data i).position < 2 ^ 16) ∧
      (∃ o, parse referenceDecls sampleParser strayPacket = .ok o) ∧
      sampleParser.horizontal_angle_lookup_table_.length = M_SERIES_NUM_ROT_ANGLES + 1 ∧
      (strayPacket.data 0).position ∈
        horizontalTableReads referenceDecls sampleParser strayPacket ∧
      ¬ (strayPacket.data 0).position < sampleParser.horizontal_angle_lookup_table_.length ∧
      (firingsUpTo referenceDecls strayPacket 1
          (beforeFirings sampleParser strayPacket)).self.current_cloud_.points.map
        (fun p => p.h) = List.replicate 8 none ∧
      (∀ i, i < M8_FIRING_PER_PKT → (strayPacketM8.data i).position < 2 ^ 16) ∧
      (sampleGeneratorM8.parse strayPacketM8).raised = none ∧
      sampleGeneratorM8.horizontal_angle_lookup_table_.length = M8_NUM_ROT_ANGLES + 1 ∧
      (strayPacketM8.data 0).position ∈ m8HorizontalTableReads strayPacketM8 ∧
      ¬ (strayPacketM8.data 0).position <
          sampleGeneratorM8.horizontal_angle_lookup_table_.length ∧
      (sampleGeneratorM8.parse strayPacketM8).self.current_cloud_.points.all
        (fun p => p.h.isNone) = true := by
  have hlen : sampleParser.horizontal_angle_lookup_table_.length =
      M_SERIES_NUM_ROT_ANGLES + 1 := by
    simp [sampleParser, DataPacketParserMSeries.ctor]
  have hlen8 : sampleGeneratorM8.horizontal_angle_lookup_table_.length =
      M8_NUM_ROT_ANGLES + 1 := by
    simp [sampleGeneratorM8, PointCloudGeneratorM8.ctor]
  refine ⟨?_, ⟨_, parse_ok_of_accepted referenceDecls sampleParser strayPacket
      (by decide) (by decide)⟩, hlen,
    horizontalTableReads_first referenceDecls sampleParser strayPacket (by decide), ?_,
    by decide!, ?_, by decide, hlen8, ?_, ?_, by decide!⟩
  · intro i hi
    have hi50 : i < 50 := hi
    show 20000 + i < 2 ^ 16
    omega
  · rw [hlen]
    decide
  · intro i hi
    have hi50 : i < 50 := hi
    show 20000 + i < 2 ^ 16
    omega
  · unfold m8HorizontalTableReads
    exact List.mem_map.mpr ⟨0, List.mem_range.mpr (by decide), rfl⟩
  · rw [hlen8]
    decide

end TableReads

end Quanergy
